import Mathlib

/-!
Verification of the SELinux policy-package-to-CIL translator
(`policycoreutils/hll/pp/pp.c`) and the module-info name validator
(`libsemanage/src/modules.c`) against their natural-language specification.

The C sources are shallowly embedded: ebitmaps become lists of set bit
indices (in canonical increasing order), hash tables become association
lists in their iteration order, `val_to_name` arrays become `List String`,
emission to the output stream becomes an accumulated `List String` of
printf-chunks, fallible functions return `Option`, and the process-wide
synthesised-attribute counter is threaded explicitly.
-/

set_option maxRecDepth 10000

namespace Semanage

/-- ASCII `isalpha` (the C locale). -/
def isalphaC (c : Char) : Bool :=
  ('A' ≤ c && c ≤ 'Z') || ('a' ≤ c && c ≤ 'z')

/-- ASCII `isdigit`. -/
def isdigitC (c : Char) : Bool := '0' ≤ c && c ≤ '9'

/-- ASCII `isalnum` (the C locale). -/
def isalnumC (c : Char) : Bool := isalphaC c || isdigitC c

/-- `ISVALIDCHAR` from `semanage_module_validate_name`:
`isalnum(c) || c == '_' || c == '-'`. -/
def isValidNameChar (c : Char) : Bool := isalnumC c || c = '_' || c = '-'

/-- The character loop of `semanage_module_validate_name`
(`modules.c:1002-1011`): a valid character continues; a `.` consumes the
following character, which must itself be valid; anything else fails. -/
def validate_name_loop : List Char → Int
  | [] => 0
  | c :: rest =>
    if isValidNameChar c then validate_name_loop rest
    else if c = '.' then
      match rest with
      | [] => -1
      | c2 :: rest2 => if isValidNameChar c2 then validate_name_loop rest2 else -1
    else -1

/-- `semanage_module_validate_name` (`modules.c:982-1017`).  A C string is
modelled as `Option (List Char)` (`none` is the null pointer); for the empty
string `isalpha('\0')` is false, matching the `[] => -1` branch. -/
def semanage_module_validate_name : Option (List Char) → Int
  | none => -1
  | some s =>
    if s = "_base".toList then 0
    else
      match s with
      | [] => -1
      | c :: rest => if !isalphaC c then -1 else validate_name_loop rest

/-- One `[A-Za-z0-9_-]` character of the spec's regular expression. -/
def nameBodyChar (c : Char) : Bool := isalnumC c || c = '_' || c = '-'

/-- Matcher for `([.]?[A-Za-z0-9_-])*`, written from the spec's regular
expression: a (possibly empty) sequence of groups, each an optional dot
followed by one `[A-Za-z0-9_-]` character. -/
def matchesGroups : List Char → Bool
  | [] => true
  | c :: rest =>
    (nameBodyChar c && matchesGroups rest)
    || (c = '.' &&
        match rest with
        | [] => false
        | c2 :: rest2 => nameBodyChar c2 && matchesGroups rest2)

/-- Matcher for the spec's `^[A-Za-z]([.]?[A-Za-z0-9_-])*$`. -/
def matchesNameRegex : List Char → Bool
  | [] => false
  | c :: rest => isalphaC c && matchesGroups rest

/-- The spec's acceptance condition for a module name: the literal
`"_base"`, or a match of the regular expression; the null string is
rejected. -/
def nameSpecAccepts : Option (List Char) → Bool
  | none => false
  | some s => s = "_base".toList || matchesNameRegex s

end Semanage

namespace PP

/-! ## Constants from `sepol/policydb/policydb.h` and friends -/

def SYM_NUM : Nat := 8
def SYM_COMMONS : Nat := 0
def SYM_CLASSES : Nat := 1
def SYM_ROLES : Nat := 2
def SYM_TYPES : Nat := 3
def SYM_USERS : Nat := 4
def SYM_BOOLS : Nat := 5
def SYM_LEVELS : Nat := 6
def SYM_CATS : Nat := 7

def SCOPE_REQ : Nat := 1
def SCOPE_DECL : Nat := 2

def AVRULE_ALLOWED : Nat := 1
def AVRULE_AUDITALLOW : Nat := 2
def AVRULE_AUDITDENY : Nat := 4
def AVRULE_DONTAUDIT : Nat := 8
def AVRULE_TRANSITION : Nat := 16
def AVRULE_MEMBER : Nat := 32
def AVRULE_CHANGE : Nat := 64
def AVRULE_NEVERALLOW : Nat := 128
def AVRULE_AV : Nat :=
  AVRULE_ALLOWED + AVRULE_AUDITALLOW + AVRULE_AUDITDENY + AVRULE_DONTAUDIT +
    AVRULE_NEVERALLOW
def RULE_SELF : Nat := 1

def AVRULE_OPTIONAL : Nat := 1

def COND_BOOL : Nat := 1
def COND_NOT : Nat := 2
def COND_OR : Nat := 3
def COND_AND : Nat := 4
def COND_XOR : Nat := 5
def COND_EQ : Nat := 6
def COND_NEQ : Nat := 7
def COND_NODE_FLAGS_TUNABLE : Nat := 1
def COND_BOOL_FLAGS_TUNABLE : Nat := 1

def TYPE_STAR : Nat := 1
def TYPE_COMP : Nat := 2

def SEPOL_POLICY_BASE : Nat := 1
def SEPOL_POLICY_MOD : Nat := 2

def SEPOL_DENY_UNKNOWN : Nat := 0
def SEPOL_REJECT_UNKNOWN : Nat := 2
def SEPOL_ALLOW_UNKNOWN : Nat := 4

def SEPOL_TARGET_SELINUX : Nat := 0
def SEPOL_TARGET_XEN : Nat := 1

def ROLE_ROLE : Nat := 0
def ROLE_ATTRIB : Nat := 1
def TYPE_TYPE : Nat := 0
def TYPE_ATTRIB : Nat := 1
def TYPE_FLAGS_PERMISSIVE : Nat := 1

def DEFAULT_SOURCE : Nat := 1
def DEFAULT_TARGET : Nat := 2
def DEFAULT_SOURCE_LOW : Nat := 1
def DEFAULT_SOURCE_HIGH : Nat := 2
def DEFAULT_SOURCE_LOW_HIGH : Nat := 3
def DEFAULT_TARGET_LOW : Nat := 4
def DEFAULT_TARGET_HIGH : Nat := 5
def DEFAULT_TARGET_LOW_HIGH : Nat := 6

/-- `DEFAULT_LEVEL` from `pp.c`. -/
def DEFAULT_LEVEL : String := "systemlow"
/-- `DEFAULT_OBJECT` from `pp.c`. -/
def DEFAULT_OBJECT : String := "object_r"

/-! ## Data model

An `ebitmap` is modelled as the list of its set bit indices in canonical
increasing order; iteration over the bitmap is iteration over the list, and
`ebitmap_and` followed by `ebitmap_cmp` against the second operand (the
subset test used by `is_scope_superset`) is the set-inclusion test below. -/

abbrev Ebitmap := List Nat

/-- `ebitmap_and(res, sup, sub); ebitmap_cmp(res, sub)`: `sub ⊆ sup`. -/
def ebitmapSubsetB (sub sup : Ebitmap) : Bool :=
  sub.all fun x => sup.contains x

/-- `struct scope_index`: per-symbol-kind scope bitmaps plus the per-class
permission map. -/
structure ScopeIndex where
  scope : Nat → Ebitmap
  class_perms_len : Nat
  class_perms_map : Nat → Ebitmap

/-- `is_scope_superset` (`pp.c:2719-2764`): `sup ⊇ sub` iff each per-symbol
scope bitmap of `sub` is included in that of `sup`, `sup` has at least as
many class-perm entries, and each of `sub`'s class-perm bitmaps is included
in the corresponding entry of `sup`. -/
def is_scope_superset (sup sub : ScopeIndex) : Bool :=
  ((List.range SYM_NUM).all fun i => ebitmapSubsetB (sub.scope i) (sup.scope i))
    && (sub.class_perms_len ≤ sup.class_perms_len)
    && ((List.range sub.class_perms_len).all fun i =>
          ebitmapSubsetB (sub.class_perms_map i) (sup.class_perms_map i))

/-- `struct type_set`. -/
structure TypeSet where
  types : Ebitmap
  negset : Ebitmap
  flags : Nat

/-- `struct role_set`. -/
structure RoleSet where
  roles : Ebitmap
  flags : Nat

/-- `struct class_perm_node`. -/
structure ClassPermNode where
  cls : Nat
  data : Nat

/-- `struct avrule`. -/
structure Avrule where
  specified : Nat
  flags : Nat
  stypes : TypeSet
  ttypes : TypeSet
  perms : List ClassPermNode

/-- One node of a `struct cond_expr` RPN list (`expr_type`, `bool`). -/
structure CondExprNode where
  expr_type : Nat
  boolId : Nat

/-- `struct cond_node`. -/
structure CondNode where
  expr : List CondExprNode
  flags : Nat
  avtrue_list : List Avrule
  avfalse_list : List Avrule

/-- `struct role_trans_rule`. -/
structure RoleTransRule where
  roles : RoleSet
  types : TypeSet
  classes : Ebitmap
  new_role : Nat

/-- `struct role_allow_rule`. -/
structure RoleAllowRule where
  roles : RoleSet
  new_roles : RoleSet

/-- `struct mls_semantic_cat` (one node of the linked list). -/
structure SemCat where
  low : Nat
  high : Nat

/-- `struct mls_semantic_level`. -/
structure SemLevel where
  sens : Nat
  cat : List SemCat

/-- `struct mls_semantic_range`. -/
structure SemRange where
  low : SemLevel
  high : SemLevel

/-- `struct mls_level`. -/
structure MlsLevel where
  sens : Nat
  cat : Ebitmap

/-- `struct mls_range`. -/
structure MlsRange where
  low : MlsLevel
  high : MlsLevel

/-- `struct range_trans_rule`. -/
structure RangeTransRule where
  stypes : TypeSet
  ttypes : TypeSet
  tclasses : Ebitmap
  trange : SemRange

/-- `struct filename_trans_rule`. -/
structure FilenameTransRule where
  stypes : TypeSet
  ttypes : TypeSet
  tclass : Nat
  name : String
  otype : Nat

/-- `struct class_datum`.  The permission hash table is modelled by its
iteration order; `constraints` and `validatetrans` are outside this model
(no claim concerns them). -/
structure ClassDatum where
  permNames : List String
  comkey : Option String
  default_user : Nat
  default_role : Nat
  default_type : Nat
  default_range : Nat

/-- `struct common_datum`. -/
structure CommonDatum where
  permNames : List String

/-- `struct role_datum`. -/
structure RoleDatum where
  value : Nat
  flavor : Nat
  types : TypeSet
  dominates : Ebitmap
  bounds : Nat
  roles : Ebitmap

/-- `struct type_datum`. -/
structure TypeDatum where
  value : Nat
  flavor : Nat
  primary : Nat
  flags : Nat
  bounds : Nat
  types : Ebitmap

/-- `struct user_datum`. -/
structure UserDatum where
  roles : Ebitmap
  dfltlevel : SemLevel
  range : SemRange

/-- `struct cond_bool_datum`. -/
structure BoolDatum where
  state : Bool
  flags : Nat

/-- `struct level_datum`. -/
structure LevelDatum where
  isalias : Bool
  level : MlsLevel

/-- `struct cat_datum`. -/
structure CatDatum where
  value : Nat
  isalias : Bool

/-- `struct scope_datum`. -/
structure ScopeDatum where
  scope : Nat
  decl_ids : List Nat

/-- `struct context_struct`. -/
structure Context where
  user : Nat
  role : Nat
  type : Nat
  range : MlsRange

/-- One initial-SID `struct ocontext` entry (`sid[0]`, `context[0]`). -/
structure Isid where
  sid : Nat
  context : Context

/-- `struct avrule_decl`.  The per-kind local symtabs are the additive
scopes; a decl-local commons table cannot occur and is not modelled. -/
structure AvruleDecl where
  decl_id : Nat
  declared : ScopeIndex
  required : ScopeIndex
  symClasses : List (String × ClassDatum)
  symRoles : List (String × RoleDatum)
  symTypes : List (String × TypeDatum)
  symUsers : List (String × UserDatum)
  symBools : List (String × BoolDatum)
  symLevels : List (String × LevelDatum)
  symCats : List (String × CatDatum)
  avrules : List Avrule
  role_tr_rules : List RoleTransRule
  role_allow_rules : List RoleAllowRule
  range_tr_rules : List RangeTransRule
  filename_trans_rules : List FilenameTransRule
  cond_list : List CondNode

/-- `struct avrule_block`: flags and the `branch_list` of decls. -/
structure AvruleBlock where
  flags : Nat
  branch_list : List AvruleDecl

/-- The policy database (`struct policydb`), restricted to the constructs
this development models: hash tables are association lists in iteration
order, `val_to_name` arrays are `List String`, `sepol_av_to_string` and
`sepol_polcap_getname` are external collaborators supplied as functions.
Of the object contexts only initial SIDs are modelled; `genfs`, `seusers`,
`user_extra` and `netfilter_contexts` sections are outside the model. -/
structure Policydb where
  name : String
  policy_type : Nat
  mls : Bool
  handle_unknown : Nat
  target_platform : Nat
  policycaps : Ebitmap
  class_val_to_name : List String
  role_val_to_name : List String
  type_val_to_name : List String
  user_val_to_name : List String
  bool_val_to_name : List String
  sens_val_to_name : List String
  cat_val_to_name : List String
  p_commons : List (String × CommonDatum)
  p_classes : List (String × ClassDatum)
  p_roles : List (String × RoleDatum)
  p_types : List (String × TypeDatum)
  p_users : List (String × UserDatum)
  p_bools : List (String × BoolDatum)
  p_levels : List (String × LevelDatum)
  p_cats : List (String × CatDatum)
  scope_tabs : Nat → List (String × ScopeDatum)
  avToString : Nat → Nat → String
  capName : Nat → Option String
  isids : List Isid
  global : List AvruleBlock

/-- `val_to_name` array indexing (the pdb invariant guarantees the index is
in range; out-of-range reads default to `""`). -/
def vtn (l : List String) (i : Nat) : String := l.getD i ""

/-- `pdb->sym_val_to_name[sym]`. -/
def symValToName (pdb : Policydb) (sym : Nat) : List String :=
  if sym = SYM_CLASSES then pdb.class_val_to_name
  else if sym = SYM_ROLES then pdb.role_val_to_name
  else if sym = SYM_TYPES then pdb.type_val_to_name
  else if sym = SYM_USERS then pdb.user_val_to_name
  else if sym = SYM_BOOLS then pdb.bool_val_to_name
  else if sym = SYM_LEVELS then pdb.sens_val_to_name
  else if sym = SYM_CATS then pdb.cat_val_to_name
  else []

/-! ## The emitter

`cil_printf` chunks are accumulated in order in a `List String`;
`cil_indent n` contributes `4·|n|` spaces (`fprintf("%*s", n*4, "")` pads
with spaces for positive and negative widths alike) and `cil_println`
contributes the indent, the formatted text and a newline as one chunk. -/

def indentStr (indent : Int) : String :=
  String.mk (List.replicate (4 * indent.natAbs) ' ')

/-- `cil_println(indent, text)` as a single chunk. -/
def println (indent : Int) (text : String) : String :=
  indentStr indent ++ text ++ "\n"

/-! ## Name and set utilities (`pp.c:199-590`) -/

/-- One category (or category range) of `semantic_level_to_cil`. -/
def semCatText (pdb : Policydb) (c : SemCat) : String :=
  if c.low = c.high then vtn pdb.cat_val_to_name (c.low - 1)
  else "range " ++ vtn pdb.cat_val_to_name (c.low - 1) ++ " " ++
    vtn pdb.cat_val_to_name (c.high - 1)

/-- The category loop of `semantic_level_to_cil`: a space is printed after
an entry only when another entry follows. -/
def semCatChunks (pdb : Policydb) : List SemCat → List String
  | [] => []
  | [c] => [semCatText pdb c]
  | c :: rest => semCatText pdb c :: " " :: semCatChunks pdb rest

/-- `semantic_level_to_cil` (`pp.c:199-228`).  Note the sensitivity index is
`level->sens - sens_offset` (no additional `-1`). -/
def semantic_level_to_cil (pdb : Policydb) (sens_offset : Nat) (level : SemLevel) :
    List String :=
  ["(" ++ vtn pdb.sens_val_to_name (level.sens - sens_offset) ++ " "]
    ++ (if level.cat.isEmpty then [] else ["("])
    ++ semCatChunks pdb level.cat
    ++ (if level.cat.isEmpty then [] else [")"])
    ++ [")"]

/-- The operator-name table of `avrule_to_cil` (`pp.c:237-266`), including
the preserved `auditdenty` misspelling. -/
def avruleOpName (type : Nat) : Option String :=
  if type = AVRULE_ALLOWED then some "allow"
  else if type = AVRULE_AUDITALLOW then some "auditallow"
  else if type = AVRULE_AUDITDENY then some "auditdenty"
  else if type = AVRULE_DONTAUDIT then some "dontaudit"
  else if type = AVRULE_NEVERALLOW then some "neverallow"
  else if type = AVRULE_TRANSITION then some "typetransition"
  else if type = AVRULE_MEMBER then some "typemember"
  else if type = AVRULE_CHANGE then some "typechange"
  else none

/-- `avrule_to_cil` (`pp.c:230-292`): one output line per class-perm node;
access-vector flavors expand the permission bitmap through
`sepol_av_to_string` (whose leading space is dropped), type rules print the
destination type. -/
def avrule_to_cil (indent : Int) (pdb : Policydb) (type : Nat) (src tgt : String)
    (classperms : List ClassPermNode) : Option (List String) :=
  match avruleOpName type with
  | none => none
  | some rule => some <| classperms.map fun cp =>
      if type &&& AVRULE_AV ≠ 0 then
        println indent ("(" ++ rule ++ " " ++ src ++ " " ++ tgt ++ " (" ++
          vtn pdb.class_val_to_name (cp.cls - 1) ++ " (" ++
          (pdb.avToString cp.cls cp.data).drop 1 ++ ")))")
      else
        println indent ("(" ++ rule ++ " " ++ src ++ " " ++ tgt ++ " " ++
          vtn pdb.class_val_to_name (cp.cls - 1) ++ " " ++
          vtn pdb.type_val_to_name (cp.data - 1) ++ ")")

/-- The body of the `(type|role)attributeset` form synthesised by
`set_to_cil_attr` (`pp.c:357-399`): the chunks emitted between the opening
`(…attributeset NAME ` and the closing `)`. -/
def set_attr_body (valNames : List String) (pos neg : Ebitmap) (flags : Nat) :
    List String :=
  let has_positive := !pos.isEmpty
  let has_negative := !neg.isEmpty
  (if flags &&& TYPE_STAR ≠ 0 then ["(all)"] else [])
    ++ (if flags &&& TYPE_COMP ≠ 0 then ["(not "] else [])
    ++ (if has_positive && has_negative then ["(and "] else [])
    ++ (if has_positive then
          ["("] ++ pos.map (fun i => vtn valNames i ++ " ") ++ [") "] else [])
    ++ (if has_negative then
          ["(not ("] ++ neg.map (fun i => vtn valNames i ++ " ") ++ ["))"] else [])
    ++ (if has_positive && has_negative then [")"] else [])
    ++ (if flags &&& TYPE_COMP ≠ 0 then [")"] else [])

/-- `set_to_cil_attr` (`pp.c:304-415`).  `numAttrs` is the process-wide
`num_attrs` counter, incremented before use; the synthesised name is
`<module><infix-token><counter>`.  Returns the emitted chunks, the
one-element name vector and the new counter. -/
def set_to_cil_attr (indent : Int) (pdb : Policydb) (is_type : Bool)
    (pos neg : Ebitmap) (flags : Nat) (numAttrs : Nat) :
    List String × List String × Nat :=
  let numNew := numAttrs + 1
  let attrMid := if is_type then "_typeattr_" else "_roleattr_"
  let statement := if is_type then "type" else "role"
  let valNames := if is_type then pdb.type_val_to_name else pdb.role_val_to_name
  let attr := pdb.name ++ attrMid ++ toString numNew
  ([println indent ("(" ++ statement ++ "attribute " ++ attr ++ ")"),
    indentStr indent,
    "(" ++ statement ++ "attributeset " ++ attr ++ " "]
      ++ set_attr_body valNames pos neg flags ++ [")\n"],
   [attr], numNew)

/-- `ebitmap_to_names` (`pp.c:433-484`): the names of the set bits. -/
def ebitmap_to_names (valNames : List String) (map : Ebitmap) : List String :=
  map.map (vtn valNames)

/-- `typeset_to_names` (`pp.c:486-504`). -/
def typeset_to_names (indent : Int) (pdb : Policydb) (ts : TypeSet)
    (numAttrs : Nat) : List String × List String × Nat :=
  if !ts.negset.isEmpty || ts.flags ≠ 0 then
    set_to_cil_attr indent pdb true ts.types ts.negset ts.flags numAttrs
  else
    ([], ebitmap_to_names pdb.type_val_to_name ts.types, numAttrs)

/-- `roleset_to_names` (`pp.c:506-524`); the negative set passed to
`set_to_cil_attr` is null. -/
def roleset_to_names (indent : Int) (pdb : Policydb) (rs : RoleSet)
    (numAttrs : Nat) : List String × List String × Nat :=
  if rs.flags ≠ 0 then
    set_to_cil_attr indent pdb false rs.roles [] rs.flags numAttrs
  else
    ([], ebitmap_to_names pdb.role_val_to_name rs.roles, numAttrs)

/-! ## Rule lowering (`pp.c:592-1033`) -/

/-- The inner target loop of `avrule_list_to_cil` for one source name. -/
def avrule_inner (indent : Int) (pdb : Policydb) (spec : Nat)
    (perms : List ClassPermNode) (s : String) :
    List String → Option (List String)
  | [] => some []
  | t :: ts =>
    match avrule_to_cil indent pdb spec s t perms with
    | none => none
    | some ls =>
      match avrule_inner indent pdb spec perms s ts with
      | none => none
      | some rest => some (ls ++ rest)

/-- The source loop of `avrule_list_to_cil` for one avrule: the Cartesian
product of the source and target names, plus a `self` line per source when
the rule's flags include `RULE_SELF`. -/
def avrule_outer (indent : Int) (pdb : Policydb) (rule : Avrule)
    (tnames : List String) : List String → Option (List String)
  | [] => some []
  | s :: ss =>
    match avrule_inner indent pdb rule.specified rule.perms s tnames with
    | none => none
    | some ls =>
      match (if rule.flags &&& RULE_SELF ≠ 0 then
               avrule_to_cil indent pdb rule.specified s "self" rule.perms
             else some []) with
      | none => none
      | some selfLs =>
        match avrule_outer indent pdb rule tnames ss with
        | none => none
        | some rest => some (ls ++ selfLs ++ rest)

/-- `avrule_list_to_cil` (`pp.c:592-642`). -/
def avrule_list_to_cil (indent : Int) (pdb : Policydb) :
    List Avrule → Nat → Option (List String × Nat)
  | [], numAttrs => some ([], numAttrs)
  | rule :: rules, numAttrs =>
    let (c1, snames, n1) := typeset_to_names indent pdb rule.stypes numAttrs
    let (c2, tnames, n2) := typeset_to_names indent pdb rule.ttypes n1
    match avrule_outer indent pdb rule tnames snames with
    | none => none
    | some lines =>
      match avrule_list_to_cil indent pdb rules n2 with
      | none => none
      | some (rest, n3) => some (c1 ++ c2 ++ lines ++ rest, n3)

/-! ## Conditional-expression lowering (`pp.c:644-824`) -/

/-- The operator-name table of `cond_expr_to_cil` (`pp.c:684-694`). -/
def condOpName (t : Nat) : Option String :=
  if t = COND_NOT then some "not"
  else if t = COND_OR then some "or"
  else if t = COND_AND then some "and"
  else if t = COND_XOR then some "xor"
  else if t = COND_EQ then some "eq"
  else if t = COND_NEQ then some "neq"
  else none

/-- The node loop of `cond_expr_to_cil`: the RPN stack machine.  A `BOOL`
leaf pushes `(<name>)`; `NOT` pops one operand, the binary operators pop
two; an unknown node type, or a pop from an empty stack, fails.  Returns
the final operand stack. -/
def cond_expr_run (pdb : Policydb) :
    List CondExprNode → List String → Option (List String)
  | [], stack => some stack
  | curr :: rest, stack =>
    if curr.expr_type = COND_BOOL then
      cond_expr_run pdb rest
        (("(" ++ vtn pdb.bool_val_to_name (curr.boolId - 1) ++ ")") :: stack)
    else
      match condOpName curr.expr_type with
      | none => none
      | some op =>
        if curr.expr_type = COND_NOT then
          match stack with
          | [] => none
          | val1 :: stack1 =>
            cond_expr_run pdb rest (("(" ++ op ++ " " ++ val1 ++ ")") :: stack1)
        else
          match stack with
          | val2 :: val1 :: stack2 =>
            cond_expr_run pdb rest
              (("(" ++ op ++ " " ++ val1 ++ " " ++ val2 ++ ")") :: stack2)
          | _ => none

/-- `cond_expr_to_cil` (`pp.c:644-785`): after the node list, exactly one
operand must remain; the emitted header line is `(tunableif <expr>` when
the cond node's flags include `TUNABLE`, else `(booleanif <expr>`. -/
def cond_expr_to_cil (indent : Int) (pdb : Policydb) (nodes : List CondExprNode)
    (flags : Nat) : Option (List String) :=
  match cond_expr_run pdb nodes [] with
  | none => none
  | some stack =>
    match stack with
    | [val1] =>
      some [println indent ("(" ++
        (if flags &&& COND_NODE_FLAGS_TUNABLE ≠ 0 then "tunableif"
         else "booleanif") ++ " " ++ val1)]
    | _ => none

/-- `cond_list_to_cil` (`pp.c:787-824`). -/
def cond_list_to_cil (indent : Int) (pdb : Policydb) :
    List CondNode → Nat → Option (List String × Nat)
  | [], numAttrs => some ([], numAttrs)
  | cond :: conds, numAttrs =>
    match cond_expr_to_cil indent pdb cond.expr cond.flags with
    | none => none
    | some hdr =>
      match (if !cond.avtrue_list.isEmpty then
               match avrule_list_to_cil (indent + 2) pdb cond.avtrue_list numAttrs with
               | none => none
               | some (ls, n') =>
                 some (println (indent + 1) "(true" :: ls ++ [println (indent + 1) ")"], n')
             else some ([], numAttrs)) with
      | none => none
      | some (tchunks, n1) =>
        match (if !cond.avfalse_list.isEmpty then
                 match avrule_list_to_cil (indent + 2) pdb cond.avfalse_list n1 with
                 | none => none
                 | some (ls, n') =>
                   some (println (indent + 1) "(false" :: ls ++ [println (indent + 1) ")"], n')
               else some ([], n1)) with
        | none => none
        | some (fchunks, n2) =>
          match cond_list_to_cil indent pdb conds n2 with
          | none => none
          | some (rest, n3) =>
            some (hdr ++ tchunks ++ fchunks ++ [println indent ")"] ++ rest, n3)

/-- `role_trans_to_cil` (`pp.c:826-876`). -/
def role_trans_to_cil (indent : Int) (pdb : Policydb) :
    List RoleTransRule → Nat → List String × Nat
  | [], numAttrs => ([], numAttrs)
  | rule :: rules, numAttrs =>
    let (c1, role_names, n1) := roleset_to_names indent pdb rule.roles numAttrs
    let (c2, type_names, n2) := typeset_to_names indent pdb rule.types n1
    let lines := role_names.flatMap fun r =>
      type_names.flatMap fun t =>
        rule.classes.map fun i =>
          println indent ("(roletransition " ++ r ++ " " ++ t ++ " " ++
            vtn pdb.class_val_to_name i ++ " " ++
            vtn pdb.role_val_to_name (rule.new_role - 1) ++ ")")
    let (rest, n3) := role_trans_to_cil indent pdb rules n2
    (c1 ++ c2 ++ lines ++ rest, n3)

/-- `role_allows_to_cil` (`pp.c:878-917`). -/
def role_allows_to_cil (indent : Int) (pdb : Policydb) :
    List RoleAllowRule → Nat → List String × Nat
  | [], numAttrs => ([], numAttrs)
  | rule :: rules, numAttrs =>
    let (c1, roles, n1) := roleset_to_names indent pdb rule.roles numAttrs
    let (c2, new_roles, n2) := roleset_to_names indent pdb rule.new_roles n1
    let lines := roles.flatMap fun r =>
      new_roles.map fun nr => println indent ("(roleallow " ++ r ++ " " ++ nr ++ ")")
    let (rest, n3) := role_allows_to_cil indent pdb rules n2
    (c1 ++ c2 ++ lines ++ rest, n3)

/-- The per-rule loop of `range_trans_to_cil`. -/
def range_trans_rules_to_cil (indent : Int) (pdb : Policydb) :
    List RangeTransRule → Nat → List String × Nat
  | [], numAttrs => ([], numAttrs)
  | rule :: rules, numAttrs =>
    let (c1, stypes, n1) := typeset_to_names indent pdb rule.stypes numAttrs
    let (c2, ttypes, n2) := typeset_to_names indent pdb rule.ttypes n1
    let lines := stypes.flatMap fun s =>
      ttypes.flatMap fun t =>
        rule.tclasses.flatMap fun i =>
          [indentStr indent,
           "(rangetransition " ++ s ++ " " ++ t ++ " " ++
             vtn pdb.class_val_to_name i ++ " ",
           "("]
            ++ semantic_level_to_cil pdb 1 rule.trange.low
            ++ [" "]
            ++ semantic_level_to_cil pdb 1 rule.trange.high
            ++ ["))\n"]
    let (rest, n3) := range_trans_rules_to_cil indent pdb rules n2
    (c1 ++ c2 ++ lines ++ rest, n3)

/-- `range_trans_to_cil` (`pp.c:919-988`): emits nothing when the policy is
not MLS. -/
def range_trans_to_cil (indent : Int) (pdb : Policydb)
    (rules : List RangeTransRule) (numAttrs : Nat) : List String × Nat :=
  if !pdb.mls then ([], numAttrs)
  else range_trans_rules_to_cil indent pdb rules numAttrs

/-- `filename_trans_to_cil` (`pp.c:990-1033`). -/
def filename_trans_to_cil (indent : Int) (pdb : Policydb) :
    List FilenameTransRule → Nat → List String × Nat
  | [], numAttrs => ([], numAttrs)
  | rule :: rules, numAttrs =>
    let (c1, stypes, n1) := typeset_to_names indent pdb rule.stypes numAttrs
    let (c2, ttypes, n2) := typeset_to_names indent pdb rule.ttypes n1
    let lines := stypes.flatMap fun s =>
      ttypes.map fun t =>
        println indent ("(typetransition " ++ s ++ " " ++ t ++ " " ++
          vtn pdb.class_val_to_name (rule.tclass - 1) ++ " " ++
          rule.name ++ " " ++ vtn pdb.type_val_to_name (rule.otype - 1) ++ ")")
    let (rest, n3) := filename_trans_to_cil indent pdb rules n2
    (c1 ++ c2 ++ lines ++ rest, n3)

/-! ## Symbol lowering (`pp.c:1036-1752`) -/

/-- `ebitmap_to_cil` (`pp.c:417-431`): prints each set bit's name followed by
a space. -/
def ebitmap_to_cil (valNames : List String) (map : Ebitmap) : List String :=
  map.map fun i => vtn valNames i ++ " "

/-- The `DEFAULT_SOURCE`/`DEFAULT_TARGET` switches of `class_to_cil`. -/
def defaultStr (v : Nat) : Option String :=
  if v = DEFAULT_SOURCE then some "source"
  else if v = DEFAULT_TARGET then some "target"
  else none

/-- The `default_range` switch of `class_to_cil` (`pp.c:1371-1382`). -/
def defaultRangeStr (v : Nat) : Option String :=
  if v = DEFAULT_SOURCE_LOW then some "source low"
  else if v = DEFAULT_SOURCE_HIGH then some "source high"
  else if v = DEFAULT_SOURCE_LOW_HIGH then some "source low-high"
  else if v = DEFAULT_TARGET_LOW then some "target low"
  else if v = DEFAULT_TARGET_HIGH then some "target high"
  else if v = DEFAULT_TARGET_LOW_HIGH then some "target low-high"
  else none

/-- `class_to_cil` (`pp.c:1312-1404`): required scope emits nothing; the
constraint and validatetrans tails of the source are outside this model
(the modelled `ClassDatum` carries neither). -/
def class_to_cil (indent : Int) (pdb : Policydb) (key : String)
    (cls : ClassDatum) (scope : Nat) : Option (List String) :=
  if scope = SCOPE_REQ then some []
  else
    match (if cls.default_user ≠ 0 then
        (defaultStr cls.default_user).map fun d =>
          [println indent ("(defaultuser " ++ key ++ " " ++ d ++ ")")]
      else some []) with
    | none => none
    | some du =>
      match (if cls.default_role ≠ 0 then
          (defaultStr cls.default_role).map fun d =>
            [println indent ("(defaultrole " ++ key ++ " " ++ d ++ ")")]
        else some []) with
      | none => none
      | some dr =>
        match (if cls.default_type ≠ 0 then
            (defaultStr cls.default_type).map fun d =>
              [println indent ("(defaulttype " ++ key ++ " " ++ d ++ ")")]
          else some []) with
        | none => none
        | some dt =>
          match (if cls.default_range ≠ 0 then
              (defaultRangeStr cls.default_range).map fun d =>
                [println indent ("(defaultrange " ++ key ++ " " ++ d ++ ")")]
            else some []) with
          | none => none
          | some dg =>
            some (([indentStr indent, "(class " ++ key ++ " ("]
                ++ cls.permNames.map (· ++ " ") ++ ["))\n"])
              ++ (match cls.comkey with
                  | none => []
                  | some ck =>
                    [println indent ("(classcommon " ++ key ++ " " ++ ck ++ ")")])
              ++ du ++ dr ++ dt ++ dg)

/-- `role_to_cil` (`pp.c:1406-1488`).  A `ROLE_ROLE` declaration in a module
policy emits only `(role KEY)`; otherwise (the role dominance warning emits
nothing) the role's type set expands to `(roletype …)` lines plus an
optional `(rolebounds …)`.  A `ROLE_ATTRIB` declaration emits
`(roleattribute …)`, its role bitmap as a `(roleattributeset …)`, and its
type set as `(roletype …)` lines. -/
def role_to_cil (indent : Int) (pdb : Policydb) (key : String)
    (role : RoleDatum) (scope : Nat) (numAttrs : Nat) :
    Option (List String × Nat) :=
  if role.flavor = ROLE_ROLE then
    if scope = SCOPE_DECL ∧ pdb.policy_type = SEPOL_POLICY_MOD then
      some ([println indent ("(role " ++ key ++ ")")], numAttrs)
    else
      let (c1, types, n1) := typeset_to_names indent pdb role.types numAttrs
      let rt := types.map fun t =>
        println indent ("(roletype " ++ key ++ " " ++ t ++ ")")
      let bnd := if role.bounds > 0 then
          [println indent ("(rolebounds " ++ key ++ " " ++
            vtn pdb.role_val_to_name (role.bounds - 1) ++ ")")]
        else []
      some (c1 ++ rt ++ bnd, n1)
  else if role.flavor = ROLE_ATTRIB then
    let decl := if scope = SCOPE_DECL then
        [println indent ("(roleattribute " ++ key ++ ")")]
      else []
    let ras := if !role.roles.isEmpty then
        [indentStr indent, "(roleattributeset " ++ key ++ " ("]
          ++ role.roles.map (fun i => vtn pdb.role_val_to_name i ++ " ")
          ++ ["))\n"]
      else []
    let (c1, types, n1) := typeset_to_names indent pdb role.types numAttrs
    let rt := types.map fun t =>
      println indent ("(roletype " ++ key ++ " " ++ t ++ ")")
    some (decl ++ ras ++ c1 ++ rt, n1)
  else none

/-- `type_to_cil` (`pp.c:1490-1539`). -/
def type_to_cil (indent : Int) (pdb : Policydb) (key : String)
    (ty : TypeDatum) (scope : Nat) : Option (List String) :=
  if ty.flavor = TYPE_TYPE then
    let decl := if scope = SCOPE_DECL then
        if ty.primary = 1 then
          [println indent ("(type " ++ key ++ ")"),
           println indent ("(roletype " ++ DEFAULT_OBJECT ++ " " ++ key ++ ")")]
        else
          [println indent ("(typealias " ++ key ++ ")"),
           println indent ("(typealiasactual " ++ key ++ " " ++
             vtn pdb.type_val_to_name (ty.value - 1) ++ ")")]
      else []
    let perm := if ty.flags &&& TYPE_FLAGS_PERMISSIVE ≠ 0 then
        [println indent ("(typepermissive " ++ key ++ ")")]
      else []
    let bnd := if ty.bounds > 0 then
        [println indent ("(typebounds " ++ vtn pdb.type_val_to_name (ty.bounds - 1)
          ++ " " ++ key ++ ")")]
      else []
    some (decl ++ perm ++ bnd)
  else if ty.flavor = TYPE_ATTRIB then
    let decl := if scope = SCOPE_DECL then
        [println indent ("(typeattribute " ++ key ++ ")")]
      else []
    let tas := if !ty.types.isEmpty then
        [indentStr indent, "(typeattributeset " ++ key ++ " ("]
          ++ ebitmap_to_cil pdb.type_val_to_name ty.types ++ ["))\n"]
      else []
    some (decl ++ tas)
  else none

/-- `user_to_cil` (`pp.c:1541-1593`).  The sensitivity offset is 0 when the
containing block is optional, 1 otherwise; non-MLS policies substitute
`systemlow`. -/
def user_to_cil (indent : Int) (pdb : Policydb) (block : AvruleBlock)
    (key : String) (user : UserDatum) (scope : Nat) : List String :=
  let decl := if scope = SCOPE_DECL then
      [println indent ("(user " ++ key ++ ")"),
       println indent ("(userrole " ++ key ++ " " ++ DEFAULT_OBJECT ++ ")")]
    else []
  let roleLines := user.roles.map fun i =>
    println indent ("(userrole " ++ key ++ " " ++ vtn pdb.role_val_to_name i ++ ")")
  let sens_offset := if block.flags &&& AVRULE_OPTIONAL ≠ 0 then 0 else 1
  let ul := [indentStr indent, "(userlevel " ++ key ++ " "]
    ++ (if pdb.mls then semantic_level_to_cil pdb sens_offset user.dfltlevel
        else [DEFAULT_LEVEL])
    ++ [")\n"]
  let ur := [indentStr indent, "(userrange " ++ key ++ " ("]
    ++ (if pdb.mls then
          semantic_level_to_cil pdb sens_offset user.range.low ++ [" "]
            ++ semantic_level_to_cil pdb sens_offset user.range.high
        else [DEFAULT_LEVEL ++ " " ++ DEFAULT_LEVEL])
    ++ ["))\n"]
  decl ++ roleLines ++ ul ++ ur

/-- `boolean_to_cil` (`pp.c:1595-1611`): only a declaration emits. -/
def boolean_to_cil (indent : Int) (key : String) (b : BoolDatum) (scope : Nat) :
    List String :=
  if scope = SCOPE_DECL then
    [println indent ("(" ++
      (if b.flags &&& COND_BOOL_FLAGS_TUNABLE ≠ 0 then "tunable" else "boolean")
      ++ " " ++ key ++ " " ++ (if b.state then "true" else "false") ++ ")")]
  else []

/-- `sens_to_cil` (`pp.c:1613-1634`). -/
def sens_to_cil (indent : Int) (pdb : Policydb) (key : String)
    (lvl : LevelDatum) (scope : Nat) : List String :=
  (if scope = SCOPE_DECL then
     if !lvl.isalias then [println indent ("(sensitivity " ++ key ++ ")")]
     else
       [println indent ("(sensitivityalias " ++ key ++ ")"),
        println indent ("(sensitivityaliasactual " ++ key ++ " " ++
          vtn pdb.sens_val_to_name (lvl.level.sens - 1) ++ ")")]
   else [])
    ++ (if !lvl.level.cat.isEmpty then
          [indentStr indent, "(sensitivitycategory " ++ key ++ " ("]
            ++ ebitmap_to_cil pdb.cat_val_to_name lvl.level.cat ++ ["))\n"]
        else [])

/-- `sens_order_to_cil` (`pp.c:1636-1658`). -/
def sens_order_to_cil (indent : Int) (pdb : Policydb) (order : Ebitmap) :
    List String :=
  if order.isEmpty then []
  else
    [indentStr indent, "(sensitivityorder ("]
      ++ ebitmap_to_cil pdb.sens_val_to_name order ++ ["))\n"]

/-- `cat_to_cil` (`pp.c:1660-1676`): required scope emits nothing. -/
def cat_to_cil (indent : Int) (pdb : Policydb) (key : String) (cat : CatDatum)
    (scope : Nat) : List String :=
  if scope = SCOPE_REQ then []
  else if !cat.isalias then [println indent ("(category " ++ key ++ ")")]
  else
    [println indent ("(categoryalias " ++ key ++ ")"),
     println indent ("(categoryaliasactual " ++ key ++ " " ++
       vtn pdb.cat_val_to_name (cat.value - 1) ++ ")")]

/-- `cat_order_to_cil` (`pp.c:1678-1704`). -/
def cat_order_to_cil (indent : Int) (pdb : Policydb) (order : Ebitmap) :
    List String :=
  if order.isEmpty then []
  else
    [indentStr indent, "(categoryorder ("]
      ++ ebitmap_to_cil pdb.cat_val_to_name order ++ ["))\n"]

/-- `common_to_cil` (`pp.c:1042-1058`). -/
def common_to_cil (key : String) (common : CommonDatum) : List String :=
  ["(common " ++ key ++ " ("] ++ common.permNames.map (· ++ " ") ++ ["))\n"]

/-! ## Scope emission (`pp.c:2573-2717`) -/

/-- The per-symbol bit loop shared by `declared_scopes_to_cil` and
`required_scopes_to_cil`: each set bit names a symbol, whose datum must be
found in the symbol table. -/
def symScopeFold {α : Type} (valNames : List String) (tab : List (String × α))
    (conv : String → α → Option (List String)) : List Nat → Option (List String)
  | [] => some []
  | i :: is => do
    let key := vtn valNames i
    match tab.lookup key with
    | none => none
    | some datum => do
      let ls ← conv key datum
      let rest ← symScopeFold valNames tab conv is
      pure (ls ++ rest)

/-- As `symScopeFold`, threading the synthesised-attribute counter (needed
for roles, whose converter may synthesise attributes). -/
def symScopeFoldN {α : Type} (valNames : List String) (tab : List (String × α))
    (conv : String → α → Nat → Option (List String × Nat)) :
    List Nat → Nat → Option (List String × Nat)
  | [], n => some ([], n)
  | i :: is, n => do
    let key := vtn valNames i
    match tab.lookup key with
    | none => none
    | some datum => do
      let (ls, n1) ← conv key datum n
      let (rest, n2) ← symScopeFoldN valNames tab conv is n1
      pure (ls ++ rest, n2)

/-- The scope-table lookup of `declared_scopes_to_cil`: the converter is
called with the symbol's global scope kind. -/
def declScopeOf (pdb : Policydb) (sym : Nat) (key : String) : Option Nat :=
  ((pdb.scope_tabs sym).lookup key).map (·.scope)

/-- `declared_scopes_to_cil` (`pp.c:2584-2640`): symbol kinds in table
order (commons have no entry), with `(categoryorder …)` after the category
loop and `(sensitivityorder …)` after the sensitivity loop. -/
def declared_scopes_to_cil (indent : Int) (pdb : Policydb) (block : AvruleBlock)
    (decl : AvruleDecl) (numAttrs : Nat) : Option (List String × Nat) := do
  let cls ← symScopeFold pdb.class_val_to_name pdb.p_classes
    (fun k d => do
      let sc ← declScopeOf pdb SYM_CLASSES k
      class_to_cil indent pdb k d sc)
    (decl.declared.scope SYM_CLASSES)
  let (rls, n1) ← symScopeFoldN pdb.role_val_to_name pdb.p_roles
    (fun k d n => do
      let sc ← declScopeOf pdb SYM_ROLES k
      role_to_cil indent pdb k d sc n)
    (decl.declared.scope SYM_ROLES) numAttrs
  let tys ← symScopeFold pdb.type_val_to_name pdb.p_types
    (fun k d => do
      let sc ← declScopeOf pdb SYM_TYPES k
      type_to_cil indent pdb k d sc)
    (decl.declared.scope SYM_TYPES)
  let usrs ← symScopeFold pdb.user_val_to_name pdb.p_users
    (fun k d => do
      let sc ← declScopeOf pdb SYM_USERS k
      pure (user_to_cil indent pdb block k d sc))
    (decl.declared.scope SYM_USERS)
  let bls ← symScopeFold pdb.bool_val_to_name pdb.p_bools
    (fun k d => do
      let sc ← declScopeOf pdb SYM_BOOLS k
      pure (boolean_to_cil indent k d sc))
    (decl.declared.scope SYM_BOOLS)
  let lvls ← symScopeFold pdb.sens_val_to_name pdb.p_levels
    (fun k d => do
      let sc ← declScopeOf pdb SYM_LEVELS k
      pure (sens_to_cil indent pdb k d sc))
    (decl.declared.scope SYM_LEVELS)
  let cts ← symScopeFold pdb.cat_val_to_name pdb.p_cats
    (fun k d => do
      let sc ← declScopeOf pdb SYM_CATS k
      pure (cat_to_cil indent pdb k d sc))
    (decl.declared.scope SYM_CATS)
  pure (cls ++ rls ++ tys ++ usrs ++ bls
    ++ lvls ++ sens_order_to_cil indent pdb (decl.declared.scope SYM_LEVELS)
    ++ cts ++ cat_order_to_cil indent pdb (decl.declared.scope SYM_CATS), n1)

/-- `required_scopes_to_cil` (`pp.c:2642-2678`): the same converters, always
with `SCOPE_REQ`, and no order forms. -/
def required_scopes_to_cil (indent : Int) (pdb : Policydb) (block : AvruleBlock)
    (decl : AvruleDecl) (numAttrs : Nat) : Option (List String × Nat) := do
  let cls ← symScopeFold pdb.class_val_to_name pdb.p_classes
    (fun k d => class_to_cil indent pdb k d SCOPE_REQ)
    (decl.required.scope SYM_CLASSES)
  let (rls, n1) ← symScopeFoldN pdb.role_val_to_name pdb.p_roles
    (fun k d n => role_to_cil indent pdb k d SCOPE_REQ n)
    (decl.required.scope SYM_ROLES) numAttrs
  let tys ← symScopeFold pdb.type_val_to_name pdb.p_types
    (fun k d => type_to_cil indent pdb k d SCOPE_REQ)
    (decl.required.scope SYM_TYPES)
  let usrs ← symScopeFold pdb.user_val_to_name pdb.p_users
    (fun k d => pure (user_to_cil indent pdb block k d SCOPE_REQ))
    (decl.required.scope SYM_USERS)
  let bls ← symScopeFold pdb.bool_val_to_name pdb.p_bools
    (fun k d => pure (boolean_to_cil indent k d SCOPE_REQ))
    (decl.required.scope SYM_BOOLS)
  let lvls ← symScopeFold pdb.sens_val_to_name pdb.p_levels
    (fun k d => pure (sens_to_cil indent pdb k d SCOPE_REQ))
    (decl.required.scope SYM_LEVELS)
  let cts ← symScopeFold pdb.cat_val_to_name pdb.p_cats
    (fun k d => pure (cat_to_cil indent pdb k d SCOPE_REQ))
    (decl.required.scope SYM_CATS)
  pure (cls ++ rls ++ tys ++ usrs ++ bls ++ lvls ++ cts, n1)

/-- The per-kind fold of `additive_scopes_to_cil` over a decl-local symtab. -/
def addScopeFold {α : Type} (conv : String → α → Option (List String)) :
    List (String × α) → Option (List String)
  | [] => some []
  | (k, d) :: rest => do
    let ls ← conv k d
    let more ← addScopeFold conv rest
    pure (ls ++ more)

/-- As `addScopeFold`, threading the synthesised-attribute counter. -/
def addScopeFoldN {α : Type}
    (conv : String → α → Nat → Option (List String × Nat)) :
    List (String × α) → Nat → Option (List String × Nat)
  | [], n => some ([], n)
  | (k, d) :: rest, n => do
    let (ls, n1) ← conv k d n
    let (more, n2) ← addScopeFoldN conv rest n1
    pure (ls ++ more, n2)

/-- `additive_scopes_to_cil` (`pp.c:2681-2717`): every converter is called
with `SCOPE_REQ` over the decl's local symtabs, in symbol-kind order. -/
def additive_scopes_to_cil (indent : Int) (pdb : Policydb) (block : AvruleBlock)
    (decl : AvruleDecl) (numAttrs : Nat) : Option (List String × Nat) := do
  let cls ← addScopeFold (fun k d => class_to_cil indent pdb k d SCOPE_REQ)
    decl.symClasses
  let (rls, n1) ← addScopeFoldN (fun k d n => role_to_cil indent pdb k d SCOPE_REQ n)
    decl.symRoles numAttrs
  let tys ← addScopeFold (fun k d => type_to_cil indent pdb k d SCOPE_REQ)
    decl.symTypes
  let usrs ← addScopeFold (fun k d => pure (user_to_cil indent pdb block k d SCOPE_REQ))
    decl.symUsers
  let bls ← addScopeFold (fun k d => pure (boolean_to_cil indent k d SCOPE_REQ))
    decl.symBools
  let lvls ← addScopeFold (fun k d => pure (sens_to_cil indent pdb k d SCOPE_REQ))
    decl.symLevels
  let cts ← addScopeFold (fun k d => pure (cat_to_cil indent pdb k d SCOPE_REQ))
    decl.symCats
  pure (cls ++ rls ++ tys ++ usrs ++ bls ++ lvls ++ cts, n1)

/-! ## The block walker (`pp.c:2766-3019`) -/

/-- `get_decl_roles` (`pp.c:2850-2887`): every role other than `object_r`
whose scope table entry exists with kind `SCOPE_DECL`. -/
def get_decl_roles (pdb : Policydb) : List RoleDatum :=
  pdb.p_roles.filterMap fun kd =>
    if kd.1 = DEFAULT_OBJECT then none
    else match (pdb.scope_tabs SYM_ROLES).lookup kd.1 with
      | none => none
      | some sc => if sc.scope = SCOPE_DECL then some kd.2 else none

/-- The inner per-type loop of `decl_roles_to_cil`: each expanded type name
is looked up in the types scope table, and one `(roletype …)` line is
emitted per occurrence of the decl's id in that entry's decl-id list. -/
def decl_roles_types (indent : Int) (pdb : Policydb) (declId : Nat)
    (roleName : String) : List String → Option (List String)
  | [] => some []
  | t :: ts =>
    match (pdb.scope_tabs SYM_TYPES).lookup t with
    | none => none
    | some sc => do
      let lines := (sc.decl_ids.filter (· = declId)).map fun _ =>
        println indent ("(roletype " ++ roleName ++ " " ++ t ++ ")")
      let rest ← decl_roles_types indent pdb declId roleName ts
      pure (lines ++ rest)

/-- `decl_roles_to_cil` (`pp.c:2766-2805`). -/
def decl_roles_to_cil (indent : Int) (pdb : Policydb) (decl : AvruleDecl) :
    List RoleDatum → Nat → Option (List String × Nat)
  | [], n => some ([], n)
  | role :: roles, n => do
    let (c1, types, n1) := typeset_to_names indent pdb role.types n
    let lines ← decl_roles_types indent pdb decl.decl_id
      (vtn pdb.role_val_to_name (role.value - 1)) types
    let (rest, n2) ← decl_roles_to_cil indent pdb decl roles n1
    pure (c1 ++ lines ++ rest, n2)

/-- `typealias_to_cil` mapped over `p_types` (`pp.c:1706-1723`,
`pp.c:2944`): non-primary types are emitted at indent 0 with `SCOPE_DECL`
from the block containing the first (global-level) decl. -/
def typealiases_to_cil (pdb : Policydb) : List (String × TypeDatum) →
    Option (List String)
  | [] => some []
  | (k, d) :: rest =>
    if d.primary ≠ 1 then do
      let ls ← type_to_cil 0 pdb k d SCOPE_DECL
      let more ← typealiases_to_cil pdb rest
      pure (ls ++ more)
    else typealiases_to_cil pdb rest

/-- `common_to_cil` mapped over `p_commons` (`pp.c:2949`). -/
def commons_to_cil (pdb : Policydb) : List String :=
  pdb.p_commons.flatMap fun kd => common_to_cil kd.1 kd.2

/-- The pop loop of `blocks_to_cil` at an optional block
(`pp.c:2921-2925`): while the stack holds more than one element
(`stack->pos > 0`) and `decl->required` is *not* a superset of the top
element, the top element is popped, the indent is decremented and a closing
`)` is emitted at the decremented indent. -/
def optional_pops (req : ScopeIndex) :
    List ScopeIndex → Int → List ScopeIndex × Int × List String
  | s1 :: s2 :: rest, indent =>
    if is_scope_superset req s1 then (s1 :: s2 :: rest, indent, [])
    else
      let (st, ind, out) := optional_pops req (s2 :: rest) (indent - 1)
      (st, ind, println (indent - 1) ")" :: out)
  | stack, indent => (stack, indent, [])

/-- The closing loop after all blocks (`pp.c:3007-3010`). -/
def closeChunks : Nat → Int → List String
  | 0, _ => []
  | k + 1, indent => println (indent - 1) ")" :: closeChunks k (indent - 1)

/-- `while (indent > 0) { indent--; cil_println(indent, ")"); }`. -/
def close_all (indent : Int) : List String := closeChunks indent.toNat indent

/-- The body emitted for one decl (`pp.c:2955-3003`): decl-roles, declared,
required, additive scopes, then avrules, role-transitions, role-allows,
range-transitions, filename-transitions and the conditional list. -/
def decl_body_to_cil (indent : Int) (pdb : Policydb) (block : AvruleBlock)
    (decl : AvruleDecl) (declRoles : List RoleDatum) (numAttrs : Nat) :
    Option (List String × Nat) := do
  let (dr, n1) ← decl_roles_to_cil indent pdb decl declRoles numAttrs
  let (ds, n2) ← declared_scopes_to_cil indent pdb block decl n1
  let (rs, n3) ← required_scopes_to_cil indent pdb block decl n2
  let (as_, n4) ← additive_scopes_to_cil indent pdb block decl n3
  let (av, n5) ← avrule_list_to_cil indent pdb decl.avrules n4
  let (rt, n6) := role_trans_to_cil indent pdb decl.role_tr_rules n5
  let (ra, n7) := role_allows_to_cil indent pdb decl.role_allow_rules n6
  let (rg, n8) := range_trans_to_cil indent pdb decl.range_tr_rules n7
  let (ft, n9) := filename_trans_to_cil indent pdb decl.filename_trans_rules n8
  let (cl, n10) ← cond_list_to_cil indent pdb decl.cond_list n9
  pure (dr ++ ds ++ rs ++ as_ ++ av ++ rt ++ ra ++ rg ++ ft ++ cl, n10)

/-- The global-symtab emission at the first push (`pp.c:2933-2953`): type
aliases then commons. -/
def top_level_to_cil (pdb : Policydb) : Option (List String) :=
  match typealiases_to_cil pdb pdb.p_types with
  | none => none
  | some ta => some (ta ++ commons_to_cil pdb)

/-- The per-block loop of `blocks_to_cil` (`pp.c:2910-3010`), with the state
of the walk (optional-scope stack, indent, attribute counter) explicit.
Blocks without a decl are skipped; an `else` branch only warns.  At an
optional block the pop loop runs, the `(optional <name>_optional_<id>`
header is emitted and the indent incremented; every decl's required scope
is pushed; directly after the first push (`stack->pos == 0`) the type
aliases and commons of the global symtab are emitted. -/
def blocks_to_cil_go (pdb : Policydb) (declRoles : List RoleDatum) :
    List AvruleBlock → List ScopeIndex → Int → Nat → Option (List String)
  | [], _stack, indent, _n => some (close_all indent)
  | block :: blocks, stack, indent, n =>
    match block.branch_list with
    | [] => blocks_to_cil_go pdb declRoles blocks stack indent n
    | decl :: _ =>
      let p :=
        if block.flags &&& AVRULE_OPTIONAL ≠ 0 then
          let q := optional_pops decl.required stack indent
          (q.1, q.2.1 + 1,
           q.2.2 ++ [println q.2.1 ("(optional " ++ pdb.name ++ "_optional_" ++
             toString decl.decl_id)])
        else (stack, indent, ([] : List String))
      let stack2 := decl.required :: p.1
      match (if stack2.length = 1 then top_level_to_cil pdb else some []) with
      | none => none
      | some topOut =>
        match decl_body_to_cil p.2.1 pdb block decl declRoles n with
        | none => none
        | some (body, n1) =>
          match blocks_to_cil_go pdb declRoles blocks stack2 p.2.1 n1 with
          | none => none
          | some rest => some (p.2.2 ++ topOut ++ body ++ rest)

/-- `blocks_to_cil` (`pp.c:2890-3019`). -/
def blocks_to_cil (pdb : Policydb) : Option (List String) :=
  blocks_to_cil_go pdb (get_decl_roles pdb) pdb.global [] 0 0

/-! ## Object contexts (`pp.c:1754-2207`): initial SIDs -/

/-- `level_to_cil` (`pp.c:1754-1769`). -/
def level_to_cil (pdb : Policydb) (lvl : MlsLevel) : List String :=
  ["(" ++ vtn pdb.sens_val_to_name (lvl.sens - 1)]
    ++ (if !lvl.cat.isEmpty then
          ["("] ++ ebitmap_to_cil pdb.cat_val_to_name lvl.cat ++ [")"]
        else [])
    ++ [")"]

/-- `context_to_cil` (`pp.c:1771-1791`). -/
def context_to_cil (pdb : Policydb) (con : Context) : List String :=
  ["(" ++ vtn pdb.user_val_to_name (con.user - 1) ++ " " ++
     vtn pdb.role_val_to_name (con.role - 1) ++ " " ++
     vtn pdb.type_val_to_name (con.type - 1) ++ " ("]
    ++ (if pdb.mls then
          level_to_cil pdb con.range.low ++ [" "] ++ level_to_cil pdb con.range.high
        else [DEFAULT_LEVEL, " ", DEFAULT_LEVEL])
    ++ ["))"]

/-- The entry loop of `ocontext_isid_to_cil` (`pp.c:1807-1824`): emits a
`(sid …)` line and a `(sidcontext …)` form per entry while consing each SID
name onto an accumulator list (so the accumulator ends up reversed). -/
def isid_go (pdb : Policydb) (table : List String) :
    List Isid → List String → List String × List String
  | [], heads => ([], heads)
  | isid :: rest, heads =>
    let nm := table.getD isid.sid ""
    let chunks := [println 0 ("(sid " ++ nm ++ ")"), "(sidcontext " ++ nm ++ " "]
      ++ context_to_cil pdb isid.context ++ [")\n"]
    let (restChunks, finalHeads) := isid_go pdb table rest (nm :: heads)
    (chunks ++ restChunks, finalHeads)

/-- `ocontext_isid_to_cil` (`pp.c:1793-1840`): the per-entry forms followed
by one `(sidorder …)` whose names come from the consed (reversed) list;
nothing when the input list is empty. -/
def ocontext_isid_to_cil (pdb : Policydb) (table : List String)
    (isids : List Isid) : List String :=
  let (entryChunks, heads) := isid_go pdb table isids []
  entryChunks
    ++ (if heads.isEmpty then []
        else ["(sidorder ("] ++ heads.map (· ++ " ") ++ ["))\n"])

/-- The SELinux initial-SID name table (`pp.c:1848-1878`). -/
def selinux_sid_to_string : List String :=
  ["null", "kernel", "security", "unlabeled", "fs", "file", "file_labels",
   "init", "any_socket", "port", "netif", "netmsg", "node", "igmp_packet",
   "icmp_socket", "tcp_socket", "sysctl_modprobe", "sysctl", "sysctl_fs",
   "sysctl_kernel", "sysctl_net", "sysctl_net_unix", "sysctl_vm",
   "sysctl_dev", "kmod", "policy", "scmp_packet", "devnull"]

/-- The Xen initial-SID name table (`pp.c:2057-2070`). -/
def xen_sid_to_string : List String :=
  ["null", "xen", "dom0", "domio", "domxen", "unlabeled", "security",
   "ioport", "iomem", "irq", "device"]

/-- `ocontexts_to_cil` (`pp.c:2157-2207`), restricted to the modelled
object-context kinds: of the per-platform tables only the initial-SID
converters are modelled (the model pdb carries no portcon/netifcon/nodecon/
fsuse/pirq/ioport/iomem/pcidevice entries; `fscon` only warns).  An unknown
target platform is an error. -/
def ocontexts_to_cil (pdb : Policydb) : Option (List String) :=
  if pdb.target_platform = SEPOL_TARGET_SELINUX then
    some (ocontext_isid_to_cil pdb selinux_sid_to_string pdb.isids)
  else if pdb.target_platform = SEPOL_TARGET_XEN then
    some (ocontext_isid_to_cil pdb xen_sid_to_string pdb.isids)
  else none

/-! ## Text sections (`pp.c:2225-2570`): file_contexts -/

/-- Split a character list at every occurrence of `sep` (the `%m[^:]`
field decomposition). -/
def splitOnCharAux (sep : Char) : List Char → List Char → List (List Char)
  | [], acc => [acc.reverse]
  | c :: rest, acc =>
    if c = sep then acc.reverse :: splitOnCharAux sep rest []
    else splitOnCharAux sep rest (c :: acc)

def splitOnChar (sep : Char) (l : List Char) : List (List Char) :=
  splitOnCharAux sep l []

/-- Rejoin parts with the separator (the remainder consumed by a final
`%ms`, which does not stop at the separator). -/
def joinChar (sep : Char) : List (List Char) → List Char
  | [] => []
  | [p] => p
  | p :: rest => p ++ sep :: joinChar sep rest

/-- `strchr`-style split at the first occurrence of `sep`. -/
def splitFirst (sep : Char) : List Char → Option (List Char × List Char)
  | [] => none
  | c :: rest =>
    if c = sep then some ([], rest)
    else (splitFirst sep rest).map fun p => (c :: p.1, p.2)

/-- The category-token loop of `level_string_to_cil` (`pp.c:2246-2256`):
`strtok_r` skips empty tokens; a token containing `.` becomes a
`(range lo hi)` split at the first dot. -/
def levelCatToken (tok : List Char) : String :=
  match splitFirst '.' tok with
  | none => String.mk tok ++ " "
  | some (lo, hi) => "(range " ++ String.mk lo ++ " " ++ String.mk hi ++ ") "

/-- `level_string_to_cil` (`pp.c:2225-2267`).  `sscanf("%m[^:]:%ms")`: an
empty sensitivity field is a match failure — the error is logged and
nothing is emitted (the caller ignores the return value). -/
def level_string_to_cil (levelstr : List Char) : List String :=
  match splitOnChar ':' levelstr with
  | [] => []
  | sens :: rest =>
    if sens.isEmpty then []
    else
      let cats := joinChar ':' rest
      if rest.isEmpty || cats.isEmpty then ["(" ++ String.mk sens, ")"]
      else
        ["(" ++ String.mk sens, "("]
          ++ ((splitOnChar ',' cats).filter (fun t => !t.isEmpty)).map levelCatToken
          ++ [")", ")"]

/-- `level_range_string_to_cil` (`pp.c:2269-2289`): split at the first `-`;
without one, low and high are the same level. -/
def level_range_string_to_cil (lr : List Char) : List String :=
  match splitFirst '-' lr with
  | none => level_string_to_cil lr ++ [" "] ++ level_string_to_cil lr
  | some (low, high) =>
    level_string_to_cil low ++ [" "] ++ level_string_to_cil high

/-- `context_string_to_cil` (`pp.c:2291-2328`):
`sscanf("%m[^:]:%m[^:]:%m[^:]:%ms")` — three non-empty colon-separated
fields, and an optional level-range remainder (absent or empty means
`matched == 3`, substituting `systemlow`). -/
def context_string_to_cil (ctx : List Char) : Option (List String) :=
  match splitOnChar ':' ctx with
  | u :: r :: t :: rest =>
    if u.isEmpty || r.isEmpty || t.isEmpty then none
    else
      let level := joinChar ':' rest
      let hdr := "(" ++ String.mk u ++ " " ++ String.mk r ++ " " ++
        String.mk t ++ " ("
      if rest.isEmpty || level.isEmpty then
        some [hdr, DEFAULT_LEVEL, " ", DEFAULT_LEVEL, "))"]
      else some ([hdr] ++ level_range_string_to_cil level ++ ["))"])
  | _ => none

/-- The mode-token translation of `file_contexts_to_cil` (`pp.c:2519-2535`).
In the source, `cilmode` is left *uninitialized* when a present mode token
matches none of the seven listed strings (there is no `else` branch); the
model makes that branch an explicit error (`none`). -/
def modeToCil : Option String → Option String
  | none => some "any"
  | some m =>
    if m = "--" then some "file"
    else if m = "-d" then some "dir"
    else if m = "-c" then some "char"
    else if m = "-b" then some "block"
    else if m = "-s" then some "socket"
    else if m = "-p" then some "pipe"
    else if m = "-l" then some "symlink"
    else none

/-- One non-comment, non-blank `file_contexts` line (`pp.c:2497-2551`),
given as its whitespace-separated tokens (`sscanf("%ms %ms %ms")` reads at
most three): fewer than two tokens is an error; with exactly two, the mode
is absent; the context `<<none>>` emits an empty context list. -/
def fc_line_to_cil (tokens : List String) : Option (List String) :=
  match tokens with
  | t0 :: t1 :: rest =>
    let regex := t0
    let mode : Option String := if rest.isEmpty then none else some t1
    let context := if rest.isEmpty then t1 else rest.headD ""
    match modeToCil mode with
    | none => none
    | some cilmode => do
      let ctxChunks ← if context = "<<none>>" then some ["()"]
        else context_string_to_cil context.toList
      pure (["(filecon \"" ++ regex ++ "\" \"\" " ++ cilmode ++ " "]
        ++ ctxChunks ++ [")\n"])
  | _ => none

/-- `file_contexts_to_cil` over the section's token lists (comment and
blank lines are already skipped by the source's line reader). -/
def file_contexts_to_cil : List (List String) → Option (List String)
  | [] => some []
  | line :: lines => do
    let ls ← fc_line_to_cil line
    let rest ← file_contexts_to_cil lines
    pure (ls ++ rest)

/-! ## Top-level driver (`pp.c:3021-3209`) -/

/-- `handle_unknown_to_cil` (`pp.c:3021-3048`). -/
def handle_unknown_to_cil (pdb : Policydb) : Option (List String) :=
  if pdb.handle_unknown = SEPOL_DENY_UNKNOWN then
    some [println 0 "(handleunknown deny)"]
  else if pdb.handle_unknown = SEPOL_REJECT_UNKNOWN then
    some [println 0 "(handleunknown reject)"]
  else if pdb.handle_unknown = SEPOL_ALLOW_UNKNOWN then
    some [println 0 "(handleunknown allow)"]
  else none

/-- `generate_mls` (`pp.c:3050-3056`). -/
def generate_mls (pdb : Policydb) : List String :=
  [println 0 ("(mls " ++ (if pdb.mls then "true" else "false") ++ ")")]

/-- `generate_default_level` (`pp.c:3058-3065`). -/
def generate_default_level : List String :=
  [println 0 "(sensitivity s0)",
   println 0 "(sensitivityorder (s0))",
   println 0 ("(level " ++ DEFAULT_LEVEL ++ " (s0))")]

/-- `generate_default_object` (`pp.c:3067-3072`). -/
def generate_default_object : List String :=
  [println 0 ("(role " ++ DEFAULT_OBJECT ++ ")")]

/-- `polcaps_to_cil` (`pp.c:1725-1752`); `sepol_polcap_getname` is the
external capability-name table. -/
def polcaps_to_cil (pdb : Policydb) : Option (List String) :=
  go pdb.policycaps
where go : List Nat → Option (List String)
  | [] => some []
  | i :: is =>
    match pdb.capName i with
    | none => none
    | some nm => (go is).map fun rest =>
        println 0 ("(policycap " ++ nm ++ ")") :: rest

/-- `fix_module_name` (`pp.c:3074-3106`): a base policy is renamed
`"base"`; every non-alphanumeric character of the name becomes `_`. -/
def fix_module_name (pdb : Policydb) : Policydb :=
  let base := if pdb.policy_type = SEPOL_POLICY_BASE then "base" else pdb.name
  { pdb with name := base.map fun c => if Semanage.isalnumC c then c else '_' }

/-- A module package: the policy database plus the modelled text section
(`seusers`, `user_extra` and `netfilter_contexts` are outside the model).
The `file_contexts` section is given as the whitespace-token lists of its
non-comment lines. -/
structure ModulePackage where
  pdb : Policydb
  file_contexts : List (List String)

/-- The preamble of `module_package_to_cil` (`pp.c:3132-3162`): default
level only for non-MLS base policies; `object_r`, handleunknown and mls for
every base policy; nothing for modules. -/
def module_package_preamble (pdb : Policydb) : Option (List String) :=
  let dl := if pdb.policy_type = SEPOL_POLICY_BASE ∧ ¬pdb.mls then
      generate_default_level
    else []
  if pdb.policy_type = SEPOL_POLICY_BASE then do
    let hu ← handle_unknown_to_cil pdb
    pure (dl ++ generate_default_object ++ hu ++ generate_mls pdb)
  else some dl

/-- `module_package_to_cil` (`pp.c:3108-3209`) over the modelled package:
the policy type must be base or module; the name is fixed; the preamble,
policy capabilities, object contexts, file_contexts and the block walk are
emitted in order (`genfs` and the unmodelled text sections contribute
nothing to a model package). -/
def module_package_to_cil (pkg : ModulePackage) : Option (List String) :=
  if pkg.pdb.policy_type ≠ SEPOL_POLICY_BASE ∧ pkg.pdb.policy_type ≠ SEPOL_POLICY_MOD
  then none
  else do
    let pdb := fix_module_name pkg.pdb
    let pre ← module_package_preamble pdb
    let pc ← polcaps_to_cil pdb
    let oc ← ocontexts_to_cil pdb
    let fc ← file_contexts_to_cil pkg.file_contexts
    let bl ← blocks_to_cil pdb
    pure (pre ++ pc ++ oc ++ fc ++ bl)

/-! ## Spec-side predicates -/

/-- A character that is neither `(` nor `)`. -/
def notParen (c : Char) : Bool := !(c = '(' || c = ')')

/-- A character list without parentheses. -/
def parenFreeL (l : List Char) : Bool := l.all notParen

/-- A string without parentheses. -/
def parenFree (s : String) : Bool := parenFreeL s.toList

/-- The Dyck checker over characters: tracks the number of unmatched `(`,
failing when a `)` arrives with none open.  `parenRun l 0 = some 0` states
that every `(` in `l` has a matching `)` after it and vice versa. -/
def parenRun : List Char → Nat → Option Nat
  | [], c => some c
  | ch :: rest, c =>
    if ch = '(' then parenRun rest (c + 1)
    else if ch = ')' then
      match c with
      | 0 => none
      | c' + 1 => parenRun rest c'
    else parenRun rest c

/-- `parenRun` over a string. -/
def runStr (s : String) (c : Nat) : Option Nat := parenRun s.toList c

/-- `parenRun` over a chunk list. -/
def runChunks : List String → Nat → Option Nat
  | [], c => some c
  | s :: ss, c =>
    match runStr s c with
    | none => none
    | some c' => runChunks ss c'

/-- The claim's balance property for an emitted chunk list. -/
def balanced (out : List String) : Prop := runChunks out 0 = some 0

/-- The parenthesis delta of one character. -/
def pdelta (ch : Char) : Int := if ch = '(' then 1 else if ch = ')' then -1 else 0

/-- The net parenthesis count of a character list. -/
def parenNetL : List Char → Int
  | [] => 0
  | ch :: rest => pdelta ch + parenNetL rest

/-- The minimum over all prefixes (the empty one included) of the net
parenthesis count. -/
def parenLowL : List Char → Int
  | [] => 0
  | ch :: rest => min 0 (pdelta ch + parenLowL rest)

/-- Net parenthesis count of a string. -/
def snet (s : String) : Int := parenNetL s.toList

/-- Minimum prefix net of a string. -/
def slow (s : String) : Int := parenLowL s.toList

/-- Net parenthesis count of a chunk list. -/
def cnet : List String → Int
  | [] => 0
  | s :: ss => snet s + cnet ss

/-- Minimum prefix net of a chunk list. -/
def clow : List String → Int
  | [] => 0
  | s :: ss => min (slow s) (snet s + clow ss)

/-- A neutral chunk list: running it neither opens nor closes anything and
never dips below the starting height. -/
def Neutral (l : List String) : Prop := cnet l = 0 ∧ clow l = 0

/-- A neutral string chunk. -/
def NeutralS (s : String) : Prop := snet s = 0 ∧ slow s = 0

/-- Every string of a list is paren-free. -/
def PFs (l : List String) : Prop := ∀ s ∈ l, parenFree s = true

/-- Paren-freedom of the strings stored in a class datum. -/
def classPF (c : ClassDatum) : Prop :=
  PFs c.permNames ∧ ∀ ck, c.comkey = some ck → parenFree ck = true

/-- Paren-freedom of the strings stored in a decl (additive-scope symtab
keys and filename-transition names). -/
def declPF (d : AvruleDecl) : Prop :=
  (∀ kd ∈ d.symClasses, parenFree kd.1 = true ∧ classPF kd.2)
  ∧ (∀ kd ∈ d.symRoles, parenFree kd.1 = true)
  ∧ (∀ kd ∈ d.symTypes, parenFree kd.1 = true)
  ∧ (∀ kd ∈ d.symUsers, parenFree kd.1 = true)
  ∧ (∀ kd ∈ d.symBools, parenFree kd.1 = true)
  ∧ (∀ kd ∈ d.symLevels, parenFree kd.1 = true)
  ∧ (∀ kd ∈ d.symCats, parenFree kd.1 = true)
  ∧ (∀ r ∈ d.filename_trans_rules, parenFree r.name = true)

/-- The spec's permitted-name invariant, specialised to what balance needs:
every identifier the translator can copy into the output is paren-free. -/
def pdbPF (pdb : Policydb) : Prop :=
  parenFree pdb.name = true
  ∧ PFs pdb.class_val_to_name ∧ PFs pdb.role_val_to_name
  ∧ PFs pdb.type_val_to_name ∧ PFs pdb.user_val_to_name
  ∧ PFs pdb.bool_val_to_name ∧ PFs pdb.sens_val_to_name
  ∧ PFs pdb.cat_val_to_name
  ∧ (∀ kd ∈ pdb.p_classes, classPF kd.2)
  ∧ (∀ kd ∈ pdb.p_types, parenFree kd.1 = true)
  ∧ (∀ kd ∈ pdb.p_commons, parenFree kd.1 = true ∧ PFs kd.2.permNames)
  ∧ (∀ c d, parenFree (pdb.avToString c d) = true)
  ∧ (∀ i s, pdb.capName i = some s → parenFree s = true)
  ∧ (∀ b ∈ pdb.global, ∀ d ∈ b.branch_list, declPF d)

/-- Paren-freedom for a package: the pdb plus the file_contexts tokens. -/
def pkgPF (pkg : ModulePackage) : Prop :=
  pdbPF pkg.pdb ∧ ∀ line ∈ pkg.file_contexts, ∀ tok ∈ line, parenFree tok = true

/-- Every decl-bearing block of the list is optional. -/
def allDeclOptional (blocks : List AvruleBlock) : Prop :=
  ∀ b ∈ blocks, b.branch_list ≠ [] → b.flags &&& AVRULE_OPTIONAL ≠ 0

/-- Among the blocks carrying a decl, every one after the first is
optional (the shape produced for a base policy or a module whose
non-optional statements all live in the leading block). -/
def goodBlocks (blocks : List AvruleBlock) : Prop :=
  match blocks.filter (fun b => !b.branch_list.isEmpty) with
  | [] => True
  | _ :: rest => ∀ b ∈ rest, b.flags &&& AVRULE_OPTIONAL ≠ 0

/-- The operand count a conditional-expression node consumes, from the
claim's description: a BOOL leaf consumes none, NOT one, the binary
operators (OR, AND, XOR, EQ, NEQ) two; any other node type is unknown. -/
def condArity (t : Nat) : Option Nat :=
  if t = COND_BOOL then some 0
  else if t = COND_NOT then some 1
  else if t = COND_OR ∨ t = COND_AND ∨ t = COND_XOR ∨ t = COND_EQ ∨ t = COND_NEQ
  then some 2
  else none

/-- Validity of an RPN node list at a given operand-stack depth, written
from the claim: every operator finds its operands on the stack, no node has
an unknown type, and at the end exactly one operand remains. -/
def condRPNValid : List CondExprNode → Nat → Bool
  | [], depth => depth == 1
  | n :: rest, depth =>
    match condArity n.expr_type with
    | none => false
    | some 0 => condRPNValid rest (depth + 1)
    | some 1 => decide (1 ≤ depth) && condRPNValid rest depth
    | some _ => decide (2 ≤ depth) && condRPNValid rest (depth - 1)

/-! ## Concrete fixtures used by counterexamples and witnesses -/

/-- An empty scope index. -/
def emptyScope : ScopeIndex := ⟨fun _ => [], 0, fun _ => []⟩

/-- A scope index requiring only type bit 0. -/
def scopeA : ScopeIndex := ⟨fun s => if s = SYM_TYPES then [0] else [], 0, fun _ => []⟩

/-- A scope index requiring only type bit 1. -/
def scopeB : ScopeIndex := ⟨fun s => if s = SYM_TYPES then [1] else [], 0, fun _ => []⟩

/-- A minimal policy database fixture (base, non-MLS, SELinux platform). -/
def samplePdb : Policydb := {
  name := "base", policy_type := 1, mls := false, handle_unknown := 0,
  target_platform := 0, policycaps := [],
  class_val_to_name := ["file"], role_val_to_name := ["object_r"],
  type_val_to_name := ["a", "b"], user_val_to_name := ["system_u"],
  bool_val_to_name := ["b1", "b2"], sens_val_to_name := ["s0"],
  cat_val_to_name := [],
  p_commons := [], p_classes := [], p_roles := [], p_types := [],
  p_users := [], p_bools := [], p_levels := [], p_cats := [],
  scope_tabs := fun _ => [], avToString := fun _ _ => " read",
  capName := fun _ => none, isids := [], global := [] }

/-- An allow rule `a → b : file { read }` carrying *two* class-perm nodes. -/
def sampleRule2 : Avrule :=
  ⟨AVRULE_ALLOWED, 0, ⟨[0], [], 0⟩, ⟨[1], [], 0⟩, [⟨1, 1⟩, ⟨1, 1⟩]⟩

/-- An empty `AvruleDecl` with the given id and required scope. -/
def mkDecl (id : Nat) (req : ScopeIndex) : AvruleDecl :=
  ⟨id, emptyScope, req, [], [], [], [], [], [], [], [], [], [], [], [], []⟩

/-- A scope index requiring only class bit 0. -/
def scopeCls : ScopeIndex :=
  ⟨fun s => if s = SYM_CLASSES then [0] else [], 0, fun _ => []⟩

/-- `samplePdb` with the class `file` present in the class symtab. -/
def pdbC5 : Policydb :=
  { samplePdb with p_classes := [("file", ⟨["read"], none, 0, 0, 0, 0⟩)] }

/-- A scope index whose class-perm map holds one entry, so that an empty
scope index is *not* a superset of it. -/
def scopeP : ScopeIndex := ⟨fun _ => [], 1, fun _ => []⟩

/-- A package whose global block list carries two non-optional decl-bearing
blocks followed by an optional one whose required scope is not a superset
of the top of the optional-scope stack. -/
def cxPkg : ModulePackage :=
  ⟨{ samplePdb with global :=
      [⟨0, [mkDecl 0 emptyScope]⟩, ⟨0, [mkDecl 1 scopeP]⟩,
       ⟨AVRULE_OPTIONAL, [mkDecl 2 emptyScope]⟩] }, []⟩

end PP

namespace PP

/-! ### Parenthesis-balance machinery -/

theorem parenLowL_nonpos : ∀ l : List Char, parenLowL l ≤ 0
  | [] => le_refl 0
  | _ :: _ => min_le_left 0 _

theorem parenLowL_le_net : ∀ l : List Char, parenLowL l ≤ parenNetL l
  | [] => le_refl 0
  | ch :: rest => by
    have := parenLowL_le_net rest
    simp only [parenLowL, parenNetL]
    omega

theorem parenNetL_append (a b : List Char) :
    parenNetL (a ++ b) = parenNetL a + parenNetL b := by
  induction a with
  | nil => simp [parenNetL]
  | cons ch r ih => simp [parenNetL, ih]; ring

theorem parenLowL_append (a b : List Char) :
    parenLowL (a ++ b) = min (parenLowL a) (parenNetL a + parenLowL b) := by
  induction a with
  | nil =>
    have := parenLowL_nonpos b
    simp [parenLowL, parenNetL]
    omega
  | cons ch r ih =>
    simp only [List.cons_append, parenLowL, parenNetL, List.append_eq, ih]
    omega

theorem parenRun_eq (l : List Char) : ∀ c : Nat,
    parenRun l c =
      if 0 ≤ (c : Int) + parenLowL l then some ((c : Int) + parenNetL l).toNat
      else none := by
  induction l with
  | nil => intro c; simp [parenRun, parenNetL, parenLowL]
  | cons ch rest ih =>
    intro c
    have hle := parenLowL_nonpos rest
    by_cases h1 : ch = '('
    · have hd : pdelta ch = 1 := by simp [pdelta, h1]
      rw [show parenRun (ch :: rest) c = parenRun rest (c + 1) by
        simp [parenRun, h1]]
      rw [ih (c + 1)]
      simp only [parenLowL, parenNetL, hd]
      push_cast
      split_ifs <;> first | rfl | (congr 1; omega) | (exfalso; omega)
    · by_cases h2 : ch = ')'
      · have hd : pdelta ch = -1 := by simp [pdelta, h1, h2]
        match c with
        | 0 =>
          rw [show parenRun (ch :: rest) 0 = none by simp [parenRun, h1, h2]]
          simp only [parenLowL, parenNetL, hd]
          push_cast
          split_ifs <;> first | rfl | (exfalso; omega)
        | c' + 1 =>
          rw [show parenRun (ch :: rest) (c' + 1) = parenRun rest c' by
            simp [parenRun, h1, h2]]
          rw [ih c']
          simp only [parenLowL, parenNetL, hd]
          push_cast
          split_ifs <;> first | rfl | (congr 1; omega) | (exfalso; omega)
      · have hd : pdelta ch = 0 := by simp [pdelta, h1, h2]
        rw [show parenRun (ch :: rest) c = parenRun rest c by
          simp [parenRun, h1, h2]]
        rw [ih c]
        simp only [parenLowL, parenNetL, hd]
        push_cast
        split_ifs <;> first | rfl | (congr 1; omega) | (exfalso; omega)

theorem runStr_eq (s : String) (c : Nat) :
    runStr s c =
      if 0 ≤ (c : Int) + slow s then some ((c : Int) + snet s).toNat else none :=
  parenRun_eq s.toList c

theorem slow_nonpos (s : String) : slow s ≤ 0 := parenLowL_nonpos _

theorem slow_le_snet (s : String) : slow s ≤ snet s := parenLowL_le_net _

theorem clow_nonpos : ∀ l : List String, clow l ≤ 0
  | [] => le_refl 0
  | s :: ss => by
    have := slow_nonpos s
    simp only [clow]
    omega

theorem clow_le_cnet : ∀ l : List String, clow l ≤ cnet l
  | [] => le_refl 0
  | s :: ss => by
    have h1 := clow_le_cnet ss
    have h2 := slow_le_snet s
    have h3 := slow_nonpos s
    simp only [clow, cnet]
    omega

theorem runChunks_eq : ∀ (l : List String) (c : Nat),
    runChunks l c =
      if 0 ≤ (c : Int) + clow l then some ((c : Int) + cnet l).toNat else none := by
  intro l
  induction l with
  | nil => intro c; simp [runChunks, cnet, clow]
  | cons s ss ih =>
    intro c
    rw [show runChunks (s :: ss) c =
      (match runStr s c with
       | none => none
       | some c' => runChunks ss c') from rfl]
    rw [runStr_eq]
    have h2 := slow_le_snet s
    have h3 := slow_nonpos s
    have h4 := clow_nonpos ss
    by_cases hc : 0 ≤ (c : Int) + slow s
    · rw [if_pos hc]
      dsimp only
      rw [ih]
      have hcast : (((( c : Int) + snet s).toNat : Int)) = (c : Int) + snet s := by
        omega
      rw [hcast]
      simp only [clow, cnet]
      by_cases hd : 0 ≤ (c : Int) + snet s + clow ss
      · rw [if_pos hd, if_pos (by omega)]
        congr 1
        omega
      · rw [if_neg hd, if_neg (by omega)]
    · rw [if_neg hc]
      simp only [clow, cnet]
      rw [if_neg (by omega)]

theorem cnet_append (a b : List String) : cnet (a ++ b) = cnet a + cnet b := by
  induction a with
  | nil => simp [cnet]
  | cons s ss ih =>
    simp only [List.cons_append, cnet, List.append_eq, ih]
    ring

theorem clow_append (a b : List String) :
    clow (a ++ b) = min (clow a) (cnet a + clow b) := by
  induction a with
  | nil =>
    have := clow_nonpos b
    simp only [List.nil_append, clow, cnet]
    omega
  | cons s ss ih =>
    have h2 := cnet_append ss b
    simp only [List.cons_append, clow, cnet, List.append_eq, ih]
    omega

theorem Neutral.nil : Neutral [] := ⟨rfl, rfl⟩

theorem Neutral.append {a b : List String} (ha : Neutral a) (hb : Neutral b) :
    Neutral (a ++ b) := by
  obtain ⟨ha1, ha2⟩ := ha
  obtain ⟨hb1, hb2⟩ := hb
  constructor
  · rw [cnet_append, ha1, hb1]
    ring
  · rw [clow_append, ha2, ha1, hb2]
    simp

theorem neutral_runChunks {l : List String} (h : Neutral l) (c : Nat) :
    runChunks l c = some c := by
  rw [runChunks_eq, h.1, h.2]
  simp

theorem snet_append (a b : String) : snet (a ++ b) = snet a + snet b := by
  unfold snet
  rw [show (a ++ b).toList = a.toList ++ b.toList by simp [String.toList]]
  exact parenNetL_append _ _

theorem slow_append (a b : String) :
    slow (a ++ b) = min (slow a) (snet a + slow b) := by
  unfold slow snet
  rw [show (a ++ b).toList = a.toList ++ b.toList by simp [String.toList]]
  exact parenLowL_append _ _

theorem pdelta_notParen {ch : Char} (h : notParen ch = true) : pdelta ch = 0 := by
  simp only [notParen, Bool.not_eq_true', Bool.or_eq_false_iff,
    decide_eq_false_iff_not] at h
  simp [pdelta, h.1, h.2]

theorem parenNetL_pf : ∀ l : List Char, parenFreeL l = true → parenNetL l = 0 := by
  intro l
  induction l with
  | nil => intro _; rfl
  | cons ch r ih =>
    intro h
    simp only [parenFreeL, List.all_cons, Bool.and_eq_true] at h
    have hch := pdelta_notParen h.1
    have hr := ih (by simpa [parenFreeL] using h.2)
    simp only [parenNetL, hch, hr]
    ring

theorem parenLowL_pf : ∀ l : List Char, parenFreeL l = true → parenLowL l = 0 := by
  intro l
  induction l with
  | nil => intro _; rfl
  | cons ch r ih =>
    intro h
    simp only [parenFreeL, List.all_cons, Bool.and_eq_true] at h
    have hch := pdelta_notParen h.1
    have hr := ih (by simpa [parenFreeL] using h.2)
    simp only [parenLowL, hch, hr]
    omega

theorem snet_pf {s : String} (h : parenFree s = true) : snet s = 0 :=
  parenNetL_pf _ h

theorem slow_pf {s : String} (h : parenFree s = true) : slow s = 0 :=
  parenLowL_pf _ h

theorem NeutralS_pf {s : String} (h : parenFree s = true) : NeutralS s :=
  ⟨snet_pf h, slow_pf h⟩

theorem neutral_single {s : String} (h : NeutralS s) : Neutral [s] := by
  obtain ⟨h1, h2⟩ := h
  constructor
  · simp [cnet, h1]
  · simp [clow, h1, h2]

theorem neutral_of_PF {l : List String} (h : ∀ s ∈ l, parenFree s = true) :
    Neutral l := by
  induction l with
  | nil => exact Neutral.nil
  | cons s ss ih =>
    have h1 := NeutralS_pf (h s (by simp))
    have h2 := ih fun t ht => h t (by simp [ht])
    exact (neutral_single h1).append h2

/-! ### Paren-free building blocks -/

theorem parenFreeL_append (a b : List Char) :
    parenFreeL (a ++ b) = (parenFreeL a && parenFreeL b) := by
  simp [parenFreeL, List.all_append]

theorem parenFree_append (a b : String) :
    parenFree (a ++ b) = (parenFree a && parenFree b) := by
  unfold parenFree
  rw [show (a ++ b).toList = a.toList ++ b.toList by simp [String.toList]]
  exact parenFreeL_append _ _

theorem parenFreeL_replicate_space (n : Nat) :
    parenFreeL (List.replicate n ' ') = true := by
  simp only [parenFreeL, List.all_eq_true]
  intro c hc
  rw [List.eq_of_mem_replicate hc]
  decide

theorem parenFree_indentStr (i : Int) : parenFree (indentStr i) = true :=
  parenFreeL_replicate_space _

theorem notParen_digitChar (n : Nat) : notParen (Nat.digitChar n) = true := by
  have hlt : ∀ m : Nat, m < 16 → notParen (Nat.digitChar m) = true := by decide
  by_cases h : n < 16
  · exact hlt n h
  · have hstar : Nat.digitChar n = '*' := by
      unfold Nat.digitChar
      iterate 16 rw [if_neg (by omega)]
    rw [hstar]
    decide

theorem parenFreeL_toDigitsCore (b : Nat) :
    ∀ (fuel n : Nat) (acc : List Char), parenFreeL acc = true →
      parenFreeL (Nat.toDigitsCore b fuel n acc) = true := by
  intro fuel
  induction fuel with
  | zero => intro n acc h; exact h
  | succ f ih =>
    intro n acc h
    rw [Nat.toDigitsCore]
    split
    · simpa [parenFreeL, notParen_digitChar] using h
    · exact ih _ _ (by simpa [parenFreeL, notParen_digitChar] using h)

theorem parenFree_natToString (n : Nat) : parenFree (toString n) = true :=
  parenFreeL_toDigitsCore 10 (n + 1) n [] rfl

theorem parenFree_drop {s : String} (h : parenFree s = true) (n : Nat) :
    parenFree (s.drop n) = true := by
  unfold parenFree parenFreeL at h ⊢
  rw [show (s.drop n).toList = s.toList.drop n from String.data_drop s n]
  simp only [List.all_eq_true] at h ⊢
  exact fun c hc => h c (List.mem_of_mem_drop hc)

theorem parenFree_strMap {s : String} {f : Char → Char}
    (h : ∀ c, notParen (f c) = true) : parenFree (s.map f) = true := by
  unfold parenFree parenFreeL
  rw [show (s.map f).toList = s.toList.map f from congrArg String.data
    (String.map_eq f s)]
  simp only [List.all_map, List.all_eq_true, Function.comp]
  exact fun c _ => h c

theorem pf_vtn {l : List String} (h : PFs l) (i : Nat) :
    parenFree (vtn l i) = true := by
  unfold vtn
  rw [List.getD_eq_getElem?_getD]
  rcases hg : l[i]? with _ | s
  · rfl
  · exact h s (List.getElem?_mem hg)

theorem pf_ebitmap_to_names {valNames : List String} (h : PFs valNames)
    (m : Ebitmap) : PFs (ebitmap_to_names valNames m) := by
  intro s hs
  obtain ⟨i, _, rfl⟩ := List.mem_map.mp hs
  exact pf_vtn h i

theorem pf_names_map {valNames : List String} (h : PFs valNames) (m : Ebitmap) :
    ∀ s ∈ m.map fun i => vtn valNames i ++ " ", parenFree s = true := by
  intro s hs
  obtain ⟨i, _, rfl⟩ := List.mem_map.mp hs
  rw [parenFree_append, pf_vtn h, Bool.true_and]
  decide

theorem NS_append {a b : String} (ha : NeutralS a) (hb : NeutralS b) :
    NeutralS (a ++ b) := by
  constructor
  · rw [snet_append, ha.1, hb.1]; ring
  · rw [slow_append, ha.2, ha.1, hb.2]; simp

theorem snet_println (i : Int) (t : String) : snet (println i t) = snet t := by
  simp [println, snet_append, snet_pf (parenFree_indentStr i),
    show snet "\n" = 0 from by decide]

theorem slow_println (i : Int) (t : String) : slow (println i t) = slow t := by
  have h1 := slow_le_snet t
  have h2 := slow_nonpos t
  simp only [println, slow_append, snet_append, snet_pf (parenFree_indentStr i),
    slow_pf (parenFree_indentStr i), show snet "\n" = 0 from by decide,
    show slow "\n" = 0 from by decide]
  omega

theorem NeutralS_println {t : String} (h : NeutralS t) (i : Int) :
    NeutralS (println i t) :=
  ⟨by rw [snet_println, h.1], by rw [slow_println, h.2]⟩

theorem NeutralS_println_pf {t : String} (h : parenFree t = true) (i : Int) :
    NeutralS (println i t) := NeutralS_println (NeutralS_pf h) i

theorem neutral_of_NS {l : List String} (h : ∀ s ∈ l, NeutralS s) :
    Neutral l := by
  induction l with
  | nil => exact Neutral.nil
  | cons s ss ih =>
    exact (neutral_single (h s (by simp))).append
      (ih fun t ht => h t (by simp [ht]))

theorem neutral_flatMap {α : Type} {l : List α} {f : α → List String}
    (h : ∀ x ∈ l, Neutral (f x)) : Neutral (l.flatMap f) := by
  induction l with
  | nil => exact Neutral.nil
  | cons x xs ih =>
    rw [List.flatMap_cons]
    exact (h x (by simp)).append (ih fun y hy => h y (by simp [hy]))

theorem neutral_group (pre mid post : List String) (w : Int) (hw : 0 ≤ w)
    (hpre : cnet pre = w ∧ clow pre = 0) (hmid : Neutral mid)
    (hpost : cnet post = -w ∧ clow post = -w) :
    Neutral (pre ++ mid ++ post) := by
  constructor
  · simp only [cnet_append, hpre.1, hmid.1, hpost.1]; ring
  · simp only [clow_append, cnet_append, hpre.1, hpre.2, hmid.1, hmid.2,
      hpost.1, hpost.2]
    omega

theorem runChunks_append (a b : List String) (c : Nat) :
    runChunks (a ++ b) c =
      match runChunks a c with
      | none => none
      | some c' => runChunks b c' := by
  induction a generalizing c with
  | nil => simp [runChunks]
  | cons s ss ih =>
    simp only [List.cons_append, runChunks]
    rcases runStr s c with _ | c'
    · rfl
    · exact ih c'

/-! ### Paren-freedom of the stored names and operator tables -/

theorem pdbPF_name {pdb : Policydb} (h : pdbPF pdb) :
    parenFree pdb.name = true := h.1

theorem pdbPF_class {pdb : Policydb} (h : pdbPF pdb) :
    PFs pdb.class_val_to_name := h.2.1

theorem pdbPF_role {pdb : Policydb} (h : pdbPF pdb) :
    PFs pdb.role_val_to_name := h.2.2.1

theorem pdbPF_type {pdb : Policydb} (h : pdbPF pdb) :
    PFs pdb.type_val_to_name := h.2.2.2.1

theorem pdbPF_user {pdb : Policydb} (h : pdbPF pdb) :
    PFs pdb.user_val_to_name := h.2.2.2.2.1

theorem pdbPF_bool {pdb : Policydb} (h : pdbPF pdb) :
    PFs pdb.bool_val_to_name := h.2.2.2.2.2.1

theorem pdbPF_sens {pdb : Policydb} (h : pdbPF pdb) :
    PFs pdb.sens_val_to_name := h.2.2.2.2.2.2.1

theorem pdbPF_cat {pdb : Policydb} (h : pdbPF pdb) :
    PFs pdb.cat_val_to_name := h.2.2.2.2.2.2.2.1

theorem pdbPF_pcls {pdb : Policydb} (h : pdbPF pdb) :
    ∀ kd ∈ pdb.p_classes, classPF kd.2 := h.2.2.2.2.2.2.2.2.1

theorem pdbPF_pty {pdb : Policydb} (h : pdbPF pdb) :
    ∀ kd ∈ pdb.p_types, parenFree kd.1 = true := h.2.2.2.2.2.2.2.2.2.1

theorem pdbPF_pcom {pdb : Policydb} (h : pdbPF pdb) :
    ∀ kd ∈ pdb.p_commons, parenFree kd.1 = true ∧ PFs kd.2.permNames :=
  h.2.2.2.2.2.2.2.2.2.2.1

theorem pdbPF_av {pdb : Policydb} (h : pdbPF pdb) :
    ∀ c d, parenFree (pdb.avToString c d) = true := h.2.2.2.2.2.2.2.2.2.2.2.1

theorem pdbPF_cap {pdb : Policydb} (h : pdbPF pdb) :
    ∀ i s, pdb.capName i = some s → parenFree s = true :=
  h.2.2.2.2.2.2.2.2.2.2.2.2.1

theorem pdbPF_glob {pdb : Policydb} (h : pdbPF pdb) :
    ∀ b ∈ pdb.global, ∀ d ∈ b.branch_list, declPF d :=
  h.2.2.2.2.2.2.2.2.2.2.2.2.2

theorem lookup_mem {α : Type} {k : String} {d : α} :
    ∀ {tab : List (String × α)}, tab.lookup k = some d → (k, d) ∈ tab := by
  intro tab
  induction tab with
  | nil => intro h; exact Option.noConfusion h
  | cons kd rest ih =>
    intro h
    obtain ⟨a, b⟩ := kd
    by_cases hk : k == a
    · have hka : k = a := by simpa using hk
      simp only [List.lookup, hk, Option.some_inj] at h
      subst hka
      subst h
      exact List.mem_cons_self _ _
    · simp only [List.lookup, Bool.not_eq_true] at h
      rw [Bool.not_eq_true] at hk
      rw [hk] at h
      exact List.mem_cons_of_mem _ (ih h)

theorem pf_avruleOpName {t : Nat} {r : String} (h : avruleOpName t = some r) :
    parenFree r = true := by
  unfold avruleOpName at h
  split_ifs at h <;>
    first
      | exact Option.noConfusion h
      | (rw [Option.some_inj] at h; subst h; decide)

theorem pf_condOpName {t : Nat} {r : String} (h : condOpName t = some r) :
    parenFree r = true := by
  unfold condOpName at h
  split_ifs at h <;>
    first
      | exact Option.noConfusion h
      | (rw [Option.some_inj] at h; subst h; decide)

theorem pf_defaultStr {v : Nat} {r : String} (h : defaultStr v = some r) :
    parenFree r = true := by
  unfold defaultStr at h
  split_ifs at h <;>
    first
      | exact Option.noConfusion h
      | (rw [Option.some_inj] at h; subst h; decide)

theorem pf_defaultRangeStr {v : Nat} {r : String}
    (h : defaultRangeStr v = some r) : parenFree r = true := by
  unfold defaultRangeStr at h
  split_ifs at h <;>
    first
      | exact Option.noConfusion h
      | (rw [Option.some_inj] at h; subst h; decide)

theorem pf_modeToCil {m : Option String} {r : String} (h : modeToCil m = some r) :
    parenFree r = true := by
  match m with
  | none =>
    simp only [modeToCil, Option.some_inj] at h
    subst h
    decide
  | some t =>
    simp only [modeToCil] at h
    split_ifs at h <;>
      first
        | exact Option.noConfusion h
        | (rw [Option.some_inj] at h; subst h; decide)

/-! ### Neutrality of the name-and-set emitters -/

theorem pf_semCatText {pdb : Policydb} (h : pdbPF pdb) (c : SemCat) :
    parenFree (semCatText pdb c) = true := by
  unfold semCatText
  split_ifs
  · exact pf_vtn (pdbPF_cat h) _
  · simp only [parenFree_append, pf_vtn (pdbPF_cat h), Bool.and_true]
    decide

theorem pf_semCatChunks {pdb : Policydb} (h : pdbPF pdb) :
    ∀ l : List SemCat, ∀ s ∈ semCatChunks pdb l, parenFree s = true := by
  intro l
  induction l with
  | nil => intro s hs; exact absurd hs (by simp [semCatChunks])
  | cons c rest ih =>
    intro s hs
    match rest, hs with
    | [], hs =>
      rw [show semCatChunks pdb [c] = [semCatText pdb c] from rfl] at hs
      rw [List.mem_singleton.mp hs]
      exact pf_semCatText h c
    | c2 :: r2, hs =>
      rw [show semCatChunks pdb (c :: c2 :: r2) =
        semCatText pdb c :: " " :: semCatChunks pdb (c2 :: r2) from rfl] at hs
      rcases hs with _ | ⟨_, hs⟩
      · exact pf_semCatText h c
      · rcases hs with _ | ⟨_, hs⟩
        · decide
        · exact ih _ hs

theorem neutral_semantic_level {pdb : Policydb} (h : pdbPF pdb)
    (off : Nat) (lvl : SemLevel) :
    Neutral (semantic_level_to_cil pdb off lvl) := by
  have hmid := neutral_of_PF (pf_semCatChunks h lvl.cat)
  have hname := pf_vtn (pdbPF_sens h) (lvl.sens - off)
  unfold semantic_level_to_cil
  by_cases hc : lvl.cat.isEmpty <;>
    constructor <;>
      simp [hc, cnet_append, clow_append, cnet, clow, hmid.1, hmid.2,
        snet_append, slow_append, snet_pf hname, slow_pf hname,
        show snet "(" = 1 from by decide, show slow "(" = 0 from by decide,
        show snet ")" = -1 from by decide, show slow ")" = -1 from by decide,
        show snet " " = 0 from by decide, show slow " " = 0 from by decide] <;>
      omega

theorem neutral_avrule {i : Int} {pdb : Policydb} {ty : Nat} {src tgt : String}
    {cps : List ClassPermNode} {ls : List String} (h : pdbPF pdb)
    (hsrc : parenFree src = true) (htgt : parenFree tgt = true)
    (hav : avrule_to_cil i pdb ty src tgt cps = some ls) : Neutral ls := by
  unfold avrule_to_cil at hav
  cases hop : avruleOpName ty with
  | none => rw [hop] at hav; exact Option.noConfusion hav
  | some rule =>
    rw [hop] at hav
    simp only [Option.some_inj] at hav
    subst hav
    have hrule := pf_avruleOpName hop
    apply neutral_of_NS
    intro s hs
    obtain ⟨cp, _, rfl⟩ := List.mem_map.mp hs
    have hcls := pf_vtn (pdbPF_class h) (cp.cls - 1)
    have hdst := pf_vtn (pdbPF_type h) (cp.data - 1)
    have hperm := parenFree_drop (pdbPF_av h cp.cls cp.data) 1
    by_cases hfl : ty &&& AVRULE_AV ≠ 0
    · rw [if_pos hfl]
      apply NeutralS_println
      constructor <;>
        simp [snet_append, slow_append, snet_pf, slow_pf, hrule, hsrc, htgt,
          hcls, hperm,
          show snet "(" = 1 from by decide, show slow "(" = 0 from by decide,
          show snet " " = 0 from by decide, show slow " " = 0 from by decide,
          show snet " (" = 1 from by decide, show slow " (" = 0 from by decide,
          show snet ")))" = -3 from by decide,
          show slow ")))" = -3 from by decide] <;>
        omega
    · rw [if_neg hfl]
      apply NeutralS_println
      constructor <;>
        simp [snet_append, slow_append, snet_pf, slow_pf, hrule, hsrc, htgt,
          hcls, hdst,
          show snet "(" = 1 from by decide, show slow "(" = 0 from by decide,
          show snet " " = 0 from by decide, show slow " " = 0 from by decide,
          show snet ")" = -1 from by decide,
          show slow ")" = -1 from by decide] <;>
        omega

theorem neutral_set_attr_body {valNames : List String} (hv : PFs valNames)
    (pos neg : Ebitmap) (flags : Nat) :
    Neutral (set_attr_body valNames pos neg flags) := by
  have hP := neutral_of_PF (pf_names_map hv pos)
  have hN := neutral_of_PF (pf_names_map hv neg)
  unfold set_attr_body
  by_cases h1 : flags &&& TYPE_STAR ≠ 0 <;>
    by_cases h2 : flags &&& TYPE_COMP ≠ 0 <;>
      by_cases h3 : pos.isEmpty <;> by_cases h4 : neg.isEmpty <;>
        constructor <;>
          simp [h1, h2, h3, h4, cnet_append, clow_append, cnet, clow,
            hP.1, hP.2, hN.1, hN.2,
            show snet "(all)" = 0 from by decide,
            show slow "(all)" = 0 from by decide,
            show snet "(not " = 1 from by decide,
            show slow "(not " = 0 from by decide,
            show snet "(and " = 1 from by decide,
            show slow "(and " = 0 from by decide,
            show snet "(" = 1 from by decide,
            show slow "(" = 0 from by decide,
            show snet ") " = -1 from by decide,
            show slow ") " = -1 from by decide,
            show snet "(not (" = 2 from by decide,
            show slow "(not (" = 0 from by decide,
            show snet "))" = -2 from by decide,
            show slow "))" = -2 from by decide,
            show snet ")" = -1 from by decide,
            show slow ")" = -1 from by decide] <;>
          omega

theorem set_to_cil_attr_spec {i : Int} {pdb : Policydb} (h : pdbPF pdb)
    (it : Bool) (pos neg : Ebitmap) (fl n : Nat) :
    Neutral (set_to_cil_attr i pdb it pos neg fl n).1
    ∧ PFs (set_to_cil_attr i pdb it pos neg fl n).2.1 := by
  have hname := pdbPF_name h
  have hts := parenFree_natToString (n + 1)
  have hattr : parenFree (pdb.name ++ (if it then "_typeattr_" else "_roleattr_")
      ++ toString (n + 1)) = true := by
    simp only [parenFree_append, hname, hts, Bool.true_and, Bool.and_true]
    cases it <;> decide
  have hbodyT := neutral_set_attr_body (pdbPF_type h) pos neg fl
  have hbodyR := neutral_set_attr_body (pdbPF_role h) pos neg fl
  cases it
  · unfold set_to_cil_attr
    constructor
    · apply neutral_group _ _ _ 1 (by omega) ?_ hbodyR ⟨by decide, by decide⟩
      constructor <;>
        simp [cnet, clow, snet_println, slow_println, snet_append, slow_append,
          slow_pf, snet_pf, hname, hts, parenFree_indentStr,
          show snet "(roleattribute " = 1 from by decide,
          show slow "(roleattribute " = 0 from by decide,
          show snet "(roleattributeset " = 1 from by decide,
          show slow "(roleattributeset " = 0 from by decide,
          show parenFree "_roleattr_" = true from by decide,
          show parenFree " " = true from by decide,
          show snet ")" = -1 from by decide,
          show slow ")" = -1 from by decide] <;>
        omega
    · intro s hs
      simp only [set_to_cil_attr, List.mem_singleton] at hs
      subst hs
      simpa using hattr
  · unfold set_to_cil_attr
    constructor
    · apply neutral_group _ _ _ 1 (by omega) ?_ hbodyT ⟨by decide, by decide⟩
      constructor <;>
        simp [cnet, clow, snet_println, slow_println, snet_append, slow_append,
          slow_pf, snet_pf, hname, hts, parenFree_indentStr,
          show snet "(typeattribute " = 1 from by decide,
          show slow "(typeattribute " = 0 from by decide,
          show snet "(typeattributeset " = 1 from by decide,
          show slow "(typeattributeset " = 0 from by decide,
          show parenFree "_typeattr_" = true from by decide,
          show parenFree " " = true from by decide,
          show snet ")" = -1 from by decide,
          show slow ")" = -1 from by decide] <;>
        omega
    · intro s hs
      simp only [set_to_cil_attr, List.mem_singleton] at hs
      subst hs
      simpa using hattr

theorem typeset_to_names_spec (i : Int) {pdb : Policydb} (h : pdbPF pdb)
    (ts : TypeSet) (n : Nat) :
    Neutral (typeset_to_names i pdb ts n).1
    ∧ PFs (typeset_to_names i pdb ts n).2.1 := by
  unfold typeset_to_names
  split_ifs with hc
  · exact set_to_cil_attr_spec h true ts.types ts.negset ts.flags n
  · exact ⟨Neutral.nil, pf_ebitmap_to_names (pdbPF_type h) ts.types⟩

theorem roleset_to_names_spec (i : Int) {pdb : Policydb} (h : pdbPF pdb)
    (rs : RoleSet) (n : Nat) :
    Neutral (roleset_to_names i pdb rs n).1
    ∧ PFs (roleset_to_names i pdb rs n).2.1 := by
  unfold roleset_to_names
  split_ifs with hc
  · exact set_to_cil_attr_spec h false rs.roles [] rs.flags n
  · exact ⟨Neutral.nil, pf_ebitmap_to_names (pdbPF_role h) rs.roles⟩

theorem neutral_avrule_inner {i : Int} {pdb : Policydb} {spec : Nat}
    {perms : List ClassPermNode} {s : String} (h : pdbPF pdb)
    (hs : parenFree s = true) :
    ∀ {ts : List String} {ls : List String},
      (∀ t ∈ ts, parenFree t = true) →
      avrule_inner i pdb spec perms s ts = some ls → Neutral ls := by
  intro ts
  induction ts with
  | nil =>
    intro ls _ hav
    simp only [avrule_inner, Option.some_inj] at hav
    subst hav
    exact Neutral.nil
  | cons t ts ih =>
    intro ls hts hav
    rw [avrule_inner] at hav
    cases hv : avrule_to_cil i pdb spec s t perms with
    | none => rw [hv] at hav; exact Option.noConfusion hav
    | some l1 =>
      rw [hv] at hav
      cases hr : avrule_inner i pdb spec perms s ts with
      | none => rw [hr] at hav; exact Option.noConfusion hav
      | some l2 =>
        rw [hr] at hav
        simp only [Option.some_inj] at hav
        subst hav
        exact (neutral_avrule h hs (hts t (by simp)) hv).append
          (ih (fun u hu => hts u (by simp [hu])) hr)

theorem neutral_avrule_outer {i : Int} {pdb : Policydb} {rule : Avrule}
    {tnames : List String} (h : pdbPF pdb)
    (htn : ∀ t ∈ tnames, parenFree t = true) :
    ∀ {ss : List String} {ls : List String},
      (∀ t ∈ ss, parenFree t = true) →
      avrule_outer i pdb rule tnames ss = some ls → Neutral ls := by
  intro ss
  induction ss with
  | nil =>
    intro ls _ hav
    simp only [avrule_outer, Option.some_inj] at hav
    subst hav
    exact Neutral.nil
  | cons s ss ih =>
    intro ls hss hav
    rw [avrule_outer] at hav
    cases hv : avrule_inner i pdb rule.specified rule.perms s tnames with
    | none => rw [hv] at hav; exact Option.noConfusion hav
    | some l1 =>
      rw [hv] at hav
      cases hsf : (if rule.flags &&& RULE_SELF ≠ 0 then
          avrule_to_cil i pdb rule.specified s "self" rule.perms
        else some []) with
      | none => rw [hsf] at hav; exact Option.noConfusion hav
      | some selfLs =>
        rw [hsf] at hav
        cases hr : avrule_outer i pdb rule tnames ss with
        | none => rw [hr] at hav; exact Option.noConfusion hav
        | some l2 =>
          rw [hr] at hav
          simp only [Option.some_inj] at hav
          subst hav
          have hself : Neutral selfLs := by
            split_ifs at hsf with hfl
            · exact neutral_avrule h (hss s (by simp)) (by decide) hsf
            · rw [Option.some_inj] at hsf
              rw [← hsf]
              exact Neutral.nil
          exact ((neutral_avrule_inner h (hss s (by simp)) htn hv).append
            hself).append (ih (fun u hu => hss u (by simp [hu])) hr)

theorem neutral_avrule_list {i : Int} {pdb : Policydb} (h : pdbPF pdb) :
    ∀ {rules : List Avrule} {n : Nat} {out : List String} {n' : Nat},
      avrule_list_to_cil i pdb rules n = some (out, n') → Neutral out := by
  intro rules
  induction rules with
  | nil =>
    intro n out n' hav
    simp only [avrule_list_to_cil, Option.some_inj, Prod.mk.injEq] at hav
    rw [← hav.1]
    exact Neutral.nil
  | cons rule rules ih =>
    intro n out n' hav
    rw [avrule_list_to_cil] at hav
    rcases h1 : typeset_to_names i pdb rule.stypes n with ⟨c1, snames, n1⟩
    have hspec1 := typeset_to_names_spec i h rule.stypes n
    rw [h1] at hav hspec1
    dsimp only at hav hspec1
    rcases h2 : typeset_to_names i pdb rule.ttypes n1 with ⟨c2, tnames, n2⟩
    have hspec2 := typeset_to_names_spec i h rule.ttypes n1
    rw [h2] at hav hspec2
    dsimp only at hav hspec2
    cases ho : avrule_outer i pdb rule tnames snames with
    | none => rw [ho] at hav; exact Option.noConfusion hav
    | some lines =>
      rw [ho] at hav
      cases hr : avrule_list_to_cil i pdb rules n2 with
      | none => rw [hr] at hav; exact Option.noConfusion hav
      | some p =>
        obtain ⟨rest, n3⟩ := p
        rw [hr] at hav
        simp only [Option.some_inj, Prod.mk.injEq] at hav
        rw [← hav.1]
        exact ((hspec1.1.append hspec2.1).append
          (neutral_avrule_outer h hspec2.2 hspec1.2 ho)).append (ih hr)

theorem pf_map_space {l : List String} (h : PFs l) :
    ∀ s ∈ l.map (· ++ " "), parenFree s = true := by
  intro s hs
  obtain ⟨t, ht, rfl⟩ := List.mem_map.mp hs
  rw [parenFree_append, h t ht, Bool.true_and]
  decide

theorem closer_chunk (i : Int) :
    cnet [println i ")"] = -1 ∧ clow [println i ")"] = -1 := by
  constructor <;>
    simp [cnet, clow, snet_println, slow_println,
      show snet ")" = -1 from by decide, show slow ")" = -1 from by decide]

theorem opener_chunk {t : String} (i : Int) (h1 : snet t = 1) (h2 : slow t = 0) :
    cnet [println i t] = 1 ∧ clow [println i t] = 0 := by
  constructor <;> simp [cnet, clow, snet_println, slow_println, h1, h2]

/-! ### Neutrality of the conditional-expression lowering -/

theorem cond_run_NS {pdb : Policydb} (h : pdbPF pdb) :
    ∀ {nodes : List CondExprNode} {stack stack' : List String},
      (∀ s ∈ stack, NeutralS s) →
      cond_expr_run pdb nodes stack = some stack' →
      ∀ s ∈ stack', NeutralS s := by
  intro nodes
  induction nodes with
  | nil =>
    intro stack stack' hst h1
    simp only [cond_expr_run, Option.some_inj] at h1
    rw [← h1]
    exact hst
  | cons curr rest ih =>
    intro stack stack' hst h1
    rw [cond_expr_run] at h1
    by_cases hb : curr.expr_type = COND_BOOL
    · rw [if_pos hb] at h1
      refine ih ?_ h1
      intro s hs
      rcases List.mem_cons.mp hs with rfl | hs
      · have hn := pf_vtn (pdbPF_bool h) (curr.boolId - 1)
        constructor <;>
          simp [snet_append, slow_append, snet_pf, slow_pf, hn,
            show snet "(" = 1 from by decide,
            show slow "(" = 0 from by decide,
            show snet ")" = -1 from by decide,
            show slow ")" = -1 from by decide] <;>
          omega
      · exact hst s hs
    · rw [if_neg hb] at h1
      cases hop : condOpName curr.expr_type with
      | none => rw [hop] at h1; exact Option.noConfusion h1
      | some op =>
        rw [hop] at h1
        dsimp only at h1
        have hpfop := pf_condOpName hop
        by_cases hnot : curr.expr_type = COND_NOT
        · rw [if_pos hnot] at h1
          cases stack with
          | nil => exact Option.noConfusion h1
          | cons v1 st1 =>
            refine ih ?_ h1
            intro s hs
            rcases List.mem_cons.mp hs with rfl | hs
            · have hv1 := hst v1 (by simp)
              constructor <;>
                simp [snet_append, slow_append, snet_pf, slow_pf, hpfop,
                  hv1.1, hv1.2,
                  show snet "(" = 1 from by decide,
                  show slow "(" = 0 from by decide,
                  show snet " " = 0 from by decide,
                  show slow " " = 0 from by decide,
                  show snet ")" = -1 from by decide,
                  show slow ")" = -1 from by decide] <;>
                omega
            · exact hst s (by simp [hs])
        · rw [if_neg hnot] at h1
          cases stack with
          | nil => exact Option.noConfusion h1
          | cons v2 st =>
            cases st with
            | nil => exact Option.noConfusion h1
            | cons v1 st2 =>
              refine ih ?_ h1
              intro s hs
              rcases List.mem_cons.mp hs with rfl | hs
              · have hv1 := hst v1 (by simp)
                have hv2 := hst v2 (by simp)
                constructor <;>
                  simp [snet_append, slow_append, snet_pf, slow_pf, hpfop,
                    hv1.1, hv1.2, hv2.1, hv2.2,
                    show snet "(" = 1 from by decide,
                    show slow "(" = 0 from by decide,
                    show snet " " = 0 from by decide,
                    show slow " " = 0 from by decide,
                    show snet ")" = -1 from by decide,
                    show slow ")" = -1 from by decide] <;>
                  omega
              · exact hst s (by simp [hs])

theorem cond_expr_hdr {i : Int} {pdb : Policydb} {nodes : List CondExprNode}
    {fl : Nat} {hd : List String} (h : pdbPF pdb)
    (hc : cond_expr_to_cil i pdb nodes fl = some hd) :
    cnet hd = 1 ∧ clow hd = 0 := by
  unfold cond_expr_to_cil at hc
  cases hr : cond_expr_run pdb nodes [] with
  | none => rw [hr] at hc; exact Option.noConfusion hc
  | some stack =>
    rw [hr] at hc
    cases stack with
    | nil => exact Option.noConfusion hc
    | cons v1 rest =>
      cases rest with
      | cons _ _ => exact Option.noConfusion hc
      | nil =>
        simp only [Option.some_inj] at hc
        subst hc
        have hv1 : NeutralS v1 := cond_run_NS h (by simp) hr v1 (by simp)
        by_cases hfl : fl &&& COND_NODE_FLAGS_TUNABLE ≠ 0 <;>
          constructor <;>
            simp [hfl, cnet, clow, snet_println, slow_println, snet_append,
              slow_append, hv1.1, hv1.2,
              show snet "(" = 1 from by decide,
              show slow "(" = 0 from by decide,
              show snet " " = 0 from by decide,
              show slow " " = 0 from by decide,
              show snet "(tunableif " = 1 from by decide,
              show slow "(tunableif " = 0 from by decide,
              show snet "(booleanif " = 1 from by decide,
              show slow "(booleanif " = 0 from by decide,
              snet_pf, slow_pf] <;>
            omega

theorem neutral_cond_list {i : Int} {pdb : Policydb} (h : pdbPF pdb) :
    ∀ {conds : List CondNode} {n : Nat} {out : List String} {n' : Nat},
      cond_list_to_cil i pdb conds n = some (out, n') → Neutral out := by
  intro conds
  induction conds with
  | nil =>
    intro n out n' h1
    simp only [cond_list_to_cil, Option.some_inj, Prod.mk.injEq] at h1
    rw [← h1.1]
    exact Neutral.nil
  | cons cond conds ih =>
    intro n out n' h1
    rw [cond_list_to_cil] at h1
    cases hh : cond_expr_to_cil i pdb cond.expr cond.flags with
    | none => rw [hh] at h1; exact Option.noConfusion h1
    | some hdr =>
      rw [hh] at h1
      dsimp only at h1
      split at h1
      · exact Option.noConfusion h1
      · rename_i tchunks n1 ht
        have htn : Neutral tchunks := by
          split at ht
          · split at ht
            · exact Option.noConfusion ht
            · rename_i ls na hav
              simp only [Option.some_inj, Prod.mk.injEq] at ht
              rw [← ht.1]
              exact neutral_group [println (i + 1) "(true"] ls
                [println (i + 1) ")"] 1 (by omega)
                (opener_chunk _ (by decide) (by decide))
                (neutral_avrule_list h hav) (closer_chunk _)
          · simp only [Option.some_inj, Prod.mk.injEq] at ht
            rw [← ht.1]
            exact Neutral.nil
        split at h1
        · exact Option.noConfusion h1
        · rename_i fchunks n2 hf
          have hfn : Neutral fchunks := by
            split at hf
            · split at hf
              · exact Option.noConfusion hf
              · rename_i ls na hav
                simp only [Option.some_inj, Prod.mk.injEq] at hf
                rw [← hf.1]
                exact neutral_group [println (i + 1) "(false"] ls
                  [println (i + 1) ")"] 1 (by omega)
                  (opener_chunk _ (by decide) (by decide))
                  (neutral_avrule_list h hav) (closer_chunk _)
            · simp only [Option.some_inj, Prod.mk.injEq] at hf
              rw [← hf.1]
              exact Neutral.nil
          cases hr : cond_list_to_cil i pdb conds n2 with
          | none => rw [hr] at h1; exact Option.noConfusion h1
          | some p =>
            obtain ⟨rest, n3⟩ := p
            rw [hr] at h1
            simp only [Option.some_inj, Prod.mk.injEq] at h1
            rw [← h1.1]
            have hhdr := cond_expr_hdr h hh
            have hrest := ih hr
            have hcl := closer_chunk i
            constructor
            · simp only [cnet_append, hhdr.1, htn.1, hfn.1, hcl.1, hrest.1]
              ring
            · simp only [clow_append, cnet_append, hhdr.1, hhdr.2, htn.1,
                htn.2, hfn.1, hfn.2, hcl.1, hcl.2, hrest.1, hrest.2]
              omega

/-! ### Neutrality of the remaining rule emitters -/

theorem neutral_role_trans (i : Int) {pdb : Policydb} (h : pdbPF pdb) :
    ∀ (rules : List RoleTransRule) (n : Nat),
      Neutral (role_trans_to_cil i pdb rules n).1 := by
  intro rules
  induction rules with
  | nil => intro n; exact Neutral.nil
  | cons rule rules ih =>
    intro n
    rw [role_trans_to_cil]
    rcases h1 : roleset_to_names i pdb rule.roles n with ⟨c1, role_names, n1⟩
    have hs1 := roleset_to_names_spec i h rule.roles n
    rw [h1] at hs1
    dsimp only at hs1 ⊢
    rcases h2 : typeset_to_names i pdb rule.types n1 with ⟨c2, type_names, n2⟩
    have hs2 := typeset_to_names_spec i h rule.types n1
    rw [h2] at hs2
    dsimp only at hs2 ⊢
    rcases h3 : role_trans_to_cil i pdb rules n2 with ⟨rest, n3⟩
    have hrest := ih n2
    rw [h3] at hrest
    dsimp only at hrest ⊢
    refine ((hs1.1.append hs2.1).append ?_).append hrest
    apply neutral_flatMap
    intro r hr
    apply neutral_flatMap
    intro t ht
    apply neutral_of_NS
    intro s hs
    obtain ⟨c, _, rfl⟩ := List.mem_map.mp hs
    apply NeutralS_println
    constructor <;>
      simp [snet_append, slow_append, snet_pf, slow_pf, hs1.2 r hr, hs2.2 t ht,
        pf_vtn (pdbPF_class h), pf_vtn (pdbPF_role h),
        show snet "(roletransition " = 1 from by decide,
        show slow "(roletransition " = 0 from by decide,
        show snet " " = 0 from by decide, show slow " " = 0 from by decide,
        show snet ")" = -1 from by decide,
        show slow ")" = -1 from by decide] <;>
      omega

theorem neutral_role_allows (i : Int) {pdb : Policydb} (h : pdbPF pdb) :
    ∀ (rules : List RoleAllowRule) (n : Nat),
      Neutral (role_allows_to_cil i pdb rules n).1 := by
  intro rules
  induction rules with
  | nil => intro n; exact Neutral.nil
  | cons rule rules ih =>
    intro n
    rw [role_allows_to_cil]
    rcases h1 : roleset_to_names i pdb rule.roles n with ⟨c1, roles, n1⟩
    have hs1 := roleset_to_names_spec i h rule.roles n
    rw [h1] at hs1
    dsimp only at hs1 ⊢
    rcases h2 : roleset_to_names i pdb rule.new_roles n1 with ⟨c2, new_roles, n2⟩
    have hs2 := roleset_to_names_spec i h rule.new_roles n1
    rw [h2] at hs2
    dsimp only at hs2 ⊢
    rcases h3 : role_allows_to_cil i pdb rules n2 with ⟨rest, n3⟩
    have hrest := ih n2
    rw [h3] at hrest
    dsimp only at hrest ⊢
    refine ((hs1.1.append hs2.1).append ?_).append hrest
    apply neutral_flatMap
    intro r hr
    apply neutral_of_NS
    intro s hs
    obtain ⟨nr, hnr, rfl⟩ := List.mem_map.mp hs
    apply NeutralS_println
    constructor <;>
      simp [snet_append, slow_append, snet_pf, slow_pf, hs1.2 r hr,
        hs2.2 nr hnr,
        show snet "(roleallow " = 1 from by decide,
        show slow "(roleallow " = 0 from by decide,
        show snet " " = 0 from by decide, show slow " " = 0 from by decide,
        show snet ")" = -1 from by decide,
        show slow ")" = -1 from by decide] <;>
      omega

theorem neutral_range_trans_rules (i : Int) {pdb : Policydb} (h : pdbPF pdb) :
    ∀ (rules : List RangeTransRule) (n : Nat),
      Neutral (range_trans_rules_to_cil i pdb rules n).1 := by
  intro rules
  induction rules with
  | nil => intro n; exact Neutral.nil
  | cons rule rules ih =>
    intro n
    rw [range_trans_rules_to_cil]
    rcases h1 : typeset_to_names i pdb rule.stypes n with ⟨c1, stypes, n1⟩
    have hs1 := typeset_to_names_spec i h rule.stypes n
    rw [h1] at hs1
    dsimp only at hs1 ⊢
    rcases h2 : typeset_to_names i pdb rule.ttypes n1 with ⟨c2, ttypes, n2⟩
    have hs2 := typeset_to_names_spec i h rule.ttypes n1
    rw [h2] at hs2
    dsimp only at hs2 ⊢
    rcases h3 : range_trans_rules_to_cil i pdb rules n2 with ⟨rest, n3⟩
    have hrest := ih n2
    rw [h3] at hrest
    dsimp only at hrest ⊢
    refine ((hs1.1.append hs2.1).append ?_).append hrest
    apply neutral_flatMap
    intro s hsm
    apply neutral_flatMap
    intro t htm
    apply neutral_flatMap
    intro c _
    have hlow := neutral_semantic_level h 1 rule.trange.low
    have hhigh := neutral_semantic_level h 1 rule.trange.high
    have hpre : cnet [indentStr i,
        "(rangetransition " ++ s ++ " " ++ t ++ " " ++
          vtn pdb.class_val_to_name c ++ " ", "("] = 2 ∧
        clow [indentStr i,
        "(rangetransition " ++ s ++ " " ++ t ++ " " ++
          vtn pdb.class_val_to_name c ++ " ", "("] = 0 := by
      constructor <;>
        simp [cnet, clow, snet_append, slow_append, snet_pf, slow_pf,
          parenFree_indentStr, hs1.2 s hsm, hs2.2 t htm,
          pf_vtn (pdbPF_class h),
          show snet "(rangetransition " = 1 from by decide,
          show slow "(rangetransition " = 0 from by decide,
          show snet " " = 0 from by decide, show slow " " = 0 from by decide,
          show snet "(" = 1 from by decide,
          show slow "(" = 0 from by decide] <;>
        omega
    have hpre23 : cnet ([indentStr i,
          "(rangetransition " ++ s ++ " " ++ t ++ " " ++
            vtn pdb.class_val_to_name c ++ " ", "("]
          ++ semantic_level_to_cil pdb 1 rule.trange.low ++ [" "]) = 2 ∧
        clow ([indentStr i,
          "(rangetransition " ++ s ++ " " ++ t ++ " " ++
            vtn pdb.class_val_to_name c ++ " ", "("]
          ++ semantic_level_to_cil pdb 1 rule.trange.low ++ [" "]) = 0 := by
      constructor <;>
        simp only [cnet_append, clow_append, hpre.1, hpre.2, hlow.1, hlow.2,
          show cnet [" "] = 0 from by decide,
          show clow [" "] = 0 from by decide] <;>
        omega
    exact neutral_group _ _ _ 2 (by omega) hpre23 hhigh
      (by constructor <;> decide)

theorem neutral_range_trans (i : Int) {pdb : Policydb} (h : pdbPF pdb)
    (rules : List RangeTransRule) (n : Nat) :
    Neutral (range_trans_to_cil i pdb rules n).1 := by
  unfold range_trans_to_cil
  split_ifs
  · exact Neutral.nil
  · exact neutral_range_trans_rules i h rules n

theorem neutral_filename_trans (i : Int) {pdb : Policydb} (h : pdbPF pdb) :
    ∀ (rules : List FilenameTransRule) (n : Nat),
      (∀ r ∈ rules, parenFree r.name = true) →
      Neutral (filename_trans_to_cil i pdb rules n).1 := by
  intro rules
  induction rules with
  | nil => intro n _; exact Neutral.nil
  | cons rule rules ih =>
    intro n hnames
    rw [filename_trans_to_cil]
    rcases h1 : typeset_to_names i pdb rule.stypes n with ⟨c1, stypes, n1⟩
    have hs1 := typeset_to_names_spec i h rule.stypes n
    rw [h1] at hs1
    dsimp only at hs1 ⊢
    rcases h2 : typeset_to_names i pdb rule.ttypes n1 with ⟨c2, ttypes, n2⟩
    have hs2 := typeset_to_names_spec i h rule.ttypes n1
    rw [h2] at hs2
    dsimp only at hs2 ⊢
    rcases h3 : filename_trans_to_cil i pdb rules n2 with ⟨rest, n3⟩
    have hrest := ih n2 (fun r hr => hnames r (by simp [hr]))
    rw [h3] at hrest
    dsimp only at hrest ⊢
    refine ((hs1.1.append hs2.1).append ?_).append hrest
    apply neutral_flatMap
    intro s hsm
    apply neutral_of_NS
    intro u hu
    obtain ⟨t, htm, rfl⟩ := List.mem_map.mp hu
    apply NeutralS_println
    constructor <;>
      simp [snet_append, slow_append, snet_pf, slow_pf, hs1.2 s hsm,
        hs2.2 t htm, hnames rule (by simp), pf_vtn (pdbPF_class h),
        pf_vtn (pdbPF_type h),
        show snet "(typetransition " = 1 from by decide,
        show slow "(typetransition " = 0 from by decide,
        show snet " " = 0 from by decide, show slow " " = 0 from by decide,
        show snet ")" = -1 from by decide,
        show slow ")" = -1 from by decide] <;>
      omega

/-! ### Common line shapes -/

theorem NS_line1 {lbl a : String} (hl : snet lbl = 1 ∧ slow lbl = 0)
    (ha : parenFree a = true) : NeutralS (lbl ++ a ++ ")") := by
  constructor <;>
    simp [snet_append, slow_append, snet_pf, slow_pf, ha, hl.1, hl.2,
      show snet ")" = -1 from by decide,
      show slow ")" = -1 from by decide] <;>
    omega

theorem NS_line2 {lbl a b : String} (hl : snet lbl = 1 ∧ slow lbl = 0)
    (ha : parenFree a = true) (hb : parenFree b = true) :
    NeutralS (lbl ++ a ++ " " ++ b ++ ")") := by
  constructor <;>
    simp [snet_append, slow_append, snet_pf, slow_pf, ha, hb, hl.1, hl.2,
      show snet " " = 0 from by decide, show slow " " = 0 from by decide,
      show snet ")" = -1 from by decide,
      show slow ")" = -1 from by decide] <;>
    omega

theorem NS_line3 {lbl a b c : String} (hl : snet lbl = 1 ∧ slow lbl = 0)
    (ha : parenFree a = true) (hb : parenFree b = true)
    (hc : parenFree c = true) :
    NeutralS (lbl ++ a ++ " " ++ b ++ " " ++ c ++ ")") := by
  constructor <;>
    simp [snet_append, slow_append, snet_pf, slow_pf, ha, hb, hc, hl.1, hl.2,
      show snet " " = 0 from by decide, show slow " " = 0 from by decide,
      show snet ")" = -1 from by decide,
      show slow ")" = -1 from by decide] <;>
    omega

/-! ### Neutrality of the per-symbol converters -/

theorem neutral_class_to_cil {i : Int} {pdb : Policydb} {key : String}
    {cls : ClassDatum} {sc : Nat} {out : List String} (h : pdbPF pdb)
    (hk : parenFree key = true) (hd : classPF cls)
    (hc : class_to_cil i pdb key cls sc = some out) : Neutral out := by
  unfold class_to_cil at hc
  by_cases hsc : sc = SCOPE_REQ
  · rw [if_pos hsc, Option.some_inj] at hc
    rw [← hc]
    exact Neutral.nil
  · rw [if_neg hsc] at hc
    have hopt : ∀ {v : Nat} {lv : List String} {lbl : String},
        snet lbl = 1 ∧ slow lbl = 0 →
        (if v ≠ 0 then
            (defaultStr v).map fun d =>
              [println i (lbl ++ key ++ " " ++ d ++ ")")]
          else some []) = some lv → Neutral lv := by
      intro v lv lbl hlbl hv
      split_ifs at hv
      · obtain ⟨d, hdstr, hv⟩ := Option.map_eq_some'.mp hv
        rw [← hv]
        exact neutral_single (NeutralS_println
          (NS_line2 hlbl hk (pf_defaultStr hdstr)) i)
      · rw [Option.some_inj] at hv
        rw [← hv]
        exact Neutral.nil
    split at hc
    · exact Option.noConfusion hc
    · rename_i du hdu
      split at hc
      · exact Option.noConfusion hc
      · rename_i dr hdr
        split at hc
        · exact Option.noConfusion hc
        · rename_i dt hdt
          split at hc
          · exact Option.noConfusion hc
          · rename_i dg hdg
            rw [Option.some_inj] at hc
            rw [← hc]
            have hhdr : Neutral ([indentStr i, "(class " ++ key ++ " ("]
                ++ cls.permNames.map (· ++ " ") ++ ["))\n"]) := by
              refine neutral_group _ _ _ 2 (by omega) ?_
                (neutral_of_PF (pf_map_space hd.1)) (by constructor <;> decide)
              constructor <;>
                simp [cnet, clow, snet_append, slow_append, snet_pf, slow_pf,
                  hk, parenFree_indentStr,
                  show snet "(class " = 1 from by decide,
                  show slow "(class " = 0 from by decide,
                  show snet " (" = 1 from by decide,
                  show slow " (" = 0 from by decide] <;>
                omega
            have hcom : Neutral (match cls.comkey with
                | none => []
                | some ck =>
                  [println i ("(classcommon " ++ key ++ " " ++ ck ++ ")")]) := by
              cases hck : cls.comkey with
              | none => exact Neutral.nil
              | some ck =>
                exact neutral_single (NeutralS_println
                  (NS_line2 ⟨by decide, by decide⟩ hk (hd.2 ck hck)) i)
            have hdg' : Neutral dg := by
              split_ifs at hdg
              · obtain ⟨d, hdstr, hdg⟩ := Option.map_eq_some'.mp hdg
                rw [← hdg]
                exact neutral_single (NeutralS_println
                  (NS_line2 ⟨by decide, by decide⟩ hk
                    (pf_defaultRangeStr hdstr)) i)
              · rw [Option.some_inj] at hdg
                rw [← hdg]
                exact Neutral.nil
            exact ((((hhdr.append hcom).append
              (hopt ⟨by decide, by decide⟩ hdu)).append
              (hopt ⟨by decide, by decide⟩ hdr)).append
              (hopt ⟨by decide, by decide⟩ hdt)).append hdg'

theorem neutral_role_to_cil {i : Int} {pdb : Policydb} {key : String}
    {role : RoleDatum} {sc nA : Nat} (h : pdbPF pdb)
    (hk : parenFree key = true) :
    ∀ {out : List String} {n' : Nat},
      role_to_cil i pdb key role sc nA = some (out, n') → Neutral out := by
  intro out n' hc
  unfold role_to_cil at hc
  by_cases h1 : role.flavor = ROLE_ROLE
  · rw [if_pos h1] at hc
    by_cases h2 : sc = SCOPE_DECL ∧ pdb.policy_type = SEPOL_POLICY_MOD
    · rw [if_pos h2, Option.some_inj, Prod.mk.injEq] at hc
      rw [← hc.1]
      exact neutral_single (NeutralS_println
        (NS_line1 ⟨by decide, by decide⟩ hk) i)
    · rw [if_neg h2] at hc
      rcases hts : typeset_to_names i pdb role.types nA with ⟨c1, types, n1⟩
      have hspec := typeset_to_names_spec i h role.types nA
      rw [hts] at hc hspec
      dsimp only at hc hspec
      simp only [Option.some_inj, Prod.mk.injEq] at hc
      rw [← hc.1]
      refine (hspec.1.append (neutral_of_NS ?_)).append ?_
      · intro s hs
        obtain ⟨t, htm, rfl⟩ := List.mem_map.mp hs
        exact NeutralS_println (NS_line2 ⟨by decide, by decide⟩ hk
          (hspec.2 t htm)) i
      · split_ifs
        · exact neutral_single (NeutralS_println
            (NS_line2 ⟨by decide, by decide⟩ hk (pf_vtn (pdbPF_role h) _)) i)
        · exact Neutral.nil
  · rw [if_neg h1] at hc
    by_cases h3 : role.flavor = ROLE_ATTRIB
    swap
    · rw [if_neg h3] at hc
      exact Option.noConfusion hc
    rw [if_pos h3] at hc
    rcases hts : typeset_to_names i pdb role.types nA with ⟨c1, types, n1⟩
    have hspec := typeset_to_names_spec i h role.types nA
    rw [hts] at hc hspec
    dsimp only at hc hspec
    simp only [Option.some_inj, Prod.mk.injEq] at hc
    rw [← hc.1]
    have hdecl : Neutral (if sc = SCOPE_DECL then
        [println i ("(roleattribute " ++ key ++ ")")] else []) := by
      split_ifs
      · exact neutral_single (NeutralS_println
          (NS_line1 ⟨by decide, by decide⟩ hk) i)
      · exact Neutral.nil
    have hras : Neutral (if !role.roles.isEmpty then
        [indentStr i, "(roleattributeset " ++ key ++ " ("]
          ++ role.roles.map (fun j => vtn pdb.role_val_to_name j ++ " ")
          ++ ["))\n"] else []) := by
      split_ifs
      · refine neutral_group _ _ _ 2 (by omega) ?_
          (neutral_of_PF (pf_names_map (pdbPF_role h) role.roles))
          (by constructor <;> decide)
        constructor <;>
          simp [cnet, clow, snet_append, slow_append, snet_pf, slow_pf, hk,
            parenFree_indentStr,
            show snet "(roleattributeset " = 1 from by decide,
            show slow "(roleattributeset " = 0 from by decide,
            show snet " (" = 1 from by decide,
            show slow " (" = 0 from by decide] <;>
          omega
      · exact Neutral.nil
    refine ((hdecl.append hras).append hspec.1).append (neutral_of_NS ?_)
    intro s hs
    obtain ⟨t, htm, rfl⟩ := List.mem_map.mp hs
    exact NeutralS_println (NS_line2 ⟨by decide, by decide⟩ hk
      (hspec.2 t htm)) i

theorem neutral_type_to_cil {i : Int} {pdb : Policydb} {key : String}
    {ty : TypeDatum} {sc : Nat} {out : List String} (h : pdbPF pdb)
    (hk : parenFree key = true)
    (hc : type_to_cil i pdb key ty sc = some out) : Neutral out := by
  unfold type_to_cil at hc
  by_cases h1 : ty.flavor = TYPE_TYPE
  · rw [if_pos h1] at hc
    simp only [Option.some_inj] at hc
    rw [← hc]
    have hdecl : Neutral (if sc = SCOPE_DECL then
        (if ty.primary = 1 then
          [println i ("(type " ++ key ++ ")"),
           println i ("(roletype " ++ DEFAULT_OBJECT ++ " " ++ key ++ ")")]
        else
          [println i ("(typealias " ++ key ++ ")"),
           println i ("(typealiasactual " ++ key ++ " " ++
             vtn pdb.type_val_to_name (ty.value - 1) ++ ")")]) else []) := by
      split_ifs
      · refine neutral_of_NS ?_
        intro s hs
        rcases List.mem_cons.mp hs with rfl | hs
        · exact NeutralS_println (NS_line1 ⟨by decide, by decide⟩ hk) i
        · rw [List.mem_singleton.mp hs]
          exact NeutralS_println
            (NS_line2 ⟨by decide, by decide⟩ (by decide) hk) i
      · refine neutral_of_NS ?_
        intro s hs
        rcases List.mem_cons.mp hs with rfl | hs
        · exact NeutralS_println (NS_line1 ⟨by decide, by decide⟩ hk) i
        · rw [List.mem_singleton.mp hs]
          exact NeutralS_println (NS_line2 ⟨by decide, by decide⟩ hk
            (pf_vtn (pdbPF_type h) _)) i
      · exact Neutral.nil
    have hperm : Neutral (if ty.flags &&& TYPE_FLAGS_PERMISSIVE ≠ 0 then
        [println i ("(typepermissive " ++ key ++ ")")] else []) := by
      split_ifs
      · exact neutral_single (NeutralS_println
          (NS_line1 ⟨by decide, by decide⟩ hk) i)
      · exact Neutral.nil
    have hbnd : Neutral (if ty.bounds > 0 then
        [println i ("(typebounds " ++ vtn pdb.type_val_to_name (ty.bounds - 1)
          ++ " " ++ key ++ ")")] else []) := by
      split_ifs
      · exact neutral_single (NeutralS_println
          (NS_line2 ⟨by decide, by decide⟩ (pf_vtn (pdbPF_type h) _) hk) i)
      · exact Neutral.nil
    exact (hdecl.append hperm).append hbnd
  · rw [if_neg h1] at hc
    by_cases h2 : ty.flavor = TYPE_ATTRIB
    swap
    · rw [if_neg h2] at hc
      exact Option.noConfusion hc
    rw [if_pos h2] at hc
    simp only [Option.some_inj] at hc
    rw [← hc]
    have hdecl : Neutral (if sc = SCOPE_DECL then
        [println i ("(typeattribute " ++ key ++ ")")] else []) := by
      split_ifs
      · exact neutral_single (NeutralS_println
          (NS_line1 ⟨by decide, by decide⟩ hk) i)
      · exact Neutral.nil
    refine hdecl.append ?_
    split_ifs
    · refine neutral_group _ _ _ 2 (by omega) ?_
        (neutral_of_PF (pf_names_map (pdbPF_type h) ty.types))
        (by constructor <;> decide)
      constructor <;>
        simp [cnet, clow, snet_append, slow_append, snet_pf, slow_pf, hk,
          parenFree_indentStr,
          show snet "(typeattributeset " = 1 from by decide,
          show slow "(typeattributeset " = 0 from by decide,
          show snet " (" = 1 from by decide,
          show slow " (" = 0 from by decide] <;>
        omega
    · exact Neutral.nil

theorem neutral_user_to_cil {i : Int} {pdb : Policydb} {block : AvruleBlock}
    {key : String} {user : UserDatum} {sc : Nat} (h : pdbPF pdb)
    (hk : parenFree key = true) :
    Neutral (user_to_cil i pdb block key user sc) := by
  unfold user_to_cil
  have hdecl : Neutral (if sc = SCOPE_DECL then
      [println i ("(user " ++ key ++ ")"),
       println i ("(userrole " ++ key ++ " " ++ DEFAULT_OBJECT ++ ")")]
    else []) := by
    split_ifs
    · refine neutral_of_NS ?_
      intro s hs
      rcases List.mem_cons.mp hs with rfl | hs
      · exact NeutralS_println (NS_line1 ⟨by decide, by decide⟩ hk) i
      · rw [List.mem_singleton.mp hs]
        exact NeutralS_println (NS_line2 ⟨by decide, by decide⟩ hk
          (by decide)) i
    · exact Neutral.nil
  have hroles : Neutral (user.roles.map fun j =>
      println i ("(userrole " ++ key ++ " " ++
        vtn pdb.role_val_to_name j ++ ")")) := by
    refine neutral_of_NS ?_
    intro s hs
    obtain ⟨j, _, rfl⟩ := List.mem_map.mp hs
    exact NeutralS_println (NS_line2 ⟨by decide, by decide⟩ hk
      (pf_vtn (pdbPF_role h) j)) i
  have hul : Neutral ([indentStr i, "(userlevel " ++ key ++ " "]
      ++ (if pdb.mls then semantic_level_to_cil pdb
            (if block.flags &&& AVRULE_OPTIONAL ≠ 0 then 0 else 1) user.dfltlevel
          else [DEFAULT_LEVEL]) ++ [")\n"]) := by
    refine neutral_group _ _ _ 1 (by omega) ?_ ?_ (by constructor <;> decide)
    · constructor <;>
        simp [cnet, clow, snet_append, slow_append, snet_pf, slow_pf, hk,
          parenFree_indentStr,
          show snet "(userlevel " = 1 from by decide,
          show slow "(userlevel " = 0 from by decide,
          show snet " " = 0 from by decide,
          show slow " " = 0 from by decide] <;>
        omega
    · by_cases hm : pdb.mls = true
      · rw [if_pos hm]
        exact neutral_semantic_level h _ _
      · rw [if_neg hm]
        exact neutral_of_PF
          (by intro s hs; rw [List.mem_singleton.mp hs]; decide)
  have hur : Neutral ([indentStr i, "(userrange " ++ key ++ " ("]
      ++ (if pdb.mls then
            semantic_level_to_cil pdb
              (if block.flags &&& AVRULE_OPTIONAL ≠ 0 then 0 else 1)
              user.range.low ++ [" "]
              ++ semantic_level_to_cil pdb
                (if block.flags &&& AVRULE_OPTIONAL ≠ 0 then 0 else 1)
                user.range.high
          else [DEFAULT_LEVEL ++ " " ++ DEFAULT_LEVEL]) ++ ["))\n"]) := by
    refine neutral_group _ _ _ 2 (by omega) ?_ ?_ (by constructor <;> decide)
    · constructor <;>
        simp [cnet, clow, snet_append, slow_append, snet_pf, slow_pf, hk,
          parenFree_indentStr,
          show snet "(userrange " = 1 from by decide,
          show slow "(userrange " = 0 from by decide,
          show snet " (" = 1 from by decide,
          show slow " (" = 0 from by decide] <;>
        omega
    · by_cases hm : pdb.mls = true
      · rw [if_pos hm]
        refine ((neutral_semantic_level h _ _).append ?_).append
          (neutral_semantic_level h _ _)
        exact neutral_of_PF
          (by intro s hs; rw [List.mem_singleton.mp hs]; decide)
      · rw [if_neg hm]
        exact neutral_of_PF
          (by intro s hs; rw [List.mem_singleton.mp hs]; decide)
  exact ((hdecl.append hroles).append hul).append hur

theorem neutral_boolean_to_cil {i : Int} {key : String} {b : BoolDatum}
    {sc : Nat} (hk : parenFree key = true) :
    Neutral (boolean_to_cil i key b sc) := by
  unfold boolean_to_cil
  by_cases hsc : sc = SCOPE_DECL
  · rw [if_pos hsc]
    refine neutral_single (NeutralS_println (NS_line3 ⟨by decide, by decide⟩
      ?_ hk ?_) i)
    · split_ifs <;> decide
    · split_ifs <;> decide
  · rw [if_neg hsc]
    exact Neutral.nil

theorem neutral_sens_to_cil {i : Int} {pdb : Policydb} {key : String}
    {lvl : LevelDatum} {sc : Nat} (h : pdbPF pdb)
    (hk : parenFree key = true) :
    Neutral (sens_to_cil i pdb key lvl sc) := by
  unfold sens_to_cil
  refine Neutral.append ?_ ?_
  · split_ifs
    · exact neutral_single (NeutralS_println
        (NS_line1 ⟨by decide, by decide⟩ hk) i)
    · refine neutral_of_NS ?_
      intro s hs
      rcases List.mem_cons.mp hs with rfl | hs
      · exact NeutralS_println (NS_line1 ⟨by decide, by decide⟩ hk) i
      · rw [List.mem_singleton.mp hs]
        exact NeutralS_println (NS_line2 ⟨by decide, by decide⟩ hk
          (pf_vtn (pdbPF_sens h) _)) i
    · exact Neutral.nil
  · split_ifs
    · refine neutral_group _ _ _ 2 (by omega) ?_
        (neutral_of_PF (pf_names_map (pdbPF_cat h) lvl.level.cat))
        (by constructor <;> decide)
      constructor <;>
        simp [cnet, clow, snet_append, slow_append, snet_pf, slow_pf, hk,
          parenFree_indentStr,
          show snet "(sensitivitycategory " = 1 from by decide,
          show slow "(sensitivitycategory " = 0 from by decide,
          show snet " (" = 1 from by decide,
          show slow " (" = 0 from by decide] <;>
        omega
    · exact Neutral.nil

theorem neutral_sens_order {i : Int} {pdb : Policydb} {order : Ebitmap}
    (h : pdbPF pdb) : Neutral (sens_order_to_cil i pdb order) := by
  unfold sens_order_to_cil
  split_ifs
  · exact Neutral.nil
  · refine neutral_group _ _ _ 2 (by omega) ?_
      (neutral_of_PF (pf_names_map (pdbPF_sens h) order))
      (by constructor <;> decide)
    constructor <;> simp [cnet, clow, snet_append, slow_append, snet_pf,
      slow_pf, parenFree_indentStr] <;> decide

theorem neutral_cat_to_cil {i : Int} {pdb : Policydb} {key : String}
    {cat : CatDatum} {sc : Nat} (h : pdbPF pdb)
    (hk : parenFree key = true) :
    Neutral (cat_to_cil i pdb key cat sc) := by
  unfold cat_to_cil
  split_ifs
  · exact Neutral.nil
  · exact neutral_single (NeutralS_println
      (NS_line1 ⟨by decide, by decide⟩ hk) i)
  · refine neutral_of_NS ?_
    intro s hs
    rcases List.mem_cons.mp hs with rfl | hs
    · exact NeutralS_println (NS_line1 ⟨by decide, by decide⟩ hk) i
    · rw [List.mem_singleton.mp hs]
      exact NeutralS_println (NS_line2 ⟨by decide, by decide⟩ hk
        (pf_vtn (pdbPF_cat h) _)) i

theorem neutral_cat_order {i : Int} {pdb : Policydb} {order : Ebitmap}
    (h : pdbPF pdb) : Neutral (cat_order_to_cil i pdb order) := by
  unfold cat_order_to_cil
  split_ifs
  · exact Neutral.nil
  · refine neutral_group _ _ _ 2 (by omega) ?_
      (neutral_of_PF (pf_names_map (pdbPF_cat h) order))
      (by constructor <;> decide)
    constructor <;> simp [cnet, clow, snet_append, slow_append, snet_pf,
      slow_pf, parenFree_indentStr] <;> decide

theorem neutral_common_to_cil {key : String} {common : CommonDatum}
    (hk : parenFree key = true) (hp : PFs common.permNames) :
    Neutral (common_to_cil key common) := by
  unfold common_to_cil
  refine neutral_group _ _ _ 2 (by omega) ?_
    (neutral_of_PF (pf_map_space hp)) (by constructor <;> decide)
  constructor <;>
    simp [cnet, clow, snet_append, slow_append, snet_pf, slow_pf, hk,
      show snet "(common " = 1 from by decide,
      show slow "(common " = 0 from by decide,
      show snet " (" = 1 from by decide,
      show slow " (" = 0 from by decide] <;>
    omega

/-! ### Neutrality of the scope folds -/

theorem symScopeFold_neutral {α : Type} {valNames : List String}
    {tab : List (String × α)} {conv : String → α → Option (List String)}
    (hconv : ∀ (j : Nat) (d : α) (ls : List String),
      tab.lookup (vtn valNames j) = some d →
      conv (vtn valNames j) d = some ls → Neutral ls) :
    ∀ {is : List Nat} {out : List String},
      symScopeFold valNames tab conv is = some out → Neutral out := by
  intro is
  induction is with
  | nil =>
    intro out h1
    simp only [symScopeFold, Option.some_inj] at h1
    rw [← h1]
    exact Neutral.nil
  | cons j is ih =>
    intro out h1
    rw [symScopeFold] at h1
    cases hl : tab.lookup (vtn valNames j) with
    | none => rw [hl] at h1; exact Option.noConfusion h1
    | some datum =>
      rw [hl] at h1
      obtain ⟨ls, hls, h1⟩ := Option.bind_eq_some.mp h1
      obtain ⟨rest, hrest, h1⟩ := Option.bind_eq_some.mp h1
      simp only [Option.pure_def, Option.some_inj] at h1
      rw [← h1]
      exact (hconv j datum ls hl hls).append (ih hrest)

theorem symScopeFoldN_neutral {α : Type} {valNames : List String}
    {tab : List (String × α)}
    {conv : String → α → Nat → Option (List String × Nat)}
    (hconv : ∀ (j : Nat) (d : α) (n : Nat) (ls : List String) (n' : Nat),
      tab.lookup (vtn valNames j) = some d →
      conv (vtn valNames j) d n = some (ls, n') → Neutral ls) :
    ∀ {is : List Nat} {n : Nat} {out : List String} {n' : Nat},
      symScopeFoldN valNames tab conv is n = some (out, n') → Neutral out := by
  intro is
  induction is with
  | nil =>
    intro n out n' h1
    simp only [symScopeFoldN, Option.some_inj, Prod.mk.injEq] at h1
    rw [← h1.1]
    exact Neutral.nil
  | cons j is ih =>
    intro n out n' h1
    rw [symScopeFoldN] at h1
    cases hl : tab.lookup (vtn valNames j) with
    | none => rw [hl] at h1; exact Option.noConfusion h1
    | some datum =>
      rw [hl] at h1
      obtain ⟨⟨ls, n1⟩, hls, h1⟩ := Option.bind_eq_some.mp h1
      dsimp only at h1
      obtain ⟨⟨rest, n2⟩, hrest, h1⟩ := Option.bind_eq_some.mp h1
      dsimp only at h1
      simp only [Option.pure_def, Option.some_inj, Prod.mk.injEq] at h1
      rw [← h1.1]
      exact (hconv j datum n ls n1 hl hls).append (ih hrest)

theorem addScopeFold_neutral {α : Type}
    {conv : String → α → Option (List String)} :
    ∀ {l : List (String × α)} {out : List String},
      (∀ kd ∈ l, ∀ ls, conv kd.1 kd.2 = some ls → Neutral ls) →
      addScopeFold conv l = some out → Neutral out := by
  intro l
  induction l with
  | nil =>
    intro out _ h1
    simp only [addScopeFold, Option.some_inj] at h1
    rw [← h1]
    exact Neutral.nil
  | cons kd rest ih =>
    intro out hconv h1
    obtain ⟨k, d⟩ := kd
    rw [addScopeFold] at h1
    obtain ⟨ls, hls, h1⟩ := Option.bind_eq_some.mp h1
    obtain ⟨more, hmore, h1⟩ := Option.bind_eq_some.mp h1
    simp only [Option.pure_def, Option.some_inj] at h1
    rw [← h1]
    exact (hconv (k, d) (by simp) ls hls).append
      (ih (fun kd hkd ls' hls' => hconv kd (by simp [hkd]) ls' hls') hmore)

theorem addScopeFoldN_neutral {α : Type}
    {conv : String → α → Nat → Option (List String × Nat)} :
    ∀ {l : List (String × α)} {n : Nat} {out : List String} {n' : Nat},
      (∀ kd ∈ l, ∀ n ls n', conv kd.1 kd.2 n = some (ls, n') → Neutral ls) →
      addScopeFoldN conv l n = some (out, n') → Neutral out := by
  intro l
  induction l with
  | nil =>
    intro n out n' _ h1
    simp only [addScopeFoldN, Option.some_inj, Prod.mk.injEq] at h1
    rw [← h1.1]
    exact Neutral.nil
  | cons kd rest ih =>
    intro n out n' hconv h1
    obtain ⟨k, d⟩ := kd
    rw [addScopeFoldN] at h1
    obtain ⟨⟨ls, n1⟩, hls, h1⟩ := Option.bind_eq_some.mp h1
    dsimp only at h1
    obtain ⟨⟨more, n2⟩, hmore, h1⟩ := Option.bind_eq_some.mp h1
    dsimp only at h1
    simp only [Option.pure_def, Option.some_inj, Prod.mk.injEq] at h1
    rw [← h1.1]
    exact (hconv (k, d) (by simp) n ls n1 hls).append
      (ih (fun kd hkd n ls' n'' hls' => hconv kd (by simp [hkd]) n ls' n'' hls')
        hmore)

/-! ### Neutrality of the scope emitters and the decl body -/

theorem neutral_declared_scopes {i : Int} {pdb : Policydb}
    {block : AvruleBlock} {decl : AvruleDecl} {nA : Nat} {out : List String}
    {n' : Nat} (h : pdbPF pdb)
    (hds : declared_scopes_to_cil i pdb block decl nA = some (out, n')) :
    Neutral out := by
  unfold declared_scopes_to_cil at hds
  obtain ⟨cls, hcls, hds⟩ := Option.bind_eq_some.mp hds
  obtain ⟨⟨rls, n1⟩, hrls, hds⟩ := Option.bind_eq_some.mp hds
  dsimp only at hds
  obtain ⟨tys, htys, hds⟩ := Option.bind_eq_some.mp hds
  obtain ⟨usrs, husrs, hds⟩ := Option.bind_eq_some.mp hds
  obtain ⟨bls, hbls, hds⟩ := Option.bind_eq_some.mp hds
  obtain ⟨lvls, hlvls, hds⟩ := Option.bind_eq_some.mp hds
  obtain ⟨cts, hcts, hds⟩ := Option.bind_eq_some.mp hds
  simp only [Option.pure_def, Option.some_inj, Prod.mk.injEq] at hds
  rw [← hds.1]
  have h1 : Neutral cls := by
    refine symScopeFold_neutral ?_ hcls
    intro j d ls hlook hcv
    obtain ⟨sc, _, hcv⟩ := Option.bind_eq_some.mp hcv
    exact neutral_class_to_cil h (pf_vtn (pdbPF_class h) j)
      (pdbPF_pcls h _ (lookup_mem hlook)) hcv
  have h2 : Neutral rls := by
    refine symScopeFoldN_neutral ?_ hrls
    intro j d n ls n'' hlook hcv
    obtain ⟨sc, _, hcv⟩ := Option.bind_eq_some.mp hcv
    exact neutral_role_to_cil h (pf_vtn (pdbPF_role h) j) hcv
  have h3 : Neutral tys := by
    refine symScopeFold_neutral ?_ htys
    intro j d ls hlook hcv
    obtain ⟨sc, _, hcv⟩ := Option.bind_eq_some.mp hcv
    exact neutral_type_to_cil h (pf_vtn (pdbPF_type h) j) hcv
  have h4 : Neutral usrs := by
    refine symScopeFold_neutral ?_ husrs
    intro j d ls hlook hcv
    obtain ⟨sc, _, hcv⟩ := Option.bind_eq_some.mp hcv
    simp only [Option.pure_def, Option.some_inj] at hcv
    rw [← hcv]
    exact neutral_user_to_cil h (pf_vtn (pdbPF_user h) j)
  have h5 : Neutral bls := by
    refine symScopeFold_neutral ?_ hbls
    intro j d ls hlook hcv
    obtain ⟨sc, _, hcv⟩ := Option.bind_eq_some.mp hcv
    simp only [Option.pure_def, Option.some_inj] at hcv
    rw [← hcv]
    exact neutral_boolean_to_cil (pf_vtn (pdbPF_bool h) j)
  have h6 : Neutral lvls := by
    refine symScopeFold_neutral ?_ hlvls
    intro j d ls hlook hcv
    obtain ⟨sc, _, hcv⟩ := Option.bind_eq_some.mp hcv
    simp only [Option.pure_def, Option.some_inj] at hcv
    rw [← hcv]
    exact neutral_sens_to_cil h (pf_vtn (pdbPF_sens h) j)
  have h7 : Neutral cts := by
    refine symScopeFold_neutral ?_ hcts
    intro j d ls hlook hcv
    obtain ⟨sc, _, hcv⟩ := Option.bind_eq_some.mp hcv
    simp only [Option.pure_def, Option.some_inj] at hcv
    rw [← hcv]
    exact neutral_cat_to_cil h (pf_vtn (pdbPF_cat h) j)
  exact (((((((h1.append h2).append h3).append h4).append h5).append
    h6).append (neutral_sens_order h)).append h7).append
    (neutral_cat_order h)

theorem neutral_required_scopes {i : Int} {pdb : Policydb}
    {block : AvruleBlock} {decl : AvruleDecl} {nA : Nat} {out : List String}
    {n' : Nat} (h : pdbPF pdb)
    (hds : required_scopes_to_cil i pdb block decl nA = some (out, n')) :
    Neutral out := by
  unfold required_scopes_to_cil at hds
  obtain ⟨cls, hcls, hds⟩ := Option.bind_eq_some.mp hds
  obtain ⟨⟨rls, n1⟩, hrls, hds⟩ := Option.bind_eq_some.mp hds
  dsimp only at hds
  obtain ⟨tys, htys, hds⟩ := Option.bind_eq_some.mp hds
  obtain ⟨usrs, husrs, hds⟩ := Option.bind_eq_some.mp hds
  obtain ⟨bls, hbls, hds⟩ := Option.bind_eq_some.mp hds
  obtain ⟨lvls, hlvls, hds⟩ := Option.bind_eq_some.mp hds
  obtain ⟨cts, hcts, hds⟩ := Option.bind_eq_some.mp hds
  simp only [Option.pure_def, Option.some_inj, Prod.mk.injEq] at hds
  rw [← hds.1]
  have h1 : Neutral cls := by
    refine symScopeFold_neutral ?_ hcls
    intro j d ls hlook hcv
    exact neutral_class_to_cil h (pf_vtn (pdbPF_class h) j)
      (pdbPF_pcls h _ (lookup_mem hlook)) hcv
  have h2 : Neutral rls := by
    refine symScopeFoldN_neutral ?_ hrls
    intro j d n ls n'' hlook hcv
    exact neutral_role_to_cil h (pf_vtn (pdbPF_role h) j) hcv
  have h3 : Neutral tys := by
    refine symScopeFold_neutral ?_ htys
    intro j d ls hlook hcv
    exact neutral_type_to_cil h (pf_vtn (pdbPF_type h) j) hcv
  have h4 : Neutral usrs := by
    refine symScopeFold_neutral ?_ husrs
    intro j d ls hlook hcv
    simp only [Option.pure_def, Option.some_inj] at hcv
    rw [← hcv]
    exact neutral_user_to_cil h (pf_vtn (pdbPF_user h) j)
  have h5 : Neutral bls := by
    refine symScopeFold_neutral ?_ hbls
    intro j d ls hlook hcv
    simp only [Option.pure_def, Option.some_inj] at hcv
    rw [← hcv]
    exact neutral_boolean_to_cil (pf_vtn (pdbPF_bool h) j)
  have h6 : Neutral lvls := by
    refine symScopeFold_neutral ?_ hlvls
    intro j d ls hlook hcv
    simp only [Option.pure_def, Option.some_inj] at hcv
    rw [← hcv]
    exact neutral_sens_to_cil h (pf_vtn (pdbPF_sens h) j)
  have h7 : Neutral cts := by
    refine symScopeFold_neutral ?_ hcts
    intro j d ls hlook hcv
    simp only [Option.pure_def, Option.some_inj] at hcv
    rw [← hcv]
    exact neutral_cat_to_cil h (pf_vtn (pdbPF_cat h) j)
  exact (((((h1.append h2).append h3).append h4).append h5).append
    h6).append h7

theorem neutral_additive_scopes {i : Int} {pdb : Policydb}
    {block : AvruleBlock} {decl : AvruleDecl} {nA : Nat} {out : List String}
    {n' : Nat} (h : pdbPF pdb) (hdecl : declPF decl)
    (hds : additive_scopes_to_cil i pdb block decl nA = some (out, n')) :
    Neutral out := by
  unfold additive_scopes_to_cil at hds
  obtain ⟨cls, hcls, hds⟩ := Option.bind_eq_some.mp hds
  obtain ⟨⟨rls, n1⟩, hrls, hds⟩ := Option.bind_eq_some.mp hds
  dsimp only at hds
  obtain ⟨tys, htys, hds⟩ := Option.bind_eq_some.mp hds
  obtain ⟨usrs, husrs, hds⟩ := Option.bind_eq_some.mp hds
  obtain ⟨bls, hbls, hds⟩ := Option.bind_eq_some.mp hds
  obtain ⟨lvls, hlvls, hds⟩ := Option.bind_eq_some.mp hds
  obtain ⟨cts, hcts, hds⟩ := Option.bind_eq_some.mp hds
  simp only [Option.pure_def, Option.some_inj, Prod.mk.injEq] at hds
  rw [← hds.1]
  obtain ⟨hd1, hd2, hd3, hd4, hd5, hd6, hd7, _⟩ := hdecl
  have h1 : Neutral cls := by
    refine addScopeFold_neutral ?_ hcls
    intro kd hkd ls hcv
    exact neutral_class_to_cil h (hd1 kd hkd).1 (hd1 kd hkd).2 hcv
  have h2 : Neutral rls := by
    refine addScopeFoldN_neutral ?_ hrls
    intro kd hkd n ls n'' hcv
    exact neutral_role_to_cil h (hd2 kd hkd) hcv
  have h3 : Neutral tys := by
    refine addScopeFold_neutral ?_ htys
    intro kd hkd ls hcv
    exact neutral_type_to_cil h (hd3 kd hkd) hcv
  have h4 : Neutral usrs := by
    refine addScopeFold_neutral ?_ husrs
    intro kd hkd ls hcv
    simp only [Option.pure_def, Option.some_inj] at hcv
    rw [← hcv]
    exact neutral_user_to_cil h (hd4 kd hkd)
  have h5 : Neutral bls := by
    refine addScopeFold_neutral ?_ hbls
    intro kd hkd ls hcv
    simp only [Option.pure_def, Option.some_inj] at hcv
    rw [← hcv]
    exact neutral_boolean_to_cil (hd5 kd hkd)
  have h6 : Neutral lvls := by
    refine addScopeFold_neutral ?_ hlvls
    intro kd hkd ls hcv
    simp only [Option.pure_def, Option.some_inj] at hcv
    rw [← hcv]
    exact neutral_sens_to_cil h (hd6 kd hkd)
  have h7 : Neutral cts := by
    refine addScopeFold_neutral ?_ hcts
    intro kd hkd ls hcv
    simp only [Option.pure_def, Option.some_inj] at hcv
    rw [← hcv]
    exact neutral_cat_to_cil h (hd7 kd hkd)
  exact (((((h1.append h2).append h3).append h4).append h5).append
    h6).append h7

theorem neutral_decl_roles_types {i : Int} {pdb : Policydb} {declId : Nat}
    {roleName : String} (hr : parenFree roleName = true) :
    ∀ {ts : List String} {out : List String},
      (∀ t ∈ ts, parenFree t = true) →
      decl_roles_types i pdb declId roleName ts = some out → Neutral out := by
  intro ts
  induction ts with
  | nil =>
    intro out _ h1
    simp only [decl_roles_types, Option.some_inj] at h1
    rw [← h1]
    exact Neutral.nil
  | cons t ts ih =>
    intro out hts h1
    rw [decl_roles_types] at h1
    cases hl : (pdb.scope_tabs SYM_TYPES).lookup t with
    | none => rw [hl] at h1; exact Option.noConfusion h1
    | some sc =>
      rw [hl] at h1
      obtain ⟨rest, hrest, h1⟩ := Option.bind_eq_some.mp h1
      simp only [Option.pure_def, Option.some_inj] at h1
      rw [← h1]
      refine Neutral.append (neutral_of_NS ?_)
        (ih (fun u hu => hts u (by simp [hu])) hrest)
      intro s hs
      obtain ⟨_, _, rfl⟩ := List.mem_map.mp hs
      exact NeutralS_println (NS_line2 ⟨by decide, by decide⟩ hr
        (hts t (by simp))) i

theorem neutral_decl_roles {i : Int} {pdb : Policydb} {decl : AvruleDecl}
    (h : pdbPF pdb) :
    ∀ {roles : List RoleDatum} {n : Nat} {out : List String} {n' : Nat},
      decl_roles_to_cil i pdb decl roles n = some (out, n') → Neutral out := by
  intro roles
  induction roles with
  | nil =>
    intro n out n' h1
    simp only [decl_roles_to_cil, Option.some_inj, Prod.mk.injEq] at h1
    rw [← h1.1]
    exact Neutral.nil
  | cons role roles ih =>
    intro n out n' h1
    rw [decl_roles_to_cil] at h1
    rcases hts : typeset_to_names i pdb role.types n with ⟨c1, types, n1⟩
    have hspec := typeset_to_names_spec i h role.types n
    rw [hts] at h1 hspec
    dsimp only at h1 hspec
    obtain ⟨lines, hlines, h1⟩ := Option.bind_eq_some.mp h1
    obtain ⟨⟨rest, n2⟩, hrest, h1⟩ := Option.bind_eq_some.mp h1
    dsimp only at h1
    simp only [Option.pure_def, Option.some_inj, Prod.mk.injEq] at h1
    rw [← h1.1]
    exact (hspec.1.append (neutral_decl_roles_types
      (pf_vtn (pdbPF_role h) _) hspec.2 hlines)).append (ih hrest)

theorem neutral_typealiases {pdb : Policydb} (h : pdbPF pdb) :
    ∀ {l : List (String × TypeDatum)} {out : List String},
      (∀ kd ∈ l, parenFree kd.1 = true) →
      typealiases_to_cil pdb l = some out → Neutral out := by
  intro l
  induction l with
  | nil =>
    intro out _ h1
    simp only [typealiases_to_cil, Option.some_inj] at h1
    rw [← h1]
    exact Neutral.nil
  | cons kd rest ih =>
    intro out hl h1
    obtain ⟨k, d⟩ := kd
    rw [typealiases_to_cil] at h1
    split_ifs at h1
    · obtain ⟨ls, hls, h1⟩ := Option.bind_eq_some.mp h1
      obtain ⟨more, hmore, h1⟩ := Option.bind_eq_some.mp h1
      simp only [Option.pure_def, Option.some_inj] at h1
      rw [← h1]
      exact (neutral_type_to_cil h (hl (k, d) (by simp)) hls).append
        (ih (fun kd hkd => hl kd (by simp [hkd])) hmore)
    · exact ih (fun kd hkd => hl kd (by simp [hkd])) h1

theorem neutral_commons {pdb : Policydb} (h : pdbPF pdb) :
    Neutral (commons_to_cil pdb) := by
  unfold commons_to_cil
  apply neutral_flatMap
  intro kd hkd
  exact neutral_common_to_cil (pdbPF_pcom h kd hkd).1 (pdbPF_pcom h kd hkd).2

theorem neutral_top_level {pdb : Policydb} {out : List String} (h : pdbPF pdb)
    (ht : top_level_to_cil pdb = some out) : Neutral out := by
  unfold top_level_to_cil at ht
  cases hta : typealiases_to_cil pdb pdb.p_types with
  | none => rw [hta] at ht; exact Option.noConfusion ht
  | some ta =>
    rw [hta] at ht
    simp only [Option.some_inj] at ht
    rw [← ht]
    exact (neutral_typealiases h (pdbPF_pty h) hta).append (neutral_commons h)

theorem neutral_decl_body {i : Int} {pdb : Policydb} {block : AvruleBlock}
    {decl : AvruleDecl} {declRoles : List RoleDatum} {n : Nat}
    {out : List String} {n' : Nat} (h : pdbPF pdb) (hdecl : declPF decl)
    (hb : decl_body_to_cil i pdb block decl declRoles n = some (out, n')) :
    Neutral out := by
  unfold decl_body_to_cil at hb
  obtain ⟨⟨dr, n1⟩, hdr, hb⟩ := Option.bind_eq_some.mp hb
  dsimp only at hb
  obtain ⟨⟨ds, n2⟩, hds, hb⟩ := Option.bind_eq_some.mp hb
  dsimp only at hb
  obtain ⟨⟨rs, n3⟩, hrs, hb⟩ := Option.bind_eq_some.mp hb
  dsimp only at hb
  obtain ⟨⟨as_, n4⟩, has, hb⟩ := Option.bind_eq_some.mp hb
  dsimp only at hb
  obtain ⟨⟨av, n5⟩, hav, hb⟩ := Option.bind_eq_some.mp hb
  dsimp only at hb
  rcases hrt : role_trans_to_cil i pdb decl.role_tr_rules n5 with ⟨rt, n6⟩
  have hrtn := neutral_role_trans i h decl.role_tr_rules n5
  rw [hrt] at hb hrtn
  dsimp only at hb hrtn
  rcases hra : role_allows_to_cil i pdb decl.role_allow_rules n6 with ⟨ra, n7⟩
  have hran := neutral_role_allows i h decl.role_allow_rules n6
  rw [hra] at hb hran
  dsimp only at hb hran
  rcases hrg : range_trans_to_cil i pdb decl.range_tr_rules n7 with ⟨rg, n8⟩
  have hrgn := neutral_range_trans i h decl.range_tr_rules n7
  rw [hrg] at hb hrgn
  dsimp only at hb hrgn
  rcases hft : filename_trans_to_cil i pdb decl.filename_trans_rules n8
    with ⟨ft, n9⟩
  have hftn := neutral_filename_trans i h decl.filename_trans_rules n8
    hdecl.2.2.2.2.2.2.2
  rw [hft] at hb hftn
  dsimp only at hb hftn
  obtain ⟨⟨cl, n10⟩, hcl, hb⟩ := Option.bind_eq_some.mp hb
  dsimp only at hb
  simp only [Option.pure_def, Option.some_inj, Prod.mk.injEq] at hb
  rw [← hb.1]
  exact (((((((((neutral_decl_roles h hdr).append
    (neutral_declared_scopes h hds)).append
    (neutral_required_scopes h hrs)).append
    (neutral_additive_scopes h hdecl has)).append
    (neutral_avrule_list h hav)).append hrtn).append hran).append
    hrgn).append hftn).append (neutral_cond_list h hcl)

/-! ### Neutrality of the object-context and text-section emitters -/

theorem neutral_ebitmap_to_cil {valNames : List String} (h : PFs valNames)
    (m : Ebitmap) : Neutral (ebitmap_to_cil valNames m) :=
  neutral_of_PF (pf_names_map h m)

theorem neutral_level_to_cil {pdb : Policydb} (h : pdbPF pdb) (lvl : MlsLevel) :
    Neutral (level_to_cil pdb lvl) := by
  have hmid := neutral_ebitmap_to_cil (pdbPF_cat h) lvl.cat
  have hname := pf_vtn (pdbPF_sens h) (lvl.sens - 1)
  unfold level_to_cil
  by_cases hc : lvl.cat.isEmpty <;>
    constructor <;>
      simp [hc, cnet_append, clow_append, cnet, clow, hmid.1, hmid.2,
        snet_append, slow_append, snet_pf hname, slow_pf hname,
        show snet "(" = 1 from by decide, show slow "(" = 0 from by decide,
        show snet ")" = -1 from by decide,
        show slow ")" = -1 from by decide] <;>
      omega

theorem neutral_context_to_cil {pdb : Policydb} (h : pdbPF pdb) (con : Context) :
    Neutral (context_to_cil pdb con) := by
  unfold context_to_cil
  refine neutral_group _ _ _ 2 (by omega) ?_ ?_ (by constructor <;> decide)
  · constructor <;>
      simp [cnet, clow, snet_append, slow_append, snet_pf, slow_pf,
        pf_vtn (pdbPF_user h), pf_vtn (pdbPF_role h), pf_vtn (pdbPF_type h),
        show snet "(" = 1 from by decide, show slow "(" = 0 from by decide,
        show snet " " = 0 from by decide, show slow " " = 0 from by decide,
        show snet " (" = 1 from by decide,
        show slow " (" = 0 from by decide] <;>
      omega
  · by_cases hm : pdb.mls = true
    · rw [if_pos hm]
      refine ((neutral_level_to_cil h _).append ?_).append
        (neutral_level_to_cil h _)
      exact neutral_of_PF (by intro s hs; rw [List.mem_singleton.mp hs]; decide)
    · rw [if_neg hm]
      exact neutral_of_PF (by
        intro s hs
        rcases List.mem_cons.mp hs with rfl | hs
        · decide
        · rcases List.mem_cons.mp hs with rfl | hs
          · decide
          · rw [List.mem_singleton.mp hs]; decide)

theorem isid_go_spec_NS {pdb : Policydb} {table : List String} (h : pdbPF pdb)
    (hta : PFs table) :
    ∀ (l : List Isid) (heads : List String), PFs heads →
      Neutral (isid_go pdb table l heads).1 ∧ PFs (isid_go pdb table l heads).2 := by
  intro l
  induction l with
  | nil => intro heads hh; exact ⟨Neutral.nil, hh⟩
  | cons isid rest ih =>
    intro heads hh
    rw [isid_go]
    have hnm0 : parenFree (table.getD isid.sid "") = true := pf_vtn hta isid.sid
    generalize hgen : table.getD isid.sid "" = nm
    rw [hgen] at hnm0
    have hnm := hnm0
    rcases hr : isid_go pdb table rest (nm :: heads)
      with ⟨restChunks, finalHeads⟩
    have hrec := ih (nm :: heads) (by
      intro s hs
      rcases List.mem_cons.mp hs with rfl | hs
      · exact hnm
      · exact hh s hs)
    rw [hr] at hrec
    dsimp only at hrec ⊢
    refine ⟨Neutral.append ?_ hrec.1, hrec.2⟩
    refine neutral_group _ _ _ 1 (by omega) ?_ (neutral_context_to_cil h _)
      (by constructor <;> decide)
    constructor <;>
      simp [cnet, clow, snet_println, slow_println, snet_append, slow_append,
        snet_pf, slow_pf, hnm,
        show snet "(sid " = 1 from by decide,
        show slow "(sid " = 0 from by decide,
        show snet "(sidcontext " = 1 from by decide,
        show slow "(sidcontext " = 0 from by decide,
        show snet " " = 0 from by decide, show slow " " = 0 from by decide,
        show snet ")" = -1 from by decide,
        show slow ")" = -1 from by decide] <;>
      omega

theorem neutral_ocontext_isid {pdb : Policydb} {table : List String}
    (h : pdbPF pdb) (hta : PFs table) (isids : List Isid) :
    Neutral (ocontext_isid_to_cil pdb table isids) := by
  unfold ocontext_isid_to_cil
  rcases hr : isid_go pdb table isids [] with ⟨entryChunks, heads⟩
  have hrec := isid_go_spec_NS h hta isids []
    (by intro s hs; exact absurd hs (by simp))
  rw [hr] at hrec
  dsimp only at hrec ⊢
  refine hrec.1.append ?_
  by_cases he : heads.isEmpty
  · rw [if_pos he]
    exact Neutral.nil
  · rw [if_neg he]
    refine neutral_group _ _ _ 2 (by omega) ?_
      (neutral_of_PF (pf_map_space hrec.2)) (by constructor <;> decide)
    constructor <;> simp [cnet, clow] <;> decide

theorem neutral_ocontexts {pdb : Policydb} {out : List String} (h : pdbPF pdb)
    (hc : ocontexts_to_cil pdb = some out) : Neutral out := by
  unfold ocontexts_to_cil at hc
  split_ifs at hc <;>
    first
      | exact Option.noConfusion hc
      | (rw [Option.some_inj] at hc
         rw [← hc]
         exact neutral_ocontext_isid h
           (show ∀ s ∈ selinux_sid_to_string, parenFree s = true from
             by decide) _)
      | (rw [Option.some_inj] at hc
         rw [← hc]
         exact neutral_ocontext_isid h
           (show ∀ s ∈ xen_sid_to_string, parenFree s = true from
             by decide) _)

theorem parenFreeL_reverse (l : List Char) :
    parenFreeL l.reverse = parenFreeL l := by
  simp [parenFreeL]

theorem pf_splitOnCharAux {sep : Char} :
    ∀ {l acc : List Char}, parenFreeL l = true → parenFreeL acc = true →
      ∀ p ∈ splitOnCharAux sep l acc, parenFreeL p = true := by
  intro l
  induction l with
  | nil =>
    intro acc _ hacc p hp
    rw [show splitOnCharAux sep [] acc = [acc.reverse] from rfl,
      List.mem_singleton] at hp
    rw [hp, parenFreeL_reverse]
    exact hacc
  | cons c rest ih =>
    intro acc hl hacc p hp
    simp only [parenFreeL, List.all_cons, Bool.and_eq_true] at hl
    rw [splitOnCharAux] at hp
    split_ifs at hp
    · rcases List.mem_cons.mp hp with rfl | hp
      · rw [parenFreeL_reverse]; exact hacc
      · refine ih hl.2 ?_ p hp
        rfl
    · refine ih hl.2 ?_ p hp
      simp only [parenFreeL, List.all_cons, Bool.and_eq_true]
      exact ⟨hl.1, hacc⟩

theorem pf_splitOnChar {sep : Char} {l : List Char}
    (hl : parenFreeL l = true) :
    ∀ p ∈ splitOnChar sep l, parenFreeL p = true :=
  pf_splitOnCharAux hl rfl

theorem pf_joinChar {sep : Char} (hsep : notParen sep = true) :
    ∀ {ps : List (List Char)}, (∀ p ∈ ps, parenFreeL p = true) →
      parenFreeL (joinChar sep ps) = true := by
  intro ps
  induction ps with
  | nil => intro _; rfl
  | cons p rest ih =>
    intro hps
    match rest, ih with
    | [], _ =>
      rw [show joinChar sep [p] = p from rfl]
      exact hps p (by simp)
    | q :: r2, ih =>
      rw [show joinChar sep (p :: q :: r2) = p ++ sep :: joinChar sep (q :: r2)
        from rfl]
      rw [parenFreeL_append]
      simp only [parenFreeL, List.all_cons, Bool.and_eq_true]
      exact ⟨hps p (by simp), hsep,
        by simpa [parenFreeL] using ih fun u hu => hps u (by simp [hu])⟩

theorem pf_splitFirst {sep : Char} :
    ∀ {l a b : List Char}, splitFirst sep l = some (a, b) →
      parenFreeL l = true → parenFreeL a = true ∧ parenFreeL b = true := by
  intro l
  induction l with
  | nil => intro a b h _; exact Option.noConfusion h
  | cons c rest ih =>
    intro a b h hl
    simp only [parenFreeL, List.all_cons, Bool.and_eq_true] at hl
    rw [splitFirst] at h
    split_ifs at h
    · rw [Option.some_inj, Prod.mk.injEq] at h
      rw [← h.1, ← h.2]
      exact ⟨rfl, hl.2⟩
    · cases hs : splitFirst sep rest with
      | none => rw [hs] at h; exact Option.noConfusion h
      | some p =>
        obtain ⟨a', b'⟩ := p
        rw [hs] at h
        simp only [Option.map_some', Option.some_inj, Prod.mk.injEq] at h
        obtain ⟨ha', hb'⟩ := ih hs hl.2
        rw [← h.1, ← h.2]
        refine ⟨?_, hb'⟩
        simp only [parenFreeL, List.all_cons, Bool.and_eq_true]
        exact ⟨hl.1, ha'⟩

theorem NS_levelCatToken {tok : List Char} (htok : parenFreeL tok = true) :
    NeutralS (levelCatToken tok) := by
  unfold levelCatToken
  cases hsf : splitFirst '.' tok with
  | none =>
    apply NeutralS_pf
    rw [parenFree_append]
    have : parenFree (String.mk tok) = true := htok
    simp [this]
    decide
  | some p =>
    obtain ⟨lo, hi⟩ := p
    obtain ⟨hlo, hhi⟩ := pf_splitFirst hsf htok
    have hlo' : parenFree (String.mk lo) = true := hlo
    have hhi' : parenFree (String.mk hi) = true := hhi
    constructor <;>
      simp [snet_append, slow_append, snet_pf, slow_pf, hlo', hhi',
        show snet "(range " = 1 from by decide,
        show slow "(range " = 0 from by decide,
        show snet " " = 0 from by decide, show slow " " = 0 from by decide,
        show snet ") " = -1 from by decide,
        show slow ") " = -1 from by decide] <;>
      omega

theorem neutral_level_string {levelstr : List Char}
    (hl : parenFreeL levelstr = true) :
    Neutral (level_string_to_cil levelstr) := by
  unfold level_string_to_cil
  cases hsp : splitOnChar ':' levelstr with
  | nil => exact Neutral.nil
  | cons sens rest =>
    dsimp only
    have hsens : parenFreeL sens = true :=
      pf_splitOnChar hl sens (by rw [hsp]; simp)
    have hrest : ∀ p ∈ rest, parenFreeL p = true := by
      intro p hp
      exact pf_splitOnChar hl p (by rw [hsp]; simp [hp])
    have hcats : parenFreeL (joinChar ':' rest) = true :=
      pf_joinChar (by decide) hrest
    have hsens' : parenFree (String.mk sens) = true := hsens
    by_cases he : sens.isEmpty
    · rw [if_pos he]
      exact Neutral.nil
    · rw [if_neg he]
      split_ifs
      · constructor <;>
          simp [cnet, clow, snet_append, slow_append, snet_pf, slow_pf, hsens',
            show snet "(" = 1 from by decide,
            show slow "(" = 0 from by decide,
            show snet ")" = -1 from by decide,
            show slow ")" = -1 from by decide] <;>
          omega
      · refine neutral_group _ _ _ 2 (by omega) ?_ (neutral_of_NS ?_)
          (by constructor <;> decide)
        · constructor <;>
            simp [cnet, clow, snet_append, slow_append, snet_pf, slow_pf,
              hsens',
              show snet "(" = 1 from by decide,
              show slow "(" = 0 from by decide] <;>
            omega
        · intro s hs
          obtain ⟨tok, htokm, rfl⟩ := List.mem_map.mp hs
          refine NS_levelCatToken ?_
          exact pf_splitOnChar hcats tok (List.mem_of_mem_filter htokm)

theorem neutral_level_range_string {lr : List Char}
    (hl : parenFreeL lr = true) :
    Neutral (level_range_string_to_cil lr) := by
  unfold level_range_string_to_cil
  have hsp : Neutral ([" "] : List String) :=
    neutral_of_PF (by intro s hs; rw [List.mem_singleton.mp hs]; decide)
  cases hsf : splitFirst '-' lr with
  | none =>
    exact ((neutral_level_string hl).append hsp).append
      (neutral_level_string hl)
  | some p =>
    obtain ⟨low, high⟩ := p
    obtain ⟨hlo, hhi⟩ := pf_splitFirst hsf hl
    exact ((neutral_level_string hlo).append hsp).append
      (neutral_level_string hhi)

theorem neutral_context_string {ctx : List Char} {out : List String}
    (hl : parenFreeL ctx = true)
    (hc : context_string_to_cil ctx = some out) : Neutral out := by
  unfold context_string_to_cil at hc
  cases hsp : splitOnChar ':' ctx with
  | nil => rw [hsp] at hc; exact Option.noConfusion hc
  | cons u rest1 =>
    cases rest1 with
    | nil => rw [hsp] at hc; exact Option.noConfusion hc
    | cons r rest2 =>
      cases rest2 with
      | nil => rw [hsp] at hc; exact Option.noConfusion hc
      | cons t rest =>
        rw [hsp] at hc
        dsimp only at hc
        have hu : parenFree (String.mk u) = true :=
          pf_splitOnChar hl u (by rw [hsp]; simp)
        have hr : parenFree (String.mk r) = true :=
          pf_splitOnChar hl r (by rw [hsp]; simp)
        have ht : parenFree (String.mk t) = true :=
          pf_splitOnChar hl t (by rw [hsp]; simp)
        have hrest : ∀ p ∈ rest, parenFreeL p = true := by
          intro p hp
          exact pf_splitOnChar hl p (by rw [hsp]; simp [hp])
        have hlevel : parenFreeL (joinChar ':' rest) = true :=
          pf_joinChar (by decide) hrest
        by_cases hemp : (u.isEmpty || r.isEmpty || t.isEmpty) = true
        · rw [if_pos hemp] at hc
          exact Option.noConfusion hc
        · by_cases hlev : (rest.isEmpty || (joinChar ':' rest).isEmpty) = true
          swap
          · simp only [if_neg hemp, if_neg hlev, Option.some_inj] at hc
            rw [← hc]
            refine neutral_group _ _ _ 2 (by omega) ?_
              (neutral_level_range_string hlevel) (by constructor <;> decide)
            constructor <;>
              simp [cnet, clow, snet_append, slow_append, snet_pf, slow_pf,
                hu, hr, ht,
                show snet "(" = 1 from by decide,
                show slow "(" = 0 from by decide,
                show snet " " = 0 from by decide,
                show slow " " = 0 from by decide,
                show snet " (" = 1 from by decide,
                show slow " (" = 0 from by decide] <;>
              omega
          simp only [if_neg hemp, if_pos hlev, Option.some_inj] at hc
          rw [← hc]
          constructor <;>
            simp [cnet, clow, snet_append, slow_append, snet_pf, slow_pf,
              hu, hr, ht,
              show snet "(" = 1 from by decide,
              show slow "(" = 0 from by decide,
              show snet " " = 0 from by decide,
              show slow " " = 0 from by decide,
              show snet " (" = 1 from by decide,
              show slow " (" = 0 from by decide,
              show parenFree DEFAULT_LEVEL = true from by decide,
              show snet "))" = -2 from by decide,
              show slow "))" = -2 from by decide] <;>
            omega

theorem neutral_fc_line {tokens : List String} {out : List String}
    (htok : ∀ tok ∈ tokens, parenFree tok = true)
    (hc : fc_line_to_cil tokens = some out) : Neutral out := by
  unfold fc_line_to_cil at hc
  match tokens, htok with
  | [], _ => exact Option.noConfusion hc
  | [t0], _ => exact Option.noConfusion hc
  | t0 :: t1 :: rest, htok =>
    dsimp only at hc
    cases hm : modeToCil (if rest.isEmpty then none else some t1) with
    | none => rw [hm] at hc; exact Option.noConfusion hc
    | some cilmode =>
      rw [hm] at hc
      dsimp only at hc
      have hcm := pf_modeToCil hm
      have hctx : parenFree (if rest.isEmpty then t1 else rest.headD "") = true := by
        split_ifs
        · exact htok t1 (by simp)
        · cases rest with
          | nil => decide
          | cons r0 r2 => exact htok r0 (by simp)
      have hstep : ∀ ctxChunks : List String, Neutral ctxChunks →
          (["(filecon \"" ++ t0 ++ "\" \"\" " ++ cilmode ++ " "]
            ++ ctxChunks ++ [")\n"]) = out → Neutral out := by
        intro ctxChunks hmid hout
        rw [← hout]
        refine neutral_group _ _ _ 1 (by omega) ?_ hmid
          (by constructor <;> decide)
        constructor <;>
        simp [cnet, clow, snet_append, slow_append, snet_pf, slow_pf,
          htok t0 (by simp), hcm,
          show snet "(filecon \x22" = 1 from by decide,
          show slow "(filecon \x22" = 0 from by decide,
          show snet "\x22 \x22\x22 " = 0 from by decide,
          show slow "\x22 \x22\x22 " = 0 from by decide,
          show snet " " = 0 from by decide,
          show slow " " = 0 from by decide] <;>
        omega
      by_cases hnone :
          (if rest.isEmpty = true then t1 else rest.headD "") = "<<none>>"
      · rw [if_pos hnone] at hc
        obtain ⟨ctxChunks, hcc, hc⟩ := Option.bind_eq_some.mp hc
        rw [Option.some_inj] at hcc
        simp only [Option.pure_def, Option.some_inj] at hc
        refine hstep ctxChunks ?_ hc
        rw [← hcc]
        exact neutral_single ⟨by decide, by decide⟩
      · rw [if_neg hnone] at hc
        obtain ⟨ctxChunks, hcc, hc⟩ := Option.bind_eq_some.mp hc
        simp only [Option.pure_def, Option.some_inj] at hc
        exact hstep ctxChunks (neutral_context_string hctx hcc) hc

theorem neutral_file_contexts :
    ∀ {lines : List (List String)} {out : List String},
      (∀ line ∈ lines, ∀ tok ∈ line, parenFree tok = true) →
      file_contexts_to_cil lines = some out → Neutral out := by
  intro lines
  induction lines with
  | nil =>
    intro out _ h1
    simp only [file_contexts_to_cil, Option.some_inj] at h1
    rw [← h1]
    exact Neutral.nil
  | cons line lines ih =>
    intro out hl h1
    rw [file_contexts_to_cil] at h1
    obtain ⟨ls, hls, h1⟩ := Option.bind_eq_some.mp h1
    obtain ⟨rest, hrest, h1⟩ := Option.bind_eq_some.mp h1
    simp only [Option.pure_def, Option.some_inj] at h1
    rw [← h1]
    exact (neutral_fc_line (hl line (by simp)) hls).append
      (ih (fun l' hl' tok htok => hl l' (by simp [hl']) tok htok) hrest)

/-! ### Neutrality of the driver preamble -/

theorem neutral_handle_unknown {pdb : Policydb} {out : List String}
    (hc : handle_unknown_to_cil pdb = some out) : Neutral out := by
  unfold handle_unknown_to_cil at hc
  split_ifs at hc <;>
    first
      | exact Option.noConfusion hc
      | (rw [Option.some_inj] at hc
         rw [← hc]
         exact neutral_single (NeutralS_println ⟨by decide, by decide⟩ 0))

theorem neutral_generate_mls (pdb : Policydb) : Neutral (generate_mls pdb) := by
  unfold generate_mls
  refine neutral_single (NeutralS_println (NS_line1 ⟨by decide, by decide⟩ ?_) 0)
  split_ifs <;> decide

theorem neutral_default_level : Neutral generate_default_level := by
  unfold generate_default_level
  refine neutral_of_NS ?_
  intro s hs
  rcases List.mem_cons.mp hs with rfl | hs
  · exact NeutralS_println ⟨by decide, by decide⟩ 0
  · rcases List.mem_cons.mp hs with rfl | hs
    · exact NeutralS_println ⟨by decide, by decide⟩ 0
    · rw [List.mem_singleton.mp hs]
      exact NeutralS_println ⟨by decide, by decide⟩ 0

theorem neutral_default_object : Neutral generate_default_object :=
  neutral_single (NeutralS_println ⟨by decide, by decide⟩ 0)

theorem polcaps_go_neutral {pdb : Policydb} (h : pdbPF pdb) :
    ∀ {l : List Nat} {out : List String},
      polcaps_to_cil.go pdb l = some out → Neutral out := by
  intro l
  induction l with
  | nil =>
    intro out h1
    simp only [polcaps_to_cil.go, Option.some_inj] at h1
    rw [← h1]
    exact Neutral.nil
  | cons j is ih =>
    intro out h1
    rw [polcaps_to_cil.go] at h1
    cases hcap : pdb.capName j with
    | none => rw [hcap] at h1; exact Option.noConfusion h1
    | some nm =>
      rw [hcap] at h1
      obtain ⟨rest, hrest, h1⟩ := Option.map_eq_some'.mp h1
      rw [← h1]
      exact Neutral.append (neutral_single (NeutralS_println
        (NS_line1 ⟨by decide, by decide⟩ (pdbPF_cap h j nm hcap)) 0)) (ih hrest)

theorem neutral_polcaps {pdb : Policydb} {out : List String} (h : pdbPF pdb)
    (hc : polcaps_to_cil pdb = some out) : Neutral out :=
  polcaps_go_neutral h hc

theorem neutral_preamble {pdb : Policydb} {out : List String} (h : pdbPF pdb)
    (hc : module_package_preamble pdb = some out) : Neutral out := by
  unfold module_package_preamble at hc
  have hdl : Neutral (if pdb.policy_type = SEPOL_POLICY_BASE ∧ ¬pdb.mls then
      generate_default_level else []) := by
    split_ifs
    · exact neutral_default_level
    · exact Neutral.nil
  by_cases hb : pdb.policy_type = SEPOL_POLICY_BASE
  · rw [if_pos hb] at hc
    obtain ⟨hu, hhu, hc⟩ := Option.bind_eq_some.mp hc
    simp only [Option.pure_def, Option.some_inj] at hc
    rw [← hc]
    exact ((hdl.append neutral_default_object).append
      (neutral_handle_unknown hhu)).append (neutral_generate_mls pdb)
  · rw [if_neg hb, Option.some_inj] at hc
    rw [← hc]
    exact hdl

/-! ### `fix_module_name` preserves the name invariant -/

theorem notParen_of_alnum {c : Char} (h : Semanage.isalnumC c = true) :
    notParen c = true := by
  by_contra hnp
  rw [Bool.not_eq_true] at hnp
  by_cases h1 : c = '('
  · subst h1
    exact absurd h (by decide)
  · have h2 : c = ')' := by simpa [notParen, h1] using hnp
    subst h2
    exact absurd h (by decide)

theorem pdbPF_fix {pdb : Policydb} (h : pdbPF pdb) :
    pdbPF (fix_module_name pdb) := by
  refine ⟨?_, h.2⟩
  unfold fix_module_name
  refine parenFree_strMap ?_
  intro c
  by_cases hcc : Semanage.isalnumC c = true
  · rw [if_pos hcc]
    exact notParen_of_alnum hcc
  · rw [if_neg hcc]
    decide

theorem optional_pops_spec (req : ScopeIndex) :
    ∀ (stack : List ScopeIndex) (indent : Int),
      ∃ k, optional_pops req stack indent =
          (stack.drop k, indent - (k : Int),
           (List.range k).map fun j : Nat => println (indent - 1 - (j : Int)) ")")
        ∧ k ≤ stack.length - 1
        ∧ (∀ j, j < k → ∃ top, stack[j]? = some top ∧
            is_scope_superset req top = false)
        ∧ (k = stack.length - 1 ∨ ∃ top, stack[k]? = some top ∧
            is_scope_superset req top = true) := by
  intro stack
  induction stack with
  | nil =>
    intro indent
    refine ⟨0, by simp [optional_pops], by simp, by simp, by simp⟩
  | cons s1 tail ih =>
    intro indent
    match tail, ih with
    | [], _ =>
      refine ⟨0, by simp [optional_pops], by simp, by simp, by simp⟩
    | s2 :: rest, ih =>
      by_cases hsup : is_scope_superset req s1 = true
      · refine ⟨0, ?_, by simp, by simp, Or.inr ⟨s1, by simp, hsup⟩⟩
        simp [optional_pops, hsup]
      · obtain ⟨k, hres, hk, hfail, hstop⟩ := ih (indent - 1)
        refine ⟨k + 1, ?_, ?_, ?_, ?_⟩
        · have hstep : optional_pops req (s1 :: s2 :: rest) indent =
              ((s2 :: rest).drop k, (indent - 1) - (k : Int),
               println (indent - 1) ")" ::
                 (List.range k).map
                   fun j : Nat => println (indent - 1 - 1 - (j : Int)) ")") := by
            simp only [optional_pops, hsup, if_false, Bool.false_eq_true, reduceIte,
              hres]
          rw [hstep]
          refine congrArg₂ _ rfl (congrArg₂ _ (by push_cast; ring) ?_)
          rw [List.range_succ_eq_map, List.map_cons, List.map_map]
          refine congrArg₂ _ (by norm_num) ?_
          refine List.map_congr_left fun j _ => ?_
          have h1 : indent - 1 - 1 - (j : Int) = indent - 1 - ((j : Int) + 1) := by
            ring
          simp [Function.comp, h1]
        · simp only [List.length_cons] at hk ⊢
          omega
        · intro j hj
          match j, hj with
          | 0, _ => exact ⟨s1, by simp, by simpa using hsup⟩
          | j + 1, hj =>
            obtain ⟨top, htop, hfalse⟩ := hfail j (by omega)
            exact ⟨top, by simpa using htop, hfalse⟩
        · rcases hstop with h | ⟨top, htop, htrue⟩
          · left
            simp only [List.length_cons] at h ⊢
            omega
          · exact Or.inr ⟨top, by simpa using htop, htrue⟩

/-! ### Running the block walker: the closers balance the openers -/

theorem runStr_closer (i : Int) (c : Nat) (hc : 1 ≤ c) :
    runStr (println i ")") c = some (c - 1) := by
  rw [runStr_eq, snet_println, slow_println,
    show snet ")" = -1 from by decide, show slow ")" = -1 from by decide,
    if_pos (by omega)]
  congr 1 <;> omega

theorem runStr_opener {t : String} (i : Int) (c : Nat) (h1 : snet t = 1)
    (h2 : slow t = 0) : runStr (println i t) c = some (c + 1) := by
  rw [runStr_eq, snet_println, slow_println, h1, h2, if_pos (by omega)]
  congr 1 <;> omega

theorem runChunks_append_some {a b : List String} {c c' : Nat}
    (ha : runChunks a c = some c') :
    runChunks (a ++ b) c = runChunks b c' := by
  rw [runChunks_append, ha]

theorem runChunks_single {s : String} {c c' : Nat} (h : runStr s c = some c') :
    runChunks [s] c = some c' := by
  rw [show runChunks [s] c = (match runStr s c with
    | none => none
    | some c2 => runChunks [] c2) from rfl, h]
  rfl

theorem runChunks_closeChunks : ∀ (k : Nat) (ind : Int),
    runChunks (closeChunks k ind) k = some 0 := by
  intro k
  induction k with
  | zero => intro ind; rfl
  | succ m ih =>
    intro ind
    rw [closeChunks]
    rw [show runChunks (println (ind - 1) ")" :: closeChunks m (ind - 1)) (m + 1)
      = (match runStr (println (ind - 1) ")") (m + 1) with
         | none => none
         | some c' => runChunks (closeChunks m (ind - 1)) c') from rfl]
    rw [runStr_closer _ _ (by omega)]
    simpa using ih (ind - 1)

theorem runChunks_pops : ∀ (k : Nat) (ind : Int) (c : Nat), k ≤ c →
    runChunks ((List.range k).map fun j : Nat =>
      println (ind - 1 - (j : Int)) ")") c = some (c - k) := by
  intro k
  induction k with
  | zero => intro ind c _; simp [runChunks]
  | succ m ih =>
    intro ind c hc
    rw [List.range_succ_eq_map, List.map_cons, List.map_map]
    have hmap : (List.range m).map
        ((fun j : Nat => println (ind - 1 - (j : Int)) ")") ∘ (· + 1)) =
        (List.range m).map fun j : Nat =>
          println (ind - 1 - 1 - (j : Int)) ")" := by
      refine List.map_congr_left fun j _ => ?_
      have harith : ind - 1 - ((j : Int) + 1) = ind - 1 - 1 - (j : Int) := by
        ring
      simp [Function.comp, harith]
    rw [hmap]
    have hhead : runStr (println (ind - 1 - ((0 : Nat) : Int)) ")") c =
        some (c - 1) := runStr_closer _ _ (by omega)
    show runChunks ([println (ind - 1 - ((0 : Nat) : Int)) ")"] ++
      ((List.range m).map fun j : Nat =>
        println (ind - 1 - 1 - (j : Int)) ")")) c = some (c - (m + 1))
    rw [runChunks_append_some (runChunks_single hhead)]
    rw [ih (ind - 1) (c - 1) (by omega)]
    congr 1
    omega

theorem goodBlocks_cons_nil {block : AvruleBlock} {blocks : List AvruleBlock}
    (hbr : block.branch_list = []) (h : goodBlocks (block :: blocks)) :
    goodBlocks blocks := by
  unfold goodBlocks at h ⊢
  rw [List.filter_cons_of_neg (by simp [hbr])] at h
  exact h

theorem blocks_go_phase2 {pdb : Policydb} {declRoles : List RoleDatum}
    (h : pdbPF pdb) :
    ∀ {blocks : List AvruleBlock} {stack : List ScopeIndex} {indent : Int}
      {n : Nat} {out : List String},
      (∀ b ∈ blocks, ∀ d ∈ b.branch_list, declPF d) →
      allDeclOptional blocks →
      stack ≠ [] →
      (indent = (stack.length : Int) ∨ indent = (stack.length : Int) - 1) →
      blocks_to_cil_go pdb declRoles blocks stack indent n = some out →
      runChunks out indent.toNat = some 0 := by
  intro blocks
  induction blocks with
  | nil =>
    intro stack indent n out _ _ hst hind h1
    simp only [blocks_to_cil_go, Option.some_inj] at h1
    rw [← h1]
    exact runChunks_closeChunks indent.toNat indent
  | cons block blocks ih =>
    intro stack indent n out hbpf hopt hst hind h1
    unfold blocks_to_cil_go at h1
    cases hbr : block.branch_list with
    | nil =>
      rw [hbr] at h1
      exact ih (fun b hb d hd => hbpf b (by simp [hb]) d hd)
        (fun b hb hne => hopt b (by simp [hb]) hne) hst hind h1
    | cons decl ds =>
      rw [hbr] at h1
      have hopt1 : block.flags &&& AVRULE_OPTIONAL ≠ 0 :=
        hopt block (by simp) (by simp [hbr])
      simp only [hopt1, if_pos, reduceIte, ne_eq, not_false_eq_true] at h1
      obtain ⟨k, hpops, hk, -, -⟩ := optional_pops_spec decl.required stack indent
      have hlen : 1 ≤ stack.length := by
        cases stack
        · exact absurd rfl hst
        · simp
      rw [hpops] at h1
      dsimp only at h1
      have hne1 : ¬(decl.required :: stack.drop k).length = 1 := by
        simp only [List.length_cons, List.length_drop]
        omega
      rw [if_neg hne1] at h1
      dsimp only at h1
      cases hbody : decl_body_to_cil (indent - (k : Int) + 1) pdb block decl
          declRoles n with
      | none => rw [hbody] at h1; exact Option.noConfusion h1
      | some bp =>
        obtain ⟨body, n1⟩ := bp
        rw [hbody] at h1
        dsimp only at h1
        cases hrest : blocks_to_cil_go pdb declRoles blocks
            (decl.required :: stack.drop k) (indent - (k : Int) + 1) n1 with
        | none => rw [hrest] at h1; exact Option.noConfusion h1
        | some rest =>
          rw [hrest] at h1
          dsimp only at h1
          rw [Option.some_inj] at h1
          rw [← h1]
          have hkc : (k : Int) ≤ indent := by
            rcases hind with h' | h' <;> (rw [h']; omega)
          have hind0 : 0 ≤ indent := by
            rcases hind with h' | h' <;> (rw [h']; omega)
          have e1 : runChunks ((List.range k).map fun j : Nat =>
              println (indent - 1 - (j : Int)) ")") indent.toNat =
              some (indent.toNat - k) :=
            runChunks_pops k indent indent.toNat (by omega)
          have hhd : snet ("(optional " ++ pdb.name ++ "_optional_" ++
                toString decl.decl_id) = 1 ∧
              slow ("(optional " ++ pdb.name ++ "_optional_" ++
                toString decl.decl_id) = 0 := by
            constructor <;>
              simp [snet_append, slow_append, snet_pf, slow_pf, pdbPF_name h,
                parenFree_natToString,
                show snet "(optional " = 1 from by decide,
                show slow "(optional " = 0 from by decide,
                show parenFree "_optional_" = true from by decide] <;>
              omega
          have e2 : runStr (println (indent - (k : Int))
              ("(optional " ++ pdb.name ++ "_optional_" ++
                toString decl.decl_id)) (indent.toNat - k) =
              some (indent.toNat - k + 1) :=
            runStr_opener _ _ hhd.1 hhd.2
          have ebody : Neutral body :=
            neutral_decl_body h (hbpf block (by simp) decl (by simp [hbr])) hbody
          have erest : runChunks rest (indent - (k : Int) + 1).toNat = some 0 := by
            refine ih (fun b hb d hd => hbpf b (by simp [hb]) d hd)
              (fun b hb hne => hopt b (by simp [hb]) hne) (by simp) ?_ hrest
            simp only [List.length_cons, List.length_drop]
            omega
          have hcast : (indent - (k : Int) + 1).toNat = indent.toNat - k + 1 := by
            omega
          have s1 : runChunks (((List.range k).map fun j : Nat =>
              println (indent - 1 - (j : Int)) ")") ++
              [println (indent - (k : Int))
                ("(optional " ++ pdb.name ++ "_optional_" ++
                  toString decl.decl_id)]) indent.toNat =
              some (indent.toNat - k + 1) := by
            rw [runChunks_append_some e1]
            exact runChunks_single e2
          have s2 : runChunks ((((List.range k).map fun j : Nat =>
              println (indent - 1 - (j : Int)) ")") ++
              [println (indent - (k : Int))
                ("(optional " ++ pdb.name ++ "_optional_" ++
                  toString decl.decl_id)]) ++ ([] : List String)) indent.toNat =
              some (indent.toNat - k + 1) := by
            rw [runChunks_append_some s1]
            rfl
          have s3 : runChunks (((((List.range k).map fun j : Nat =>
              println (indent - 1 - (j : Int)) ")") ++
              [println (indent - (k : Int))
                ("(optional " ++ pdb.name ++ "_optional_" ++
                  toString decl.decl_id)]) ++ ([] : List String)) ++ body)
              indent.toNat = some (indent.toNat - k + 1) := by
            rw [runChunks_append_some s2]
            exact neutral_runChunks ebody _
          rw [runChunks_append_some s3, ← hcast]
          exact erest

theorem blocks_go_start {pdb : Policydb} {declRoles : List RoleDatum}
    (h : pdbPF pdb) :
    ∀ {blocks : List AvruleBlock} {n : Nat} {out : List String},
      (∀ b ∈ blocks, ∀ d ∈ b.branch_list, declPF d) →
      goodBlocks blocks →
      blocks_to_cil_go pdb declRoles blocks [] 0 n = some out →
      runChunks out 0 = some 0 := by
  intro blocks
  induction blocks with
  | nil =>
    intro n out _ _ h1
    simp only [blocks_to_cil_go, Option.some_inj] at h1
    rw [← h1]
    rfl
  | cons block blocks ih =>
    intro n out hbpf hgood h1
    unfold blocks_to_cil_go at h1
    cases hbr : block.branch_list with
    | nil =>
      rw [hbr] at h1
      exact ih (fun b hb d hd => hbpf b (by simp [hb]) d hd)
        (goodBlocks_cons_nil hbr hgood) h1
    | cons decl ds =>
      rw [hbr] at h1
      have hrest_opt : allDeclOptional blocks := by
        unfold goodBlocks at hgood
        rw [List.filter_cons_of_pos (by simp [hbr])] at hgood
        intro b hb hne
        exact hgood b (List.mem_filter.mpr ⟨hb, by simpa using hne⟩)
      have hdeclpf : declPF decl := hbpf block (by simp) decl (by simp [hbr])
      have hbpf' : ∀ b ∈ blocks, ∀ d ∈ b.branch_list, declPF d :=
        fun b hb d hd => hbpf b (by simp [hb]) d hd
      by_cases hopt1 : block.flags &&& AVRULE_OPTIONAL ≠ 0
      · simp only [hopt1, if_pos, reduceIte, ne_eq, not_false_eq_true] at h1
        rw [show optional_pops decl.required [] 0 = ([], 0, []) from rfl] at h1
        dsimp only at h1
        rw [if_pos (by simp)] at h1
        cases htop : top_level_to_cil pdb with
        | none => rw [htop] at h1; exact Option.noConfusion h1
        | some topOut =>
          rw [htop] at h1
          dsimp only at h1
          cases hbody : decl_body_to_cil ((0 : Int) + 1) pdb block decl
              declRoles n with
          | none => rw [hbody] at h1; exact Option.noConfusion h1
          | some bp =>
            obtain ⟨body, n1⟩ := bp
            rw [hbody] at h1
            dsimp only at h1
            cases hrest : blocks_to_cil_go pdb declRoles blocks
                [decl.required] ((0 : Int) + 1) n1 with
            | none => rw [hrest] at h1; exact Option.noConfusion h1
            | some rest =>
              rw [hrest] at h1
              dsimp only at h1
              rw [Option.some_inj] at h1
              rw [← h1]
              have hhd : snet ("(optional " ++ pdb.name ++ "_optional_" ++
                    toString decl.decl_id) = 1 ∧
                  slow ("(optional " ++ pdb.name ++ "_optional_" ++
                    toString decl.decl_id) = 0 := by
                constructor <;>
                  simp [snet_append, slow_append, snet_pf, slow_pf,
                    pdbPF_name h, parenFree_natToString,
                    show snet "(optional " = 1 from by decide,
                    show slow "(optional " = 0 from by decide,
                    show parenFree "_optional_" = true from by decide] <;>
                  omega
              have e2 : runStr (println (0 : Int)
                  ("(optional " ++ pdb.name ++ "_optional_" ++
                    toString decl.decl_id)) 0 = some 1 :=
                runStr_opener _ _ hhd.1 hhd.2
              have erest : runChunks rest ((0 : Int) + 1).toNat = some 0 := by
                refine blocks_go_phase2 h hbpf' hrest_opt (by simp) ?_ hrest
                simp
              have s1 : runChunks (([] : List String) ++
                  [println (0 : Int)
                    ("(optional " ++ pdb.name ++ "_optional_" ++
                      toString decl.decl_id)]) 0 = some 1 := by
                rw [runChunks_append_some (show runChunks
                  ([] : List String) 0 = some 0 from rfl)]
                exact runChunks_single e2
              have s2 : runChunks ((([] : List String) ++
                  [println (0 : Int)
                    ("(optional " ++ pdb.name ++ "_optional_" ++
                      toString decl.decl_id)]) ++ topOut) 0 = some 1 := by
                rw [runChunks_append_some s1]
                exact neutral_runChunks (neutral_top_level h htop) 1
              have s3 : runChunks (((([] : List String) ++
                  [println (0 : Int)
                    ("(optional " ++ pdb.name ++ "_optional_" ++
                      toString decl.decl_id)]) ++ topOut) ++ body) 0 =
                  some 1 := by
                rw [runChunks_append_some s2]
                exact neutral_runChunks (neutral_decl_body h hdeclpf hbody) 1
              rw [runChunks_append_some s3]
              simpa using erest
      · simp only [hopt1, reduceIte, ne_eq] at h1
        rw [if_pos (by simp)] at h1
        cases htop : top_level_to_cil pdb with
        | none => rw [htop] at h1; exact Option.noConfusion h1
        | some topOut =>
          rw [htop] at h1
          dsimp only at h1
          cases hbody : decl_body_to_cil (0 : Int) pdb block decl declRoles n with
          | none => rw [hbody] at h1; exact Option.noConfusion h1
          | some bp =>
            obtain ⟨body, n1⟩ := bp
            rw [hbody] at h1
            dsimp only at h1
            cases hrest : blocks_to_cil_go pdb declRoles blocks
                [decl.required] (0 : Int) n1 with
            | none => rw [hrest] at h1; exact Option.noConfusion h1
            | some rest =>
              rw [hrest] at h1
              dsimp only at h1
              rw [Option.some_inj] at h1
              rw [← h1]
              have erest : runChunks rest (0 : Int).toNat = some 0 := by
                refine blocks_go_phase2 h hbpf' hrest_opt (by simp) ?_ hrest
                simp
              have s1 : runChunks (([] : List String) ++ topOut) 0 = some 0 := by
                rw [runChunks_append_some (show runChunks
                  ([] : List String) 0 = some 0 from rfl)]
                exact neutral_runChunks (neutral_top_level h htop) 0
              have s2 : runChunks ((([] : List String) ++ topOut) ++ body) 0 =
                  some 0 := by
                rw [runChunks_append_some s1]
                exact neutral_runChunks (neutral_decl_body h hdeclpf hbody) 0
              rw [runChunks_append_some s2]
              simpa using erest

theorem balanced_blocks {pdb : Policydb} {out : List String} (h : pdbPF pdb)
    (hgood : goodBlocks pdb.global) (hb : blocks_to_cil pdb = some out) :
    runChunks out 0 = some 0 := by
  unfold blocks_to_cil at hb
  exact blocks_go_start h (pdbPF_glob h) hgood hb

/-- C8 (counterexample to the unconditional claim): a successful run of the
translator whose output is *not* parenthesis-balanced.  The package has two
non-optional decl-bearing blocks followed by an optional one; the two
non-optional blocks push their required scopes onto the optional-scope
stack without emitting any `(`, and the optional block's pop loop then
emits a stray `)` for one of them (`pp.c:2921-2925`), while its own
`(optional …` header is never closed (`pp.c:3007-3010` closes only
`indent` many parentheses, and the indent count was decremented by the
same pop loop). -/
theorem C8_counterexample :
    module_package_to_cil cxPkg = some
      ["(sensitivity s0)\n", "(sensitivityorder (s0))\n",
       "(level systemlow (s0))\n", "(role object_r)\n",
       "(handleunknown deny)\n", "(mls false)\n",
       "    )\n", "    (optional base_optional_2\n"]
    ∧ runChunks
      ["(sensitivity s0)\n", "(sensitivityorder (s0))\n",
       "(level systemlow (s0))\n", "(role object_r)\n",
       "(handleunknown deny)\n", "(mls false)\n",
       "    )\n", "    (optional base_optional_2\n"] 0 = none := by
  have hfix : fix_module_name cxPkg.pdb = cxPkg.pdb := by
    unfold fix_module_name
    rw [if_pos (by decide)]
    dsimp only
    rw [show String.map (fun c => if Semanage.isalnumC c = true then c else '_')
      "base" = "base" from by rw [String.map_eq]; decide]
    rfl
  constructor
  · unfold module_package_to_cil
    rw [if_neg (by decide)]
    rw [hfix]
    decide
  · decide

/-- C8 (amended): under the permitted-name invariant — no identifier,
permission name, access-vector string, capability name or file_contexts
token contains a parenthesis — and for block lists in which every
decl-bearing block after the first is optional (the shape the block walker
is designed for), every successful run of the translator emits
parenthesis-balanced output: every `(` written to the output, including
every `(optional …` container and every conditional header, has a matching
`)` before end of stream.  Without the block-shape restriction the
property is false (`C8_counterexample`): a non-optional block pushes onto
the optional-scope stack without emitting `(`, and a later optional
block's pop loop emits a stray `)` for it. -/
theorem C8_paren_balance (pkg : ModulePackage) (out : List String)
    (hpf : pkgPF pkg) (hgood : goodBlocks pkg.pdb.global)
    (h : module_package_to_cil pkg = some out) : balanced out := by
  unfold module_package_to_cil at h
  by_cases hty : pkg.pdb.policy_type ≠ SEPOL_POLICY_BASE ∧
      pkg.pdb.policy_type ≠ SEPOL_POLICY_MOD
  · rw [if_pos hty] at h
    exact Option.noConfusion h
  · rw [if_neg hty] at h
    obtain ⟨pre, hpre, h⟩ := Option.bind_eq_some.mp h
    obtain ⟨pc, hpc, h⟩ := Option.bind_eq_some.mp h
    obtain ⟨oc, hoc, h⟩ := Option.bind_eq_some.mp h
    obtain ⟨fc, hfc, h⟩ := Option.bind_eq_some.mp h
    obtain ⟨bl, hbl, h⟩ := Option.bind_eq_some.mp h
    simp only [Option.pure_def, Option.some_inj] at h
    rw [← h]
    have hfix : pdbPF (fix_module_name pkg.pdb) := pdbPF_fix hpf.1
    have e1 : Neutral pre := neutral_preamble hfix hpre
    have e2 : Neutral pc := neutral_polcaps hfix hpc
    have e3 : Neutral oc := neutral_ocontexts hfix hoc
    have e4 : Neutral fc := neutral_file_contexts hpf.2 hfc
    have e5 : runChunks bl 0 = some 0 := balanced_blocks hfix hgood hbl
    unfold balanced
    rw [runChunks_append_some
      (neutral_runChunks (((e1.append e2).append e3).append e4) 0)]
    exact e5

/-- Witness for `C8_paren_balance`: the minimal base-policy package emits
the six preamble lines, which are balanced. -/
theorem C8_paren_balance_witness :
    pkgPF ⟨samplePdb, []⟩ ∧ goodBlocks samplePdb.global ∧
      balanced ["(sensitivity s0)\n", "(sensitivityorder (s0))\n",
        "(level systemlow (s0))\n", "(role object_r)\n",
        "(handleunknown deny)\n", "(mls false)\n"] := by
  have hpf : pkgPF ⟨samplePdb, []⟩ := by
    refine ⟨⟨by decide,
      show ∀ s ∈ samplePdb.class_val_to_name, parenFree s = true from by decide,
      show ∀ s ∈ samplePdb.role_val_to_name, parenFree s = true from by decide,
      show ∀ s ∈ samplePdb.type_val_to_name, parenFree s = true from by decide,
      show ∀ s ∈ samplePdb.user_val_to_name, parenFree s = true from by decide,
      show ∀ s ∈ samplePdb.bool_val_to_name, parenFree s = true from by decide,
      show ∀ s ∈ samplePdb.sens_val_to_name, parenFree s = true from by decide,
      show ∀ s ∈ samplePdb.cat_val_to_name, parenFree s = true from by decide,
      ?_, ?_, ?_, ?_, ?_, ?_⟩, ?_⟩
    · intro kd hkd
      exact absurd hkd (by simp [samplePdb])
    · intro kd hkd
      exact absurd hkd (by simp [samplePdb])
    · intro kd hkd
      exact absurd hkd (by simp [samplePdb])
    · intro c d
      show parenFree " read" = true
      decide
    · intro i s hs
      exact Option.noConfusion hs
    · intro b hb
      exact absurd hb (by simp [samplePdb])
    · intro line hline
      exact absurd hline (by simp)
  have hgood : goodBlocks samplePdb.global := by
    unfold goodBlocks
    simp [samplePdb]
  exact ⟨hpf, hgood,
    C8_paren_balance ⟨samplePdb, []⟩ _ hpf hgood rfl⟩

/-- C10: the mode-token table is total exactly over the eight listed shapes
(absent, `--`, `-d`, `-c`, `-b`, `-s`, `-p`, `-l`); an absent token maps to
`any`, while for any other present token the source leaves `cilmode`
uninitialized — the model's explicit error — so a three-field line with an
unknown mode token makes the lowering fail rather than fall back to `any`. -/
theorem C10_mode_translation (m : Option String) :
    ((modeToCil m).isSome = true ↔
      (m = none ∨ m = some "--" ∨ m = some "-d" ∨ m = some "-c" ∨
       m = some "-b" ∨ m = some "-s" ∨ m = some "-p" ∨ m = some "-l"))
    ∧ modeToCil none = some "any"
    ∧ fc_line_to_cil ["/bin/sh", "-x", "system_u:object_r:bin_t"] = none := by
  refine ⟨?_, rfl, by decide⟩
  match m with
  | none => simp [modeToCil]
  | some s =>
    simp only [modeToCil]
    split_ifs with h1 h2 h3 h4 h5 h6 h7 <;> simp_all

theorem isid_go_spec (pdb : Policydb) (table : List String) (l : List Isid) :
    ∀ heads, isid_go pdb table l heads =
      (l.flatMap fun isid =>
        [println 0 ("(sid " ++ table.getD isid.sid "" ++ ")"),
         "(sidcontext " ++ table.getD isid.sid "" ++ " "]
          ++ context_to_cil pdb isid.context ++ [")\n"],
       (l.map fun i => table.getD i.sid "").reverse ++ heads) := by
  induction l with
  | nil => intro heads; simp [isid_go]
  | cons isid rest ih => intro heads; simp [isid_go, ih]

theorem avrule_to_cil_length (indent : Int) (pdb : Policydb) (type : Nat)
    (src tgt : String) (perms : List ClassPermNode)
    (h : (avruleOpName type).isSome = true) :
    ∃ ls, avrule_to_cil indent pdb type src tgt perms = some ls ∧
      ls.length = perms.length := by
  obtain ⟨r, hr⟩ := Option.isSome_iff_exists.mp h
  simp only [avrule_to_cil, hr]
  exact ⟨_, rfl, by simp⟩

theorem avrule_inner_length (indent : Int) (pdb : Policydb) (spec : Nat)
    (perms : List ClassPermNode) (s : String)
    (h : (avruleOpName spec).isSome = true) (tnames : List String) :
    ∃ ls, avrule_inner indent pdb spec perms s tnames = some ls ∧
      ls.length = tnames.length * perms.length := by
  induction tnames with
  | nil => exact ⟨[], rfl, by simp⟩
  | cons t ts ih =>
    obtain ⟨l1, hl1, hlen1⟩ := avrule_to_cil_length indent pdb spec s t perms h
    obtain ⟨l2, hl2, hlen2⟩ := ih
    refine ⟨l1 ++ l2, ?_, ?_⟩
    · simp [avrule_inner, hl1, hl2]
    · simp [hlen1, hlen2]; ring

theorem avrule_outer_length (indent : Int) (pdb : Policydb) (rule : Avrule)
    (tnames : List String) (h : (avruleOpName rule.specified).isSome = true)
    (snames : List String) :
    ∃ ls, avrule_outer indent pdb rule tnames snames = some ls ∧
      ls.length = snames.length *
        ((tnames.length + (if rule.flags &&& RULE_SELF ≠ 0 then 1 else 0)) *
          rule.perms.length) := by
  induction snames with
  | nil => exact ⟨[], rfl, by simp⟩
  | cons s ss ih =>
    obtain ⟨l1, hl1, hlen1⟩ := avrule_inner_length indent pdb rule.specified
      rule.perms s h tnames
    obtain ⟨l3, hl3, hlen3⟩ := ih
    by_cases hself : rule.flags &&& RULE_SELF ≠ 0
    · obtain ⟨l2, hl2, hlen2⟩ := avrule_to_cil_length indent pdb rule.specified
        s "self" rule.perms h
      refine ⟨l1 ++ l2 ++ l3, ?_, ?_⟩
      · simp [avrule_outer, hl1, hl2, hl3, hself]
      · simp [hlen1, hlen2, hlen3, hself]; ring
    · refine ⟨l1 ++ [] ++ l3, ?_, ?_⟩
      · simp [avrule_outer, hl1, hl3, hself]
      · simp [hlen1, hlen3, hself]; ring

/-- C2 (amended): an avrule with `m` expanded source names, `n` expanded
target names, SELF flag `s ∈ {0,1}` and `c` class-perm nodes emits exactly
`m·(n+s)·c` lines (for plain type sets, which expand without emission). -/
theorem C2_avrule_line_count (indent : Int) (pdb : Policydb) (rule : Avrule)
    (numAttrs : Nat) (hspec : (avruleOpName rule.specified).isSome = true)
    (hs : rule.stypes.negset = [] ∧ rule.stypes.flags = 0)
    (ht : rule.ttypes.negset = [] ∧ rule.ttypes.flags = 0) :
    ∃ lines, avrule_list_to_cil indent pdb [rule] numAttrs = some (lines, numAttrs) ∧
      lines.length =
        (ebitmap_to_names pdb.type_val_to_name rule.stypes.types).length *
          (((ebitmap_to_names pdb.type_val_to_name rule.ttypes.types).length +
              (if rule.flags &&& RULE_SELF ≠ 0 then 1 else 0)) *
            rule.perms.length) := by
  obtain ⟨lines, hl, hlen⟩ := avrule_outer_length indent pdb rule
    (ebitmap_to_names pdb.type_val_to_name rule.ttypes.types) hspec
    (ebitmap_to_names pdb.type_val_to_name rule.stypes.types)
  refine ⟨lines, ?_, hlen⟩
  simp [avrule_list_to_cil, typeset_to_names, hs.1, hs.2, ht.1, ht.2, hl]

/-- C2 (counterexample): an allow rule with one source name, one target
name, no SELF flag but *two* class-perm nodes emits 2 lines, not
`m·(n+s) = 1`. -/
theorem C2_counterexample :
    (avrule_list_to_cil 0 samplePdb [sampleRule2] 0).map (fun p => p.1.length)
        = some 2
    ∧ (ebitmap_to_names samplePdb.type_val_to_name sampleRule2.stypes.types).length = 1
    ∧ (ebitmap_to_names samplePdb.type_val_to_name sampleRule2.ttypes.types).length = 1
    ∧ sampleRule2.flags &&& RULE_SELF = 0
    ∧ (2 : Nat) ≠ 1 * (1 + 0) := by
  refine ⟨rfl, rfl, rfl, rfl, by decide⟩

/-- Witness for `C2_avrule_line_count` at a concrete rule. -/
theorem C2_avrule_line_count_witness :
    ∃ lines, avrule_list_to_cil 0 samplePdb [sampleRule2] 0 = some (lines, 0) ∧
      lines.length =
        (ebitmap_to_names samplePdb.type_val_to_name sampleRule2.stypes.types).length *
          (((ebitmap_to_names samplePdb.type_val_to_name sampleRule2.ttypes.types).length +
              (if sampleRule2.flags &&& RULE_SELF ≠ 0 then 1 else 0)) *
            sampleRule2.perms.length) :=
  C2_avrule_line_count 0 samplePdb sampleRule2 0 (by decide) (by decide) (by decide)

theorem fix_module_name_policy_type (pdb : Policydb) :
    (fix_module_name pdb).policy_type = pdb.policy_type := rfl

theorem fix_module_name_mls (pdb : Policydb) :
    (fix_module_name pdb).mls = pdb.mls := rfl

theorem handle_unknown_fix (pdb : Policydb) :
    handle_unknown_to_cil (fix_module_name pdb) = handle_unknown_to_cil pdb := rfl

theorem generate_mls_fix (pdb : Policydb) :
    generate_mls (fix_module_name pdb) = generate_mls pdb := rfl

/-- C4 (counterexample): a *MLS* base policy emits no default-level forms:
the driver's output starts at `(role object_r)`, because
`generate_default_level` runs only for non-MLS base policies. -/
theorem C4_counterexample :
    module_package_to_cil ⟨{samplePdb with mls := true}, []⟩ =
      some ["(role object_r)\n", "(handleunknown deny)\n", "(mls true)\n"]
    ∧ ({samplePdb with mls := true} : Policydb).policy_type = SEPOL_POLICY_BASE
    ∧ ∀ l ∈ ["(role object_r)\n", "(handleunknown deny)\n", "(mls true)\n"],
        l ≠ "(sensitivity s0)\n" ∧ l ≠ "(sensitivityorder (s0))\n" ∧
        l ≠ "(level systemlow (s0))\n" := by
  refine ⟨rfl, rfl, by decide⟩

/-- C4 (amended): for base policies the driver's successful output starts
with the default-level forms *only when the policy is non-MLS*, followed by
`(role object_r)`, the handleunknown form and the mls form in that order;
for module policies the driver's preamble contributes nothing. -/
theorem C4_preamble (pkg : ModulePackage) (out : List String)
    (h : module_package_to_cil pkg = some out) :
    (pkg.pdb.policy_type = SEPOL_POLICY_BASE →
      ∃ hu rest, handle_unknown_to_cil pkg.pdb = some hu ∧
        out = (if pkg.pdb.mls then [] else generate_default_level)
          ++ generate_default_object ++ hu ++ generate_mls pkg.pdb ++ rest)
    ∧ (pkg.pdb.policy_type = SEPOL_POLICY_MOD →
        module_package_preamble (fix_module_name pkg.pdb) = some []) := by
  unfold module_package_to_cil at h
  by_cases hguard : pkg.pdb.policy_type ≠ SEPOL_POLICY_BASE ∧
      pkg.pdb.policy_type ≠ SEPOL_POLICY_MOD
  · rw [if_pos hguard] at h
    exact absurd h (by simp)
  · rw [if_neg hguard] at h
    obtain ⟨pre, hpre, h⟩ := Option.bind_eq_some.mp h
    obtain ⟨pc, hpc, h⟩ := Option.bind_eq_some.mp h
    obtain ⟨oc, hoc, h⟩ := Option.bind_eq_some.mp h
    obtain ⟨fc, hfc, h⟩ := Option.bind_eq_some.mp h
    obtain ⟨bl, hbl, h⟩ := Option.bind_eq_some.mp h
    have hout : pre ++ pc ++ oc ++ fc ++ bl = out := by simpa using h
    constructor
    · intro hbase
      unfold module_package_preamble at hpre
      rw [fix_module_name_policy_type] at hpre
      rw [if_pos hbase] at hpre
      rw [handle_unknown_fix] at hpre
      obtain ⟨hu, hhu, hpre⟩ := Option.bind_eq_some.mp hpre
      refine ⟨hu, pc ++ oc ++ fc ++ bl, hhu, ?_⟩
      have hpre2 :
          (if pkg.pdb.policy_type = SEPOL_POLICY_BASE ∧
              ¬(fix_module_name pkg.pdb).mls = true then
            generate_default_level else [])
            ++ generate_default_object ++ hu
            ++ generate_mls (fix_module_name pkg.pdb) = pre := by
        simpa using hpre
      subst hpre2
      subst hout
      simp only [generate_mls_fix, fix_module_name_mls, hbase, List.append_assoc]
      by_cases hm : pkg.pdb.mls <;> simp [hm]
    · intro hmod
      unfold module_package_preamble
      rw [fix_module_name_policy_type, hmod]
      have h1 : ¬(SEPOL_POLICY_MOD = SEPOL_POLICY_BASE ∧ ¬pkg.pdb.mls) := by
        intro hc; exact absurd hc.1 (by decide)
      have h2 : ¬(SEPOL_POLICY_MOD = SEPOL_POLICY_BASE) := by decide
      rw [fix_module_name_mls, if_neg h1, if_neg h2]

/-- Witness for `C4_preamble` at a concrete non-MLS base package. -/
theorem C4_preamble_witness :
    (({ pdb := samplePdb, file_contexts := [] } : ModulePackage).pdb.policy_type =
        SEPOL_POLICY_BASE →
      ∃ hu rest, handle_unknown_to_cil samplePdb = some hu ∧
        ["(sensitivity s0)\n", "(sensitivityorder (s0))\n",
         "(level systemlow (s0))\n", "(role object_r)\n",
         "(handleunknown deny)\n", "(mls false)\n"] =
          (if samplePdb.mls then [] else generate_default_level)
            ++ generate_default_object ++ hu ++ generate_mls samplePdb ++ rest)
    ∧ (({ pdb := samplePdb, file_contexts := [] } : ModulePackage).pdb.policy_type =
          SEPOL_POLICY_MOD →
        module_package_preamble (fix_module_name samplePdb) = some []) :=
  C4_preamble ⟨samplePdb, []⟩
    ["(sensitivity s0)\n", "(sensitivityorder (s0))\n", "(level systemlow (s0))\n",
     "(role object_r)\n", "(handleunknown deny)\n", "(mls false)\n"] rfl

theorem cond_run_valid (pdb : Policydb) (nodes : List CondExprNode) :
    ∀ stack : List String,
      (match cond_expr_run pdb nodes stack with
       | none => false
       | some st => st.length == 1) = condRPNValid nodes stack.length := by
  induction nodes with
  | nil => intro stack; simp [cond_expr_run, condRPNValid]
  | cons n rest ih =>
    intro stack
    obtain ⟨t, bid⟩ := n
    by_cases hb : t = COND_BOOL
    · subst hb
      have key := ih (("(" ++ vtn pdb.bool_val_to_name (bid - 1) ++ ")") :: stack)
      simp only [cond_expr_run, condRPNValid, condArity, COND_BOOL] at key ⊢
      simp only [if_pos rfl, reduceIte] at *
      rw [key]
      simp
    · by_cases hn : t = COND_NOT
      · subst hn
        cases stack with
        | nil =>
          simp [cond_expr_run, condRPNValid, condArity, condOpName,
            COND_BOOL, COND_NOT]
        | cons v st =>
          have key := ih (("(" ++ "not" ++ " " ++ v ++ ")") :: st)
          simp only [cond_expr_run, condRPNValid, condArity, condOpName,
            COND_BOOL, COND_NOT] at key ⊢
          simp only [show ¬(2 = 1) from by decide, if_neg, if_pos rfl,
            reduceIte, key, List.length_cons]
          simp
      · by_cases hbin : t = COND_OR ∨ t = COND_AND ∨ t = COND_XOR ∨
            t = COND_EQ ∨ t = COND_NEQ
        · have harity : condArity t = some 2 := by
            rcases hbin with h | h | h | h | h <;> subst h <;> decide
          obtain ⟨op, hop⟩ : ∃ op, condOpName t = some op := by
            rcases hbin with h | h | h | h | h <;> subst h
            · exact ⟨"or", by decide⟩
            · exact ⟨"and", by decide⟩
            · exact ⟨"xor", by decide⟩
            · exact ⟨"eq", by decide⟩
            · exact ⟨"neq", by decide⟩
          have hnot : ¬(t = COND_NOT) := hn
          match stack with
          | [] =>
            simp [cond_expr_run, condRPNValid, harity, hop, hb, hnot]
          | [v] =>
            simp [cond_expr_run, condRPNValid, harity, hop, hb, hnot]
          | v2 :: v1 :: st2 =>
            have key := ih (("(" ++ op ++ " " ++ v1 ++ " " ++ v2 ++ ")") :: st2)
            simp only [cond_expr_run, condRPNValid, harity, hop, hb, hnot,
              if_neg, if_false, reduceIte] at key ⊢
            rw [key]
            simp
        · have harity : condArity t = none := by
            simp [condArity, hb, hn, hbin]
          have hop : condOpName t = none := by
            push_neg at hbin
            simp [condOpName, hn, hbin.1, hbin.2.1, hbin.2.2.1, hbin.2.2.2]
          simp [cond_expr_run, condRPNValid, hb, harity, hop]

/-- C7: conditional-expression lowering fails (emitting no header) exactly
when the RPN node list is invalid — an operator lacks its operands, a node
has an unknown type, or the final operand stack does not hold exactly one
operand; on success the single emitted header line is `(tunableif <expr>`
when the flags include TUNABLE and `(booleanif <expr>` otherwise. -/
theorem C7_cond_expr (indent : Int) (pdb : Policydb) (nodes : List CondExprNode)
    (flags : Nat) :
    ((cond_expr_to_cil indent pdb nodes flags).isSome = true ↔
      condRPNValid nodes 0 = true)
    ∧ ∀ chunks, cond_expr_to_cil indent pdb nodes flags = some chunks →
        ∃ e, chunks = [println indent ("(" ++
          (if flags &&& COND_NODE_FLAGS_TUNABLE ≠ 0 then "tunableif"
           else "booleanif") ++ " " ++ e)] := by
  have key := cond_run_valid pdb nodes []
  constructor
  · unfold cond_expr_to_cil
    cases hrun : cond_expr_run pdb nodes [] with
    | none => rw [hrun] at key; simp at key; simp [← key]
    | some st =>
      rw [hrun] at key
      match st with
      | [] => simp at key; simp [← key]
      | [v] => simp at key; simp [← key]
      | v1 :: v2 :: st2 => simp at key; simp [← key]
  · intro chunks hc
    unfold cond_expr_to_cil at hc
    cases hrun : cond_expr_run pdb nodes [] with
    | none => rw [hrun] at hc; exact absurd hc (by simp)
    | some st =>
      rw [hrun] at hc
      match st with
      | [] => exact absurd hc (by simp)
      | [v] => exact ⟨v, by simpa using hc.symm⟩
      | v1 :: v2 :: st2 => exact absurd hc (by simp)

/-- Witness for `C7_cond_expr` at the RPN list `b1, b2, NOT, AND`. -/
theorem C7_cond_expr_witness :
    ((cond_expr_to_cil 0 samplePdb
        [⟨COND_BOOL, 1⟩, ⟨COND_BOOL, 2⟩, ⟨COND_NOT, 0⟩, ⟨COND_AND, 0⟩] 1).isSome = true
      ↔ condRPNValid
          [⟨COND_BOOL, 1⟩, ⟨COND_BOOL, 2⟩, ⟨COND_NOT, 0⟩, ⟨COND_AND, 0⟩] 0 = true)
    ∧ ∀ chunks, cond_expr_to_cil 0 samplePdb
          [⟨COND_BOOL, 1⟩, ⟨COND_BOOL, 2⟩, ⟨COND_NOT, 0⟩, ⟨COND_AND, 0⟩] 1 =
        some chunks →
        ∃ e, chunks = [println 0 ("(" ++
          (if 1 &&& COND_NODE_FLAGS_TUNABLE ≠ 0 then "tunableif"
           else "booleanif") ++ " " ++ e)] :=
  C7_cond_expr 0 samplePdb
    [⟨COND_BOOL, 1⟩, ⟨COND_BOOL, 2⟩, ⟨COND_NOT, 0⟩, ⟨COND_AND, 0⟩] 1

/-- C1 (counterexample): (a) with required scope `emptyScope` and stack
`[scopeA, emptyScope]` the top element *is* a superset of the required
scope, yet the walker pops it (the source tests
`is_scope_superset(&decl->required, stack_peek(stack))`, the opposite
direction of the claim); (b) with the single-element stack `[scopeA]`,
non-empty and with a top that is not a superset of the required scope
`scopeB` in either direction, nothing is popped (`stack->pos > 0` requires
more than one element, not mere non-emptiness). -/
theorem C1_counterexample :
    is_scope_superset scopeA emptyScope = true
    ∧ optional_pops emptyScope [scopeA, emptyScope] 5 =
        ([emptyScope], 4, [println 4 ")"])
    ∧ is_scope_superset scopeA scopeB = false
    ∧ is_scope_superset scopeB scopeA = false
    ∧ ([scopeA] : List ScopeIndex) ≠ []
    ∧ optional_pops scopeB [scopeA] 5 = ([scopeA], 5, []) := by
  refine ⟨by decide, rfl, by decide, by decide, by simp, rfl⟩

/-- C1 (amended): at an optional block with a non-null first decl branch
the walker pops the stack while it holds *more than one* element and
`decl.required` is *not a superset of* the top element — emitting one
closing `)` at each decremented indent — then emits
`(optional <module>_optional_<decl_id>` at the post-pop indent, increments
the indent and pushes `decl.required`. -/
theorem C1_optional_step :
    (∀ (req : ScopeIndex) (stack : List ScopeIndex) (indent : Int),
      ∃ k, optional_pops req stack indent =
          (stack.drop k, indent - (k : Int),
           (List.range k).map fun j : Nat => println (indent - 1 - (j : Int)) ")")
        ∧ k ≤ stack.length - 1
        ∧ (∀ j, j < k → ∃ top, stack[j]? = some top ∧
            is_scope_superset req top = false)
        ∧ (k = stack.length - 1 ∨ ∃ top, stack[k]? = some top ∧
            is_scope_superset req top = true))
    ∧ (∀ (pdb : Policydb) (declRoles : List RoleDatum) (block : AvruleBlock)
        (blocks : List AvruleBlock) (stack : List ScopeIndex) (indent : Int)
        (n : Nat) (decl : AvruleDecl) (ds : List AvruleDecl) (out : List String),
      block.flags &&& AVRULE_OPTIONAL ≠ 0 →
      block.branch_list = decl :: ds →
      blocks_to_cil_go pdb declRoles (block :: blocks) stack indent n = some out →
      ∃ topOut body rest n1,
        out = (optional_pops decl.required stack indent).2.2
          ++ println (optional_pops decl.required stack indent).2.1
               ("(optional " ++ pdb.name ++ "_optional_" ++ toString decl.decl_id)
          :: (topOut ++ body ++ rest)
        ∧ decl_body_to_cil ((optional_pops decl.required stack indent).2.1 + 1)
            pdb block decl declRoles n = some (body, n1)
        ∧ blocks_to_cil_go pdb declRoles blocks
            (decl.required :: (optional_pops decl.required stack indent).1)
            ((optional_pops decl.required stack indent).2.1 + 1) n1 = some rest) := by
  refine ⟨optional_pops_spec, ?_⟩
  intro pdb declRoles block blocks stack indent n decl ds out hopt hbranch h
  unfold blocks_to_cil_go at h
  rw [hbranch] at h
  simp only [hopt, if_pos, reduceIte, ne_eq, not_false_eq_true] at h
  cases htopm : (if (decl.required ::
      (optional_pops decl.required stack indent).1).length = 1 then
      top_level_to_cil pdb else some ([] : List String)) with
  | none => rw [htopm] at h; exact absurd h (by simp)
  | some topOut =>
    rw [htopm] at h
    dsimp only at h
    cases hbodym : decl_body_to_cil
        ((optional_pops decl.required stack indent).2.1 + 1) pdb block decl
        declRoles n with
    | none => rw [hbodym] at h; exact absurd h (by simp)
    | some bodyn =>
      obtain ⟨body, n1⟩ := bodyn
      rw [hbodym] at h
      dsimp only at h
      cases hrestm : blocks_to_cil_go pdb declRoles blocks
          (decl.required :: (optional_pops decl.required stack indent).1)
          ((optional_pops decl.required stack indent).2.1 + 1) n1 with
      | none => rw [hrestm] at h; exact absurd h (by simp)
      | some rest =>
        rw [hrestm] at h
        dsimp only at h
        refine ⟨topOut, body, rest, n1, ?_, by simp_all, by simp_all⟩
        have hout : (optional_pops decl.required stack indent).2.2
            ++ [println (optional_pops decl.required stack indent).2.1
                 ("(optional " ++ pdb.name ++ "_optional_" ++
                   toString decl.decl_id)]
            ++ topOut ++ body ++ rest = out := by simpa using h
        rw [← hout]
        simp [List.append_assoc]

/-- Witness for `C1_optional_step`: a single optional block over the empty
stack. -/
theorem C1_optional_step_witness :
    ∃ topOut body rest n1,
      (["(optional base_optional_7\n", ")\n"] : List String) =
        (optional_pops (mkDecl 7 emptyScope).required [] 0).2.2
          ++ println (optional_pops (mkDecl 7 emptyScope).required [] 0).2.1
               ("(optional " ++ samplePdb.name ++ "_optional_" ++
                 toString (mkDecl 7 emptyScope).decl_id)
          :: (topOut ++ body ++ rest)
        ∧ decl_body_to_cil
            ((optional_pops (mkDecl 7 emptyScope).required [] 0).2.1 + 1)
            samplePdb ⟨AVRULE_OPTIONAL, [mkDecl 7 emptyScope]⟩ (mkDecl 7 emptyScope)
            [] 0 = some (body, n1)
        ∧ blocks_to_cil_go samplePdb [] []
            ((mkDecl 7 emptyScope).required ::
              (optional_pops (mkDecl 7 emptyScope).required [] 0).1)
            ((optional_pops (mkDecl 7 emptyScope).required [] 0).2.1 + 1) n1 =
            some rest :=
  C1_optional_step.2 samplePdb [] ⟨AVRULE_OPTIONAL, [mkDecl 7 emptyScope]⟩ [] [] 0 0
    (mkDecl 7 emptyScope) [] ["(optional base_optional_7\n", ")\n"]
    (by decide) rfl rfl

/-- C5 (counterexample): categories and booleans *also* suppress emission
under `SCOPE_REQ` — their converters return nothing for every datum while
emitting a declaration form under `SCOPE_DECL` — so classes are not the
only symbol kind that suppresses. -/
theorem C5_counterexample :
    cat_to_cil 0 samplePdb "c0" ⟨1, false⟩ SCOPE_REQ = []
    ∧ cat_to_cil 0 samplePdb "c0" ⟨1, false⟩ SCOPE_DECL =
        [println 0 "(category c0)"]
    ∧ boolean_to_cil 0 "b0" ⟨true, 0⟩ SCOPE_REQ = []
    ∧ boolean_to_cil 0 "b0" ⟨true, 0⟩ SCOPE_DECL =
        [println 0 "(boolean b0 true)"] :=
  ⟨rfl, rfl, rfl, rfl⟩

theorem symScopeFold_nil {α : Type} (valNames : List String)
    (tab : List (String × α)) (conv : String → α → Option (List String))
    (hconv : ∀ k d, conv k d = some []) :
    ∀ (l : List Nat) (out : List String),
      symScopeFold valNames tab conv l = some out → out = [] := by
  intro l
  induction l with
  | nil => intro out h; simpa [symScopeFold] using h.symm
  | cons i is ih =>
    intro out h
    unfold symScopeFold at h
    dsimp only at h
    cases hlook : tab.lookup (vtn valNames i) with
    | none => rw [hlook] at h; exact absurd h (by simp)
    | some d =>
      rw [hlook] at h
      dsimp only at h
      rw [hconv (vtn valNames i) d] at h
      have h2 : symScopeFold valNames tab conv is = some out := by simpa using h
      exact ih out h2

/-- C5 (amended): required-scope emission calls the same converters with
`SCOPE_REQ`, and the kinds that suppress emission under `SCOPE_REQ` are the
classes, the booleans *and* the categories (each emits nothing for every
datum), while types, sensitivities, users and roles can still emit forms
under `SCOPE_REQ`; consequently a decl whose required scope holds only
classes, booleans and categories emits nothing. -/
theorem C5_required_scope_suppression :
    (∀ (indent : Int) (pdb : Policydb) (key : String) (cls : ClassDatum),
      class_to_cil indent pdb key cls SCOPE_REQ = some [])
    ∧ (∀ (indent : Int) (key : String) (b : BoolDatum),
      boolean_to_cil indent key b SCOPE_REQ = [])
    ∧ (∀ (indent : Int) (pdb : Policydb) (key : String) (c : CatDatum),
      cat_to_cil indent pdb key c SCOPE_REQ = [])
    ∧ type_to_cil 0 samplePdb "a" ⟨1, TYPE_TYPE, 1, TYPE_FLAGS_PERMISSIVE, 0, []⟩
        SCOPE_REQ = some [println 0 "(typepermissive a)"]
    ∧ sens_to_cil 0 { samplePdb with cat_val_to_name := ["c0"] } "s0"
        ⟨false, ⟨1, [0]⟩⟩ SCOPE_REQ = ["", "(sensitivitycategory s0 (", "c0 ", "))\n"]
    ∧ user_to_cil 0 samplePdb ⟨0, []⟩ "u" ⟨[], ⟨1, []⟩, ⟨⟨1, []⟩, ⟨1, []⟩⟩⟩
        SCOPE_REQ ≠ []
    ∧ role_to_cil 0 samplePdb "r" ⟨1, ROLE_ROLE, ⟨[], [], 0⟩, [], 1, []⟩
        SCOPE_REQ 0 = some ([println 0 "(rolebounds r object_r)"], 0)
    ∧ (∀ (indent : Int) (pdb : Policydb) (block : AvruleBlock) (decl : AvruleDecl)
        (n : Nat) (out : List String) (n' : Nat),
      decl.required.scope SYM_ROLES = [] → decl.required.scope SYM_TYPES = [] →
      decl.required.scope SYM_USERS = [] → decl.required.scope SYM_LEVELS = [] →
      required_scopes_to_cil indent pdb block decl n = some (out, n') →
      out = [] ∧ n' = n) := by
  refine ⟨?_, ?_, ?_, rfl, rfl, by decide, rfl, ?_⟩
  · intro indent pdb key cls; simp [class_to_cil, SCOPE_REQ]
  · intro indent key b; simp [boolean_to_cil, SCOPE_REQ, SCOPE_DECL]
  · intro indent pdb key c; simp [cat_to_cil, SCOPE_REQ]
  · intro indent pdb block decl n out n' h2 h3 h4 h5 h
    unfold required_scopes_to_cil at h
    rw [h2, h3, h4, h5] at h
    obtain ⟨cls, hcls, h⟩ := Option.bind_eq_some.mp h
    obtain ⟨rlsn, hrls, h⟩ := Option.bind_eq_some.mp h
    obtain ⟨tys, htys, h⟩ := Option.bind_eq_some.mp h
    obtain ⟨usrs, husrs, h⟩ := Option.bind_eq_some.mp h
    obtain ⟨bls, hbls, h⟩ := Option.bind_eq_some.mp h
    obtain ⟨lvls, hlvls, h⟩ := Option.bind_eq_some.mp h
    obtain ⟨cts, hcts, h⟩ := Option.bind_eq_some.mp h
    have hcls0 : cls = [] := symScopeFold_nil _ _ _
      (fun k d => by simp [class_to_cil, SCOPE_REQ]) _ _ hcls
    have hbls0 : bls = [] := symScopeFold_nil _ _ _
      (fun k d => by simp [boolean_to_cil, SCOPE_REQ, SCOPE_DECL]) _ _ hbls
    have hcts0 : cts = [] := symScopeFold_nil _ _ _
      (fun k d => by simp [cat_to_cil, SCOPE_REQ]) _ _ hcts
    have hrls0 : rlsn = ([], n) := by simpa [symScopeFoldN] using hrls.symm
    have htys0 : tys = [] := by simpa [symScopeFold] using htys.symm
    have husrs0 : usrs = [] := by simpa [symScopeFold] using husrs.symm
    have hlvls0 : lvls = [] := by simpa [symScopeFold] using hlvls.symm
    subst hcls0 hbls0 hcts0 hrls0 htys0 husrs0 hlvls0
    have hpair : (out, n') = ([] ++ [] ++ [] ++ [] ++ [] ++ [] ++ [], n) := by
      simpa using h.symm
    have h1 : out = [] := by simpa using congrArg Prod.fst hpair
    have hn : n' = n := by simpa using congrArg Prod.snd hpair
    exact ⟨h1, hn⟩

/-- Witness for `C5_required_scope_suppression`: a decl whose required
scope holds one class emits nothing under required-scope emission. -/
theorem C5_required_scope_suppression_witness :
    ∃ out n', required_scopes_to_cil 0 pdbC5 ⟨0, []⟩ (mkDecl 1 scopeCls) 0 =
        some (out, n') ∧ out = [] ∧ n' = 0 :=
  ⟨[], 0, rfl,
    C5_required_scope_suppression.2.2.2.2.2.2.2 0 pdbC5 ⟨0, []⟩ (mkDecl 1 scopeCls)
      0 [] 0 rfl rfl rfl rfl rfl⟩

/-- C3 (counterexample): with `flags = STAR` and a non-empty positive set,
the synthesised attributeset body is `(all)` *followed by* the positive
list — not exactly `(all)` as the claim states (the source has no `else`
between the STAR case and the member-list cases). -/
theorem C3_counterexample :
    String.join (set_attr_body ["t0"] [0] [] TYPE_STAR) = "(all)(t0 ) "
    ∧ TYPE_STAR &&& TYPE_STAR ≠ 0
    ∧ "(all)(t0 ) " ≠ "(all)" := by
  refine ⟨rfl, by decide, by decide⟩

/-- C3 (amended): if the flags include STAR then `(all)` is emitted first
and the positive/negative member lists are *additionally* emitted when
non-empty; the body is exactly `(all)` only when both member lists are
empty and COMP is unset.  Without flags the body takes the claimed three
shapes (`(and (p…) (not (n…)))`, `(p…)`, `(not (n…))`). -/
theorem C3_attr_body_shapes (valNames : List String) (pos neg : Ebitmap)
    (flags : Nat) :
    (flags &&& TYPE_STAR ≠ 0 → flags &&& TYPE_COMP = 0 → pos = [] → neg = [] →
      set_attr_body valNames pos neg flags = ["(all)"])
    ∧ (flags &&& TYPE_STAR ≠ 0 → flags &&& TYPE_COMP = 0 → pos ≠ [] → neg = [] →
      set_attr_body valNames pos neg flags =
        ["(all)", "("] ++ pos.map (fun i => vtn valNames i ++ " ") ++ [") "])
    ∧ (flags = 0 → pos ≠ [] → neg ≠ [] →
      set_attr_body valNames pos neg flags =
        ["(and ", "("] ++ pos.map (fun i => vtn valNames i ++ " ") ++ [") ", "(not ("]
          ++ neg.map (fun i => vtn valNames i ++ " ") ++ ["))", ")"])
    ∧ (flags = 0 → pos ≠ [] → neg = [] →
      set_attr_body valNames pos neg flags =
        ["("] ++ pos.map (fun i => vtn valNames i ++ " ") ++ [") "])
    ∧ (flags = 0 → pos = [] → neg ≠ [] →
      set_attr_body valNames pos neg flags =
        ["(not ("] ++ neg.map (fun i => vtn valNames i ++ " ") ++ ["))"]) := by
  refine ⟨?_, ?_, ?_, ?_, ?_⟩ <;> intro h1 h2 h3 <;>
    first
      | (intro h4; simp [set_attr_body, h1, h2, h3, h4])
      | simp [set_attr_body, h1, h2, h3]

/-- Witness for `C3_attr_body_shapes`: the STAR-with-positive-set shape at a
concrete input. -/
theorem C3_attr_body_shapes_witness :
    set_attr_body ["t0"] [0] [] TYPE_STAR =
      ["(all)", "("] ++ [0].map (fun i => vtn ["t0"] i ++ " ") ++ [") "] :=
  (C3_attr_body_shapes ["t0"] [0] [] TYPE_STAR).2.1 (by decide) (by decide)
    (by decide) rfl

/-- C6: initial-SID lowering emits one `(sid NAME)` line and one
`(sidcontext NAME …)` form per entry in input order, then — only when the
input is non-empty — exactly one `(sidorder (…))` whose name list is the
exact reverse of the input order. -/
theorem C6_sidorder_reverse (pdb : Policydb) (table : List String)
    (isids : List Isid) :
    ocontext_isid_to_cil pdb table isids =
      (isids.flatMap fun isid =>
        [println 0 ("(sid " ++ table.getD isid.sid "" ++ ")"),
         "(sidcontext " ++ table.getD isid.sid "" ++ " "]
          ++ context_to_cil pdb isid.context ++ [")\n"])
      ++ (if isids.isEmpty then []
          else ["(sidorder ("]
            ++ ((isids.map fun i => table.getD i.sid "").reverse.map (· ++ " "))
            ++ ["))\n"]) := by
  unfold ocontext_isid_to_cil
  rw [isid_go_spec]
  cases isids <;> simp

end PP

namespace Semanage

theorem nameBodyChar_eq_isValid (c : Char) : nameBodyChar c = isValidNameChar c := rfl

theorem validate_name_loop_eq (l : List Char) :
    validate_name_loop l = if matchesGroups l then 0 else -1 := by
  generalize hn : l.length = n
  induction n using Nat.strong_induction_on generalizing l with
  | _ n ih =>
    match l, hn with
    | [], _ => simp [validate_name_loop, matchesGroups]
    | c :: rest, hn =>
      by_cases hv : isValidNameChar c = true
      · have hdot : c ≠ '.' := by
          intro h; subst h; exact absurd hv (by decide)
        have step : matchesGroups (c :: rest) = matchesGroups rest := by
          conv_lhs => rw [matchesGroups.eq_def]
          simp [nameBodyChar_eq_isValid, hv, hdot]
        have ihr := ih rest.length (by simp [← hn]) rest rfl
        conv_lhs => rw [validate_name_loop.eq_def]
        simp [hv, step, ihr]
      · by_cases hd : c = '.'
        · subst hd
          match rest with
          | [] =>
            have h1 : nameBodyChar '.' = false := by decide
            conv_lhs => rw [validate_name_loop.eq_def]
            simp [matchesGroups, hv, h1]
          | c2 :: rest2 =>
            have h1 : nameBodyChar '.' = false := by decide
            by_cases hv2 : isValidNameChar c2 = true
            · have ihr := ih rest2.length (by simp [← hn]; omega) rest2 rfl
              conv_lhs => rw [validate_name_loop.eq_def]
              simp [matchesGroups, hv, hv2, h1, nameBodyChar_eq_isValid, ihr]
            · conv_lhs => rw [validate_name_loop.eq_def]
              simp [matchesGroups, hv, hv2, h1, nameBodyChar_eq_isValid]
        · conv_lhs => rw [validate_name_loop.eq_def]
          conv_rhs => rw [matchesGroups.eq_def]
          simp [hv, hd, nameBodyChar_eq_isValid]

/-- C9: `semanage_module_validate_name` returns 0 exactly for the literal
`"_base"` or a string matching `^[A-Za-z]([.]?[A-Za-z0-9_-])*$`, and returns
-1 for every other input, including the null string. -/
theorem C9_validate_name_spec (s : Option (List Char)) :
    semanage_module_validate_name s = if nameSpecAccepts s then 0 else -1 := by
  match s with
  | none => rfl
  | some l =>
    by_cases hb : l = "_base".toList
    · simp [semanage_module_validate_name, nameSpecAccepts, hb]
    · match l with
      | [] => simp [semanage_module_validate_name, nameSpecAccepts,
          matchesNameRegex, hb]
      | c :: rest =>
        by_cases ha : isalphaC c = true
        · have hc : ¬(c = '_' ∧ rest = ['b', 'a', 's', 'e']) := by simpa using hb
          simp [semanage_module_validate_name, nameSpecAccepts, matchesNameRegex,
            hb, ha, hc, validate_name_loop_eq rest]
        · simp [semanage_module_validate_name, nameSpecAccepts, matchesNameRegex,
            hb, ha]

end Semanage
